import Mathlib

/-!
# Numerical-Methods-Algorithm: a shallow embedding of the solvers

The repository holds four solvers, each living inside the COMPUTE handler of an
SDL program: Gaussian elimination for a 2x2 system, false position, fixed-point
iteration (quadratic and exponential families) and the secant method. The
fixed-point iteration for the quadratic family also exists as a console program
(main.c).

Modelling conventions used throughout:

* A C `double` is an element of a linearly ordered field `K` (exact arithmetic);
  every definition is generic in `K`, so it runs on `ℚ` and specialises to `ℝ`.
* The variables of `main` that survive from one COMPUTE click to the next form a
  state record; a COMPUTE handler is a function from the old state and the parsed
  inputs to the new state.
* `sprintf(resultText, ...)` is modelled by a constructor per message.
* The libm functions `exp`, `log`, `sqrt` are parameters of type `K → K`.
* A `for` loop with a constant bound is a recursion on the remaining number of
  iterations.
* The `do ... while` loop of main.c has no bound in its loop statement: it is a
  recursion on an amount of fuel that returns `none` when the fuel runs out, and
  termination is a theorem (50 units of fuel always suffice).
* Exact arithmetic has no overflow. The false-position handler and the exponential
  `g` are therefore given a second time with the special values of double
  arithmetic (`Fp`: finite, `+inf`, `-inf`, NaN), where `exp(1000)` is `+inf` and
  `inf / inf` is NaN; rounding inside the range of a double is not modelled.
-/

set_option linter.unusedSectionVars false

namespace NumericalMethods

/-- The literal `1e-10` used by every pivot and denominator guard. -/
def tiny {K : Type} [LinearOrderedField K] : K := 1 / 10 ^ 10

/-! ## Elimination_Linear_Equation.c -/

namespace Elimination

/-- The messages the program writes into `resultText`. -/
inductive ResultText (K : Type) where
  /-- The text "Enter coefficients for both equations" (start-up and CLEAR). -/
  | enterCoefficients : ResultText K
  /-- The text "ERROR: a1 cannot be zero / Swap equations or adjust values". -/
  | errorA1Zero : ResultText K
  /-- The text "INFINITE SOLUTIONS / Equations are dependent (same line)". -/
  | infiniteSolutions : ResultText K
  /-- The text "NO SOLUTION / Equations are inconsistent (parallel lines)". -/
  | noSolution : ResultText K
  /-- The text "SUCCESS! / Solution: x = .., y = ..". -/
  | success (x y : K) : ResultText K
  deriving DecidableEq

/-- The variables of `main` (lines 259-269) that persist between events. -/
structure State (K : Type) where
  resultText : ResultText K
  hasSolution : Nat
  solX : K
  solY : K
  a1 : K
  b1 : K
  c1 : K
  a2 : K
  b2 : K
  c2 : K
  s_multiplier : K
  s_new_b2 : K
  s_new_c2 : K
  s_verify1 : K
  s_verify2 : K
  hasSteps : Nat
  specialCase : Nat
  deriving DecidableEq

variable {K : Type} [LinearOrderedField K]

/-- The state right after the declarations of `main` (lines 259-269). -/
def initial : State K :=
  { resultText := .enterCoefficients, hasSolution := 0, solX := 0, solY := 0,
    a1 := 0, b1 := 0, c1 := 0, a2 := 0, b2 := 0, c2 := 0,
    s_multiplier := 0, s_new_b2 := 0, s_new_c2 := 0, s_verify1 := 0, s_verify2 := 0,
    hasSteps := 0, specialCase := 0 }

/-- The COMPUTE handler, lines 296-331: the six parsed coefficients are stored, the
three flags are reset, and the elimination runs. -/
def compute (s : State K) (a1 b1 c1 a2 b2 c2 : K) : State K :=
  let s0 : State K :=
    { s with a1 := a1, b1 := b1, c1 := c1, a2 := a2, b2 := b2, c2 := c2,
             hasSolution := 0, hasSteps := 0, specialCase := 0 }
  if |a1| < tiny then
    { s0 with resultText := .errorA1Zero }
  else
    let s_multiplier := a2 / a1
    let s_new_b2 := b2 - s_multiplier * b1
    let s_new_c2 := c2 - s_multiplier * c1
    let s1 : State K :=
      { s0 with hasSteps := 1, s_multiplier := s_multiplier,
                s_new_b2 := s_new_b2, s_new_c2 := s_new_c2 }
    if |s_new_b2| < tiny then
      if |s_new_c2| < tiny then
        { s1 with specialCase := 1, resultText := .infiniteSolutions }
      else
        { s1 with specialCase := 2, resultText := .noSolution }
    else
      let solY := s_new_c2 / s_new_b2
      let solX := (c1 - b1 * solY) / a1
      { s1 with solY := solY, solX := solX,
                s_verify1 := a1 * solX + b1 * solY,
                s_verify2 := a2 * solX + b2 * solY,
                hasSolution := 1,
                resultText := .success solX solY }

/-- The display test of line 584: `fabs(s_verify1 - c1) < 0.01`. -/
def check1 (s : State K) : Bool := decide (|s.s_verify1 - s.c1| < 1 / 100)

/-- The display test of line 590: `fabs(s_verify2 - c2) < 0.01`. -/
def check2 (s : State K) : Bool := decide (|s.s_verify2 - s.c2| < 1 / 100)

end Elimination

/-! ## Goyena/false_position_exponential.c -/

namespace FalsePosition

/-- The constant `MAX_ITER` (`#define MAX_ITER 50`). -/
def MAX_ITER : Nat := 50

/-- The constant `TOLERANCE` (`#define TOLERANCE 0.0001`). -/
def TOLERANCE {K : Type} [LinearOrderedField K] : K := 1 / 10000

/-- The struct `IterationRow` of lines 13-22. -/
structure IterationRow (K : Type) where
  iteration : Nat
  x0 : K
  x1 : K
  x2 : K
  fx0 : K
  fx1 : K
  fx2 : K
  error : K
  deriving DecidableEq

/-- The messages the program writes into `resultText`. -/
inductive ResultText (K : Type) where
  /-- The text "Enter coefficients and initial guesses (x0 and x1)". -/
  | enterValues : ResultText K
  /-- The text "ERROR: f(x0) and f(x1) must have opposite signs!" with the four numbers shown. -/
  | errorOppositeSigns (x0 fx0 x1 fx1 : K) : ResultText K
  /-- The text "SUCCESS! / Root: x = .. / Iterations: ..". -/
  | success (x2 : K) (iterations : Nat) : ResultText K
  /-- The text "FAILED: Did not converge / Try different initial guesses". -/
  | failedDidNotConverge : ResultText K
  deriving DecidableEq

/-- The variables of `main` that persist between events. The array `iterations` is a
function from the index to the row stored there; rows at or beyond `totalIterations`
are whatever an earlier run left. -/
structure State (K : Type) where
  resultText : ResultText K
  finalRoot : K
  hasValidRoot : Nat
  coefA : K
  coefB : K
  iterations : Nat → IterationRow K
  totalIterations : Nat

variable {K : Type} [LinearOrderedField K]

/-- The state right after the declarations of `main`; the local array `iterations` has
no initialiser, so its start contents `junk` are arbitrary. -/
def initial (junk : Nat → IterationRow K) : State K :=
  { resultText := .enterValues, finalRoot := 0, hasValidRoot := 0, coefA := 0, coefB := 0,
    iterations := junk, totalIterations := 0 }

/-- Lines 40-42: `f(x) = exp(x) - a*x - b`. -/
def f (exp : K → K) (x a b : K) : K := exp x - a * x - b

/-- The `for` loop of lines 276-306; `fuel` is `MAX_ITER - iter`. The quotient is the
field quotient: in a run started by `compute` the two function values have opposite signs
at every iteration (`specBracket_opposite` below), so the denominator is never zero. -/
def loop (exp : K → K) : Nat → Nat → K → K → K → K → State K → State K
  | 0, _, _, _, _, _, s => s
  | fuel + 1, iter, x0, x1, fx0, fx1, s =>
    let x2 := x1 - fx1 * (x1 - x0) / (fx1 - fx0)
    let fx2 := f exp x2 s.coefA s.coefB
    let error := |fx2|
    let s1 : State K :=
      { s with
        iterations := Function.update s.iterations iter
          { iteration := iter + 1, x0 := x0, x1 := x1, x2 := x2,
            fx0 := fx0, fx1 := fx1, fx2 := fx2, error := error },
        totalIterations := s.totalIterations + 1 }
    if error < TOLERANCE then
      { s1 with hasValidRoot := 1, finalRoot := x2, resultText := .success x2 (iter + 1) }
    else if fx0 * fx2 < 0 then
      loop exp fuel (iter + 1) x0 x2 fx0 fx2 s1
    else
      loop exp fuel (iter + 1) x2 x1 fx2 fx1 s1

/-- The COMPUTE handler, lines 254-311. -/
def compute (exp : K → K) (s : State K) (a b x0 x1 : K) : State K :=
  let s0 : State K := { s with coefA := a, coefB := b }
  let fx0 := f exp x0 a b
  let fx1 := f exp x1 a b
  if fx0 * fx1 ≥ 0 then
    { s0 with resultText := .errorOppositeSigns x0 fx0 x1 fx1,
              hasValidRoot := 0, totalIterations := 0 }
  else
    let s1 := loop exp MAX_ITER 0 x0 x1 fx0 fx1
      { s0 with totalIterations := 0, hasValidRoot := 0 }
    if s1.hasValidRoot = 0 then
      { s1 with resultText := .failedDidNotConverge }
    else s1

/-- The rows the iteration table shows: indices `0 .. totalIterations - 1`. -/
def trace (s : State K) : List (IterationRow K) :=
  (List.range s.totalIterations).map s.iterations

/-! ### The recurrence the specification describes -/

/-- A bracket with the function values at its ends. -/
structure Bracket (K : Type) where
  x0 : K
  x1 : K
  fx0 : K
  fx1 : K

/-- The interpolated point `x2 = x1 - f(x1)(x1 - x0)/(f(x1) - f(x0))`. -/
def specX2 (q : Bracket K) : K := q.x1 - q.fx1 * (q.x1 - q.x0) / (q.fx1 - q.fx0)

/-- The bracket update: `(x1, f(x1)) := (x2, f(x2))` when `f(x0) f(x2) < 0`, otherwise
`(x0, f(x0)) := (x2, f(x2))`. -/
def specStep (exp : K → K) (a b : K) (q : Bracket K) : Bracket K :=
  if q.fx0 * f exp (specX2 q) a b < 0 then
    { q with x1 := specX2 q, fx1 := f exp (specX2 q) a b }
  else
    { q with x0 := specX2 q, fx0 := f exp (specX2 q) a b }

/-- The bracket at the start of row `n + 1`. -/
def specBracket (exp : K → K) (a b x0 x1 : K) (n : Nat) : Bracket K :=
  (specStep exp a b)^[n] ⟨x0, x1, f exp x0 a b, f exp x1 a b⟩

/-- The row a bracket produces when it is used at 0-based position `n`. -/
def rowOf (exp : K → K) (a b : K) (n : Nat) (q : Bracket K) : IterationRow K :=
  { iteration := n + 1, x0 := q.x0, x1 := q.x1, x2 := specX2 q,
    fx0 := q.fx0, fx1 := q.fx1, fx2 := f exp (specX2 q) a b,
    error := |f exp (specX2 q) a b| }

/-- Row `n + 1` of the recurrence (0-based position `n`). -/
def specRow (exp : K → K) (a b x0 x1 : K) (n : Nat) : IterationRow K :=
  rowOf exp a b n (specBracket exp a b x0 x1 n)

end FalsePosition

/-! ## Values of type `double` that may fail to be finite -/

/-- The result of an expression that can leave the finite numbers: a finite value, an
infinity (of either sign) or NaN. In exact arithmetic only a division by zero, a guard that
returns `NAN`, or a libm call outside its domain produces the last two. -/
inductive Dbl (K : Type) where
  | fin (v : K) : Dbl K
  | inf : Dbl K
  | nan : Dbl K
  deriving DecidableEq

namespace Dbl

variable {K : Type} [LinearOrderedField K]

/-- The C quotient `n / d` of two finite values: `0/0` is NaN, `n/0` is an infinity. -/
def div (n d : K) : Dbl K :=
  if d = 0 then (if n = 0 then .nan else .inf) else .fin (n / d)

/-- The libm call `sqrt(v)`: NaN on a negative argument. -/
def sqrt (sqrtK : K → K) (v : K) : Dbl K :=
  if v < 0 then .nan else .fin (sqrtK v)

/-- The libm call `log(v)`: NaN on a negative argument, an infinity at zero. -/
def log (logK : K → K) (v : K) : Dbl K :=
  if v < 0 then .nan else if v = 0 then .inf else .fin (logK v)

/-- The C expression `-d`. -/
def neg : Dbl K → Dbl K
  | .fin v => .fin (-v)
  | .inf => .inf
  | .nan => .nan

/-- The C expression `fabs(d - x)` for a finite `x`. -/
def fabsSub (d : Dbl K) (x : K) : Dbl K :=
  match d with
  | .fin v => .fin |v - x|
  | .inf => .inf
  | .nan => .nan

end Dbl

/-! ## The two equation families of the fixed-point programs -/

namespace Quadratic

variable {K : Type} [LinearOrderedField K]

/-- The function `g` of gui_app.c (lines 35-52), fixed_point_iteration_quadratic.c
(lines 42-59) and main.c (lines 15-34); the three texts are the same. In case 5 with
`a = 0` and `b ≠ 0` both `c / a` and `-b / a` are non-finite, and their quotient is NaN. -/
def g (sqrt : K → K) (x a b c : K) (method : Int) : Dbl K :=
  if method = 1 then
    Dbl.div (-(a * x * x + c)) b
  else if method = 2 then
    if |a * x + b| < tiny then .nan else Dbl.div (-c) (a * x + b)
  else if method = 3 then
    if a = 0 ∨ (-b * x - c) / a < 0 then .nan else Dbl.sqrt sqrt ((-b * x - c) / a)
  else if method = 4 then
    if a = 0 ∨ (-b * x - c) / a < 0 then .nan else (Dbl.sqrt sqrt ((-b * x - c) / a)).neg
  else if method = 5 then
    if b = 0 then .nan
    else if a = 0 then .nan
    else Dbl.div (x * x - c / a) (-b / a)
  else .nan

/-- The function `f(x) = a*x*x + b*x + c` of the same three files. -/
def f (x a b c : K) : K := a * x * x + b * x + c

/-- The `return NAN` statements of `g`: the proposition holds when the guard of the selected
case (or the `default` case) returns `NAN` before the return expression is evaluated.
Case 1 has no guard; case 5 tests `b == 0` only. -/
def guardReturns (x a b c : K) (method : Int) : Prop :=
  if method = 1 then False
  else if method = 2 then |a * x + b| < tiny
  else if method = 3 then a = 0 ∨ (-b * x - c) / a < 0
  else if method = 4 then a = 0 ∨ (-b * x - c) / a < 0
  else if method = 5 then b = 0
  else True

instance (x a b c : K) (method : Int) : Decidable (guardReturns x a b c method) := by
  unfold guardReturns; infer_instance

/-- The divisors of the quotients that one evaluation of `g` forms, in evaluation order.
Case 1 divides by `b`. Case 2 divides by `a*x + b` once its guard is passed. In cases 3
and 4 the guard `a == 0 || (-b*x - c)/a < 0` short-circuits on `a == 0`, otherwise it forms
one quotient by `a` and the return expression a second one. Case 5, once `b == 0` is
excluded, forms `c / a` and `-b / a` and then divides by the value of `-b / a`, which is
listed when it is finite (`a ≠ 0`). -/
def divisors (x a b c : K) (method : Int) : List K :=
  if method = 1 then [b]
  else if method = 2 then (if |a * x + b| < tiny then [] else [a * x + b])
  else if method = 3 then
    (if a = 0 then [] else if (-b * x - c) / a < 0 then [a] else [a, a])
  else if method = 4 then
    (if a = 0 then [] else if (-b * x - c) / a < 0 then [a] else [a, a])
  else if method = 5 then
    (if b = 0 then [] else if a = 0 then [a, a] else [a, a, -b / a])
  else []

end Quadratic

namespace Exponential

variable {K : Type} [LinearOrderedField K]

/-- The function `g` of Panes/fixed_point_iteration_exponential.c, lines 42-60. -/
def g (exp log : K → K) (x a b : K) (method : Int) : Dbl K :=
  if method = 1 then
    if a * x + b ≤ 0 then .nan else Dbl.log log (a * x + b)
  else if method = 2 then
    if a = 0 then .nan else Dbl.div (exp x - b) a
  else if method = 3 then
    if a = 0 ∨ exp x - b ≤ 0 then .nan else Dbl.log log ((exp x - b) / a)
  else if method = 4 then
    if a = 0 then .nan else .fin (exp x / a - b / a)
  else if method = 5 then
    .fin (x - 1 / 10 * (exp x - a * x - b))
  else .nan

/-- The function `f(x) = exp(x) - a*x - b`, lines 63-65. -/
def f (exp : K → K) (x a b : K) : K := exp x - a * x - b

end Exponential

/-! ## The fixed-point driver shared by the three GUI programs -/

namespace FixedPoint

/-- The constant `MAX_ITER` (`#define MAX_ITER 50`). -/
def MAX_ITER : Nat := 50

/-- The constant `TOLERANCE` (`#define TOLERANCE 0.01`). -/
def TOLERANCE {K : Type} [LinearOrderedField K] : K := 1 / 100

/-- The literal `1e10` of the divergence test. -/
def huge {K : Type} [LinearOrderedField K] : K := 10 ^ 10

/-- The struct `IterationRow`: `xn`, `xn1`, `error`. -/
structure IterationRow (K : Type) where
  xn : K
  xn1 : Dbl K
  error : Dbl K
  deriving DecidableEq

/-- The messages the three programs write into `resultText`. -/
inductive ResultText (K : Type) where
  /-- The empty text of start-up and CLEAR. -/
  | empty : ResultText K
  /-- The text "Error: Method must be 1-5" (gui_app.c only). -/
  | errorMethod : ResultText K
  /-- The text "FAILED: Diverged" when the flag is set, "FAILED: Did not converge" otherwise. -/
  | failed (diverged : Bool) : ResultText K
  /-- The text "SUCCESS! / Root: x = .. / Iterations: ..". -/
  | success (finalRoot : K) (totalIterations : Nat) : ResultText K
  deriving DecidableEq

/-- The five variables of `main` the solver block writes. -/
structure Run (K : Type) where
  resultText : ResultText K
  finalRoot : K
  hasValidRoot : Nat
  iterations : Nat → IterationRow K
  totalIterations : Nat

/-- The variables that are live when the `for` loop is left. -/
structure LoopExit (K : Type) where
  x_current : K
  diverged : Nat
  run : Run K

variable {K : Type} [LinearOrderedField K]

/-- The state right after the declarations of `main`; the array has no initialiser. -/
def initial (junk : Nat → IterationRow K) : Run K :=
  { resultText := .empty, finalRoot := 0, hasValidRoot := 0, iterations := junk,
    totalIterations := 0 }

/-- The `for` loop (gui_app.c 270-290, fixed_point_iteration_quadratic.c 327-347,
Panes/fixed_point_iteration_exponential.c 321-341); `fuel` is `MAX_ITER - iter`. The three
arms of the `match` are the three disjuncts `isnan`, `isinf`, `fabs(x_next) > 1e10`. -/
def loop (g : K → Dbl K) : Nat → Nat → K → Run K → LoopExit K
  | 0, _, x_current, s => ⟨x_current, 0, s⟩
  | fuel + 1, iter, x_current, s =>
    let x_next := g x_current
    let error := x_next.fabsSub x_current
    let s1 : Run K :=
      { s with
        iterations := Function.update s.iterations iter ⟨x_current, x_next, error⟩,
        totalIterations := s.totalIterations + 1 }
    match x_next with
    | .nan => ⟨x_current, 1, s1⟩
    | .inf => ⟨x_current, 1, s1⟩
    | .fin v =>
      if |v| > huge then ⟨x_current, 1, s1⟩
      else if |v - x_current| < TOLERANCE then ⟨v, 0, s1⟩
      else loop g fuel (iter + 1) v s1

/-- The statement `totalIterations = 0;` that precedes the loop. -/
def resetCount (s : Run K) : Run K := { s with totalIterations := 0 }

/-- The solver block: the loop followed by the validation of the result (gui_app.c
264-304, fixed_point_iteration_quadratic.c 320-361,
Panes/fixed_point_iteration_exponential.c 314-355). -/
def solve (g : K → Dbl K) (f : K → K) (x0 : K) (s : Run K) : Run K :=
  let out := loop g MAX_ITER 0 x0 (resetCount s)
  let finalRoot := out.x_current
  let verification := |f finalRoot|
  if out.diverged ≠ 0 ∨ verification > 1 / 10 then
    { out.run with finalRoot := finalRoot,
                   resultText := .failed (decide (out.diverged ≠ 0)),
                   hasValidRoot := 0 }
  else
    { out.run with finalRoot := finalRoot,
                   resultText := .success finalRoot out.run.totalIterations,
                   hasValidRoot := 1 }

/-- The rows the iteration table shows: indices `0 .. totalIterations - 1`. -/
def trace (s : Run K) : List (IterationRow K) :=
  (List.range s.totalIterations).map s.iterations

/-- The divergence test `isnan(x_next) || isinf(x_next) || fabs(x_next) > 1e10`. -/
def divergent (x_next : Dbl K) : Bool :=
  match x_next with
  | .nan => true
  | .inf => true
  | .fin v => decide (|v| > huge)

/-- The value of `x_current` at the top of the 0-based iteration `n` of the loop started
at `x`, when the loop gets that far: none of the iterations `0 .. n - 1` diverged or met the
tolerance. -/
def reach (g : K → Dbl K) : K → Nat → Option K
  | x, 0 => some x
  | x, n + 1 =>
    match g x with
    | .nan => none
    | .inf => none
    | .fin v =>
      if |v| > huge then none
      else if |v - x| < TOLERANCE then none
      else reach g v n

end FixedPoint

/-! ## gui_app.c -/

namespace GuiApp

/-- The variables of `main` that persist between events. -/
structure State (K : Type) where
  coefA : K
  coefB : K
  coefC : K
  run : FixedPoint.Run K

variable {K : Type} [LinearOrderedField K]

/-- The state right after the declarations of `main`; the array has no initialiser. -/
def initial (junk : Nat → FixedPoint.IterationRow K) : State K :=
  { coefA := 0, coefB := 0, coefC := 0, run := FixedPoint.initial junk }

/-- The COMPUTE handler, lines 253-305; `method` is `atoi` of the fifth input box. -/
def compute (sqrt : K → K) (s : State K) (a b c x0 : K) (method : Int) : State K :=
  let s0 : State K := { s with coefA := a, coefB := b, coefC := c }
  if method < 1 ∨ method > 5 then
    { s0 with run := { s0.run with resultText := .errorMethod, hasValidRoot := 0 } }
  else
    { s0 with run := FixedPoint.solve (fun x => Quadratic.g sqrt x a b c method)
                       (fun x => Quadratic.f x a b c) x0 s0.run }

end GuiApp

/-! ## fixed_point_iteration_quadratic.c -/

namespace FixedPointQuadratic

/-- The variables of `main` that persist between events. -/
structure State (K : Type) where
  coefA : K
  coefB : K
  coefC : K
  run : FixedPoint.Run K

variable {K : Type} [LinearOrderedField K]

/-- The state right after the declarations of `main`; the array has no initialiser. -/
def initial (junk : Nat → FixedPoint.IterationRow K) : State K :=
  { coefA := 0, coefB := 0, coefC := 0, run := FixedPoint.initial junk }

/-- The COMPUTE handler, lines 312-362; `method` is the value of `selectedMethod`. -/
def compute (sqrt : K → K) (s : State K) (a b c x0 : K) (method : Int) : State K :=
  { s with coefA := a, coefB := b, coefC := c,
           run := FixedPoint.solve (fun x => Quadratic.g sqrt x a b c method)
                    (fun x => Quadratic.f x a b c) x0 s.run }

end FixedPointQuadratic

/-! ## Panes/fixed_point_iteration_exponential.c -/

namespace FixedPointExponential

/-- The variables of `main` that persist between events. -/
structure State (K : Type) where
  coefA : K
  coefB : K
  run : FixedPoint.Run K

variable {K : Type} [LinearOrderedField K]

/-- The state right after the declarations of `main`; the array has no initialiser. -/
def initial (junk : Nat → FixedPoint.IterationRow K) : State K :=
  { coefA := 0, coefB := 0, run := FixedPoint.initial junk }

/-- The COMPUTE handler, lines 307-356; `method` is the value of `selectedMethod`. -/
def compute (exp log : K → K) (s : State K) (a b x0 : K) (method : Int) : State K :=
  { s with coefA := a, coefB := b,
           run := FixedPoint.solve (fun x => Exponential.g exp log x a b method)
                    (fun x => Exponential.f exp x a b) x0 s.run }

end FixedPointExponential

/-! ## secant_method_exponential.c -/

namespace Secant

/-- The constant `MAX_ITERATIONS` (`#define MAX_ITERATIONS 100`). -/
def MAX_ITERATIONS : Nat := 100

/-- The constant `TOLERANCE` (`#define TOLERANCE 0.0001`). -/
def TOLERANCE {K : Type} [LinearOrderedField K] : K := 1 / 10000

/-- The struct `IterationData` of lines 13-21. -/
structure IterationData (K : Type) where
  n : Nat
  x_prev : K
  x_curr : K
  f_prev : K
  f_curr : K
  x_next : K
  error : K
  deriving DecidableEq

/-- The messages the program writes into `statusMsg`. -/
inductive StatusMsg (K : Type) where
  /-- The text "Ready to compute. Enter values and press COMPUTE.". -/
  | ready : StatusMsg K
  /-- The text "ERROR: x0 and x1 must be different!". -/
  | errorIdenticalGuesses : StatusMsg K
  /-- The text "ERROR: Division by zero at iteration %d" with `iter + 1`. -/
  | errorDivisionByZero (iteration : Nat) : StatusMsg K
  /-- The text "SUCCESS! Converged in %d iterations. / Approximate root: x = ..". -/
  | success (iterationCount : Nat) (root : K) : StatusMsg K
  /-- The text "Did not converge in %d iterations." with `MAX_ITERATIONS`. -/
  | didNotConverge (maxIterations : Nat) : StatusMsg K
  deriving DecidableEq

/-- The two globals `iterations`, `iterationCount` (lines 39-40) and the variables of `main`
that persist between events (lines 368-374). -/
structure State (K : Type) where
  iterations : Nat → IterationData K
  iterationCount : Nat
  hasResult : Nat
  root : K
  a_val : K
  b_val : K
  statusMsg : StatusMsg K
  statusSuccess : Nat

/-- The variables that are live when the `for` loop is left. -/
structure LoopExit (K : Type) where
  converged : Nat
  st : State K

variable {K : Type} [LinearOrderedField K]

/-- The state at program start: the global array is zero-initialised. -/
def initial : State K :=
  { iterations := fun _ => ⟨0, 0, 0, 0, 0, 0, 0⟩, iterationCount := 0, hasResult := 0,
    root := 0, a_val := 0, b_val := 0, statusMsg := .ready, statusSuccess := 0 }

/-- Lines 158-160: `function(x) = exp(x) - a*x - b`. -/
def function (exp : K → K) (x a b : K) : K := exp x - a * x - b

/-- The `for` loop of lines 420-456; `fuel` is `MAX_ITERATIONS - iter`. The quotient is
only formed after the guard has established that the denominator is not zero. -/
def loop (exp : K → K) : Nat → Nat → K → K → K → K → State K → LoopExit K
  | 0, _, _, _, _, _, s => ⟨0, s⟩
  | fuel + 1, iter, x_prev, x_curr, f_prev, f_curr, s =>
    let denominator := f_curr - f_prev
    if |denominator| < tiny then
      ⟨0, { s with statusMsg := .errorDivisionByZero (iter + 1) }⟩
    else
      let x_next := x_curr - f_curr * (x_curr - x_prev) / denominator
      let error := |x_next - x_curr|
      let s1 : State K :=
        { s with
          iterations := Function.update s.iterations s.iterationCount
            { n := iter + 1, x_prev := x_prev, x_curr := x_curr, f_prev := f_prev,
              f_curr := f_curr, x_next := x_next, error := error },
          iterationCount := s.iterationCount + 1 }
      if error < TOLERANCE ∨ |function exp x_next s.a_val s.b_val| < TOLERANCE then
        ⟨1, { s1 with root := x_next, hasResult := 1, statusSuccess := 1,
                      statusMsg := .success s1.iterationCount x_next }⟩
      else
        loop exp fuel (iter + 1) x_curr x_next f_curr (function exp x_next s.a_val s.b_val) s1

/-- The COMPUTE handler, lines 396-462. -/
def compute (exp : K → K) (s : State K) (a b x0 x1 : K) : State K :=
  let s0 : State K :=
    { s with a_val := a, b_val := b, hasResult := 0, iterationCount := 0, statusSuccess := 0 }
  if |x1 - x0| < tiny then
    { s0 with statusMsg := .errorIdenticalGuesses }
  else
    let out := loop exp MAX_ITERATIONS 0 x0 x1 (function exp x0 a b) (function exp x1 a b) s0
    if out.converged = 0 ∧ out.st.iterationCount > 0 then
      { out.st with statusMsg := .didNotConverge MAX_ITERATIONS }
    else out.st

/-- The rows the iteration table shows: indices `0 .. iterationCount - 1`. -/
def trace (s : State K) : List (IterationData K) :=
  (List.range s.iterationCount).map s.iterations

/-! ### The secant sequence the specification describes -/

/-- The window `(x_prev, x_curr, f_prev, f_curr)`. -/
structure Window (K : Type) where
  x_prev : K
  x_curr : K
  f_prev : K
  f_curr : K

/-- The secant step `x_next = x_curr - f_curr (x_curr - x_prev) / (f_curr - f_prev)`. -/
def specNext (w : Window K) : K :=
  w.x_curr - w.f_curr * (w.x_curr - w.x_prev) / (w.f_curr - w.f_prev)

/-- The window shift `x_prev := x_curr`, `x_curr := x_next`, `f_prev := f_curr`,
`f_curr := f(x_curr)`. -/
def specShift (exp : K → K) (a b : K) (w : Window K) : Window K :=
  { x_prev := w.x_curr, x_curr := specNext w, f_prev := w.f_curr,
    f_curr := function exp (specNext w) a b }

/-- The window at the start of iteration `n + 1`. -/
def specWindow (exp : K → K) (a b x0 x1 : K) (n : Nat) : Window K :=
  (specShift exp a b)^[n] ⟨x0, x1, function exp x0 a b, function exp x1 a b⟩

/-- The denominator guard: `|f_curr - f_prev| < 1e-10`. -/
def guardTrips (w : Window K) : Prop := |w.f_curr - w.f_prev| < tiny

instance (w : Window K) : Decidable (guardTrips w) := by
  unfold guardTrips; infer_instance

/-- The stopping test: `|x_next - x_curr| < 1e-4` or `|f(x_next)| < 1e-4`. -/
def converges (exp : K → K) (a b : K) (w : Window K) : Prop :=
  |specNext w - w.x_curr| < TOLERANCE ∨ |function exp (specNext w) a b| < TOLERANCE

instance (exp : K → K) (a b : K) (w : Window K) : Decidable (converges exp a b w) := by
  unfold converges; infer_instance

/-- The row a window produces when it is used in the iteration with 0-based number `n`. -/
def rowOf (n : Nat) (w : Window K) : IterationData K :=
  { n := n + 1, x_prev := w.x_prev, x_curr := w.x_curr, f_prev := w.f_prev,
    f_curr := w.f_curr, x_next := specNext w, error := |specNext w - w.x_curr| }

/-- Row `n + 1` of the secant sequence (0-based position `n`). -/
def specRow (exp : K → K) (a b x0 x1 : K) (n : Nat) : IterationData K :=
  rowOf n (specWindow exp a b x0 x1 n)

end Secant

/-! ## main.c -/

namespace Console

/-- The constant `MAX_ITER` (`#define MAX_ITER 50`). -/
def MAX_ITER : Nat := 50

/-- The constant `TOLERANCE` (`#define TOLERANCE 0.01`). -/
def TOLERANCE {K : Type} [LinearOrderedField K] : K := 1 / 100

/-- The three reports of the solver block: "STATUS: DIVERGED", "STATUS: DID NOT CONVERGE"
and the success path (iteration table, conclusion and graph). -/
inductive Outcome where
  | diverged : Outcome
  | didNotConverge : Outcome
  | success : Outcome
  deriving DecidableEq

/-- The variables that are live when the `do ... while` loop is left. The struct
`IterationRow` of main.c is the one of the GUI programs. -/
structure LoopExit (K : Type) where
  x_current : K
  diverged : Nat
  iterations : Nat → FixedPoint.IterationRow K
  totalIter : Nat

/-- What the solver block leaves behind: the report and the variables `finalRoot`,
`iterations`, `totalIter` of `main`. -/
structure Run (K : Type) where
  outcome : Outcome
  finalRoot : K
  iterations : Nat → FixedPoint.IterationRow K
  totalIter : Nat

variable {K : Type} [LinearOrderedField K]

/-- The input validation of lines 80-101: a method is taken when none of the three tests
sends the user back to the menu. -/
def accepted (a b : K) (method : Int) : Prop :=
  ¬ (method < 1 ∨ method > 5) ∧ ¬ ((method = 1 ∨ method = 5) ∧ b = 0)
    ∧ ¬ ((method = 3 ∨ method = 4) ∧ a = 0)

instance (a b : K) (method : Int) : Decidable (accepted a b method) := by
  unfold accepted; infer_instance

/-- The `do ... while` loop of lines 126-147. The loop statement itself has no bound, so
`fuel` bounds the number of times the body may run and running out of it is `none`. The
three arms of the `match` are the three disjuncts `isnan`, `isinf`, `fabs(x_next) > 1e10`;
the row is written before the test and `totalIter` is incremented after it. The loop
condition reads the `error` field of the row just written, `fabs(x_next - x_current)`. -/
def loop (g : K → Dbl K) :
    Nat → K → Nat → (Nat → FixedPoint.IterationRow K) → Option (LoopExit K)
  | 0, _, _, _ => none
  | fuel + 1, x_current, totalIter, iterations =>
    let x_next := g x_current
    let iterations1 :=
      Function.update iterations totalIter ⟨x_current, x_next, x_next.fabsSub x_current⟩
    match x_next with
    | .nan => some ⟨x_current, 1, iterations1, totalIter⟩
    | .inf => some ⟨x_current, 1, iterations1, totalIter⟩
    | .fin v =>
      if |v| > FixedPoint.huge then some ⟨x_current, 1, iterations1, totalIter⟩
      else if totalIter + 1 ≥ MAX_ITER then some ⟨v, 0, iterations1, totalIter + 1⟩
      else if |(|v - x_current|)| > TOLERANCE then loop g fuel v (totalIter + 1) iterations1
      else some ⟨v, 0, iterations1, totalIter + 1⟩

/-- The solver block of lines 122-168: `totalIter = 0`, the loop, and the validation
`validRoot = (verification < 0.1)` that chooses the report. -/
def solve (g : K → Dbl K) (f : K → K) (x0 : K) (iterations : Nat → FixedPoint.IterationRow K)
    (fuel : Nat) : Option (Run K) :=
  match loop g fuel x0 0 iterations with
  | none => none
  | some out =>
    let finalRoot := out.x_current
    let verification := |f finalRoot|
    let validRoot : Nat := if verification < 1 / 10 then 1 else 0
    if out.diverged ≠ 0 ∨ validRoot = 0 then
      if out.diverged ≠ 0 then some ⟨.diverged, finalRoot, out.iterations, out.totalIter⟩
      else some ⟨.didNotConverge, finalRoot, out.iterations, out.totalIter⟩
    else some ⟨.success, finalRoot, out.iterations, out.totalIter⟩

/-- One pass of the `while (retry)` body after the inputs have been read and accepted:
the solver block on the `g` and `f` of main.c. -/
def compute (sqrt : K → K) (a b c x0 : K) (method : Int)
    (iterations : Nat → FixedPoint.IterationRow K) (fuel : Nat) : Option (Run K) :=
  solve (fun x => Quadratic.g sqrt x a b c method) (fun x => Quadratic.f x a b c) x0
    iterations fuel

end Console

/-! ## Doubles with their special values

The definitions above compute with exact numbers. The sections below repeat two of the
programs with the special values of IEEE 754 double arithmetic: a result is a finite
number, one of the two infinities, or NaN. A finite result is still an exact number
(rounding inside the range of a double is not modelled), zero has no sign (it is `+0`),
a result of magnitude `2^1024 - 2^970` or more is delivered as an infinity, and a product,
quotient or exponential of magnitude `2^-1075` or less is delivered as zero. -/

/-- A value of type `double`: finite, `+inf`, `-inf` or NaN. -/
inductive Fp (K : Type) where
  | fin (v : K) : Fp K
  | posInf : Fp K
  | negInf : Fp K
  | nan : Fp K
  deriving DecidableEq

namespace Fp

variable {K : Type} [LinearOrderedField K]

/-- Overflow: an exact result of magnitude `2^1024 - 2^970` or more (half an ulp above the
largest double) is delivered as the infinity of its sign. -/
def overflow (v : K) : Fp K :=
  if 2 ^ 1024 - 2 ^ 970 ≤ v then .posInf
  else if v ≤ -(2 ^ 1024 - 2 ^ 970) then .negInf
  else .fin v

/-- Overflow and underflow: as `overflow`, and an exact result of magnitude `2^-1075` (half
the smallest subnormal, a tie that goes to the even neighbour zero) or less is delivered as
zero. -/
def range (v : K) : Fp K :=
  if |v| ≤ 1 / 2 ^ 1075 then .fin 0 else overflow v

/-- An exact result that a double holds without overflow or underflow: zero, or a number
of magnitude above `2^-1075` and below `2^1024 - 2^970`. -/
def inRange (v : K) : Prop :=
  v = 0 ∨ (1 / 2 ^ 1075 < |v| ∧ |v| < 2 ^ 1024 - 2 ^ 970)

instance (v : K) : Decidable (inRange v) := by
  unfold inRange; infer_instance

/-- The C expression `-x`. -/
def neg : Fp K → Fp K
  | .fin v => .fin (-v)
  | .posInf => .negInf
  | .negInf => .posInf
  | .nan => .nan

/-- The C expression `x + y`: NaN propagates, `inf + (-inf)` is NaN. -/
def add : Fp K → Fp K → Fp K
  | .nan, _ => .nan
  | _, .nan => .nan
  | .posInf, .negInf => .nan
  | .negInf, .posInf => .nan
  | .posInf, _ => .posInf
  | _, .posInf => .posInf
  | .negInf, _ => .negInf
  | _, .negInf => .negInf
  | .fin a, .fin b => overflow (a + b)

/-- The C expression `x - y`. -/
def sub (x y : Fp K) : Fp K := add x (neg y)

/-- The C expression `x * y`: NaN propagates, `0 * inf` is NaN, otherwise an infinity with
the product of the signs. -/
def mul : Fp K → Fp K → Fp K
  | .nan, _ => .nan
  | _, .nan => .nan
  | .fin a, .fin b => range (a * b)
  | .fin a, .posInf => if a = 0 then .nan else if 0 < a then .posInf else .negInf
  | .fin a, .negInf => if a = 0 then .nan else if 0 < a then .negInf else .posInf
  | .posInf, .fin b => if b = 0 then .nan else if 0 < b then .posInf else .negInf
  | .negInf, .fin b => if b = 0 then .nan else if 0 < b then .negInf else .posInf
  | .posInf, .posInf => .posInf
  | .posInf, .negInf => .negInf
  | .negInf, .posInf => .negInf
  | .negInf, .negInf => .posInf

/-- The C expression `x / y`: NaN propagates, `inf / inf` and `0 / 0` are NaN, a finite
number over an infinity is zero, a non-zero number over zero is an infinity (the zero is
`+0`). -/
def div : Fp K → Fp K → Fp K
  | .nan, _ => .nan
  | _, .nan => .nan
  | .fin a, .fin b =>
    if b = 0 then (if a = 0 then .nan else if 0 < a then .posInf else .negInf)
    else range (a / b)
  | .fin _, .posInf => .fin 0
  | .fin _, .negInf => .fin 0
  | .posInf, .fin b => if 0 ≤ b then .posInf else .negInf
  | .negInf, .fin b => if 0 ≤ b then .negInf else .posInf
  | .posInf, .posInf => .nan
  | .posInf, .negInf => .nan
  | .negInf, .posInf => .nan
  | .negInf, .negInf => .nan

/-- The libm call `fabs(x)`. -/
def fabs : Fp K → Fp K
  | .fin v => .fin |v|
  | .posInf => .posInf
  | .negInf => .posInf
  | .nan => .nan

/-- The C comparison `x < y`: false as soon as one side is NaN. -/
def lt : Fp K → Fp K → Prop
  | .fin a, .fin b => a < b
  | .fin _, .posInf => True
  | .negInf, .fin _ => True
  | .negInf, .posInf => True
  | _, _ => False

/-- The C comparison `x <= y`: false as soon as one side is NaN. -/
def le : Fp K → Fp K → Prop
  | .fin a, .fin b => a ≤ b
  | .fin _, .posInf => True
  | .negInf, .fin _ => True
  | .negInf, .posInf => True
  | .posInf, .posInf => True
  | .negInf, .negInf => True
  | _, _ => False

instance (x y : Fp K) : Decidable (lt x y) := by
  cases x <;> cases y <;> simp only [lt] <;> infer_instance

instance (x y : Fp K) : Decidable (le x y) := by
  cases x <;> cases y <;> simp only [le] <;> infer_instance

/-- The libm call `exp(x)` in terms of the real exponential `expK`: NaN for NaN, `+inf` at
`+inf`, `0` at `-inf`, and for a finite argument the value `expK x` delivered in the range
of a double (`+inf` on overflow, `0` on underflow). -/
def exp (expK : K → K) : Fp K → Fp K
  | .fin x => range (expK x)
  | .posInf => .posInf
  | .negInf => .fin 0
  | .nan => .nan

/-- The libm call `log(x)` in terms of the real logarithm `logK`: NaN for NaN and for a
negative argument, `-inf` at zero, `+inf` at `+inf`. -/
def log (logK : K → K) : Fp K → Fp K
  | .fin v => if v < 0 then .nan else if v = 0 then .negInf else .fin (logK v)
  | .posInf => .posInf
  | .negInf => .nan
  | .nan => .nan

end Fp

/-! ## Panes/fixed_point_iteration_exponential.c with the special values -/

namespace ExponentialFp

variable {K : Type} [LinearOrderedField K]

/-- The function `g` of Panes/fixed_point_iteration_exponential.c, lines 42-60, on finite
arguments `x`, `a`, `b`, with the special values that `exp`, the quotients and `log` can
deliver. The polynomial `a * x + b` of case 1 and the product `a * x` of case 5 are exact
numbers. -/
def g (exp log : K → K) (x a b : K) (method : Int) : Fp K :=
  if method = 1 then
    if a * x + b ≤ 0 then .nan else Fp.log log (.fin (a * x + b))
  else if method = 2 then
    if a = 0 then .nan else Fp.div (Fp.sub (Fp.exp exp (.fin x)) (.fin b)) (.fin a)
  else if method = 3 then
    if a = 0 ∨ Fp.le (Fp.sub (Fp.exp exp (.fin x)) (.fin b)) (.fin 0) then .nan
    else Fp.log log (Fp.div (Fp.sub (Fp.exp exp (.fin x)) (.fin b)) (.fin a))
  else if method = 4 then
    if a = 0 then .nan
    else Fp.sub (Fp.div (Fp.exp exp (.fin x)) (.fin a)) (Fp.div (.fin b) (.fin a))
  else if method = 5 then
    Fp.sub (.fin x)
      (Fp.mul (.fin (1 / 10))
        (Fp.sub (Fp.sub (Fp.exp exp (.fin x)) (.fin (a * x))) (.fin b)))
  else .nan

end ExponentialFp

/-! ## Goyena/false_position_exponential.c with the special values -/

namespace FalsePositionFp

/-- The struct `IterationRow` of lines 13-22. -/
structure IterationRow (K : Type) where
  iteration : Nat
  x0 : Fp K
  x1 : Fp K
  x2 : Fp K
  fx0 : Fp K
  fx1 : Fp K
  fx2 : Fp K
  error : Fp K
  deriving DecidableEq

/-- The messages the program writes into `resultText`. -/
inductive ResultText (K : Type) where
  /-- The text "Enter coefficients and initial guesses (x0 and x1)". -/
  | enterValues : ResultText K
  /-- The text "ERROR: f(x0) and f(x1) must have opposite signs!" with the four numbers shown. -/
  | errorOppositeSigns (x0 fx0 x1 fx1 : Fp K) : ResultText K
  /-- The text "SUCCESS! / Root: x = .. / Iterations: ..". -/
  | success (x2 : Fp K) (iterations : Nat) : ResultText K
  /-- The text "FAILED: Did not converge / Try different initial guesses". -/
  | failedDidNotConverge : ResultText K
  deriving DecidableEq

/-- The variables of `main` that persist between events. -/
structure State (K : Type) where
  resultText : ResultText K
  finalRoot : Fp K
  hasValidRoot : Nat
  coefA : K
  coefB : K
  iterations : Nat → IterationRow K
  totalIterations : Nat

variable {K : Type} [LinearOrderedField K]

/-- The state right after the declarations of `main`; the local array `iterations` has
no initialiser, so its start contents `junk` are arbitrary. -/
def initial (junk : Nat → IterationRow K) : State K :=
  { resultText := .enterValues, finalRoot := .fin 0, hasValidRoot := 0, coefA := 0,
    coefB := 0, iterations := junk, totalIterations := 0 }

/-- Lines 40-42: `f(x) = exp(x) - a*x - b`, for a finite `a` and `b` and an `x` that may be
a special value. -/
def f (exp : K → K) (x : Fp K) (a b : K) : Fp K :=
  Fp.sub (Fp.sub (Fp.exp exp x) (Fp.mul (.fin a) x)) (.fin b)

/-- The `for` loop of lines 276-306; `fuel` is `MAX_ITER - iter`. -/
def loop (exp : K → K) : Nat → Nat → Fp K → Fp K → Fp K → Fp K → State K → State K
  | 0, _, _, _, _, _, s => s
  | fuel + 1, iter, x0, x1, fx0, fx1, s =>
    let x2 := Fp.sub x1 (Fp.div (Fp.mul fx1 (Fp.sub x1 x0)) (Fp.sub fx1 fx0))
    let fx2 := f exp x2 s.coefA s.coefB
    let error := Fp.fabs fx2
    let s1 : State K :=
      { s with
        iterations := Function.update s.iterations iter
          { iteration := iter + 1, x0 := x0, x1 := x1, x2 := x2,
            fx0 := fx0, fx1 := fx1, fx2 := fx2, error := error },
        totalIterations := s.totalIterations + 1 }
    if Fp.lt error (.fin FalsePosition.TOLERANCE) then
      { s1 with hasValidRoot := 1, finalRoot := x2, resultText := .success x2 (iter + 1) }
    else if Fp.lt (Fp.mul fx0 fx2) (.fin 0) then
      loop exp fuel (iter + 1) x0 x2 fx0 fx2 s1
    else
      loop exp fuel (iter + 1) x2 x1 fx2 fx1 s1

/-- The COMPUTE handler, lines 254-311; the four parsed inputs are finite numbers. -/
def compute (exp : K → K) (s : State K) (a b x0 x1 : K) : State K :=
  let s0 : State K := { s with coefA := a, coefB := b }
  let fx0 := f exp (.fin x0) a b
  let fx1 := f exp (.fin x1) a b
  if Fp.le (.fin 0) (Fp.mul fx0 fx1) then
    { s0 with resultText := .errorOppositeSigns (.fin x0) fx0 (.fin x1) fx1,
              hasValidRoot := 0, totalIterations := 0 }
  else
    let s1 := loop exp FalsePosition.MAX_ITER 0 (.fin x0) (.fin x1) fx0 fx1
      { s0 with totalIterations := 0, hasValidRoot := 0 }
    if s1.hasValidRoot = 0 then
      { s1 with resultText := .failedDidNotConverge }
    else s1

end FalsePositionFp

/-! # Theorems -/

namespace Elimination

variable {K : Type} [LinearOrderedField K]

/-- The guard constant is positive, so a value that passes a guard is non-zero. -/
theorem tiny_pos : (0 : K) < tiny := by unfold tiny; positivity

/-- A value whose absolute value is not below the guard constant is non-zero. -/
theorem ne_zero_of_not_abs_lt_tiny {v : K} (h : ¬ |v| < tiny) : v ≠ 0 := by
  intro h0; apply h; rw [h0, abs_zero]; exact tiny_pos

/-- The state the handler produces when both pivots pass their guards. -/
theorem compute_unique (s : State K) (a1 b1 c1 a2 b2 c2 : K)
    (ha : ¬ |a1| < tiny) (hb : ¬ |b2 - a2 / a1 * b1| < tiny) :
    compute s a1 b1 c1 a2 b2 c2 =
      { s with a1 := a1, b1 := b1, c1 := c1, a2 := a2, b2 := b2, c2 := c2,
               hasSteps := 1, s_multiplier := a2 / a1,
               s_new_b2 := b2 - a2 / a1 * b1, s_new_c2 := c2 - a2 / a1 * c1,
               solY := (c2 - a2 / a1 * c1) / (b2 - a2 / a1 * b1),
               solX := (c1 - b1 * ((c2 - a2 / a1 * c1) / (b2 - a2 / a1 * b1))) / a1,
               s_verify1 := a1 * ((c1 - b1 * ((c2 - a2 / a1 * c1) / (b2 - a2 / a1 * b1))) / a1)
                  + b1 * ((c2 - a2 / a1 * c1) / (b2 - a2 / a1 * b1)),
               s_verify2 := a2 * ((c1 - b1 * ((c2 - a2 / a1 * c1) / (b2 - a2 / a1 * b1))) / a1)
                  + b2 * ((c2 - a2 / a1 * c1) / (b2 - a2 / a1 * b1)),
               hasSolution := 1, specialCase := 0,
               resultText := .success
                 ((c1 - b1 * ((c2 - a2 / a1 * c1) / (b2 - a2 / a1 * b1))) / a1)
                 ((c2 - a2 / a1 * c1) / (b2 - a2 / a1 * b1)) } := by
  simp only [compute, ha, hb, if_false]

/-- The state the handler produces when the first pivot passes and the second fails. -/
theorem compute_special (s : State K) (a1 b1 c1 a2 b2 c2 : K)
    (ha : ¬ |a1| < tiny) (hb : |b2 - a2 / a1 * b1| < tiny) :
    compute s a1 b1 c1 a2 b2 c2 =
      { s with a1 := a1, b1 := b1, c1 := c1, a2 := a2, b2 := b2, c2 := c2,
               hasSolution := 0, hasSteps := 1, s_multiplier := a2 / a1,
               s_new_b2 := b2 - a2 / a1 * b1, s_new_c2 := c2 - a2 / a1 * c1,
               specialCase := if |c2 - a2 / a1 * c1| < tiny then 1 else 2,
               resultText :=
                 if |c2 - a2 / a1 * c1| < tiny then .infiniteSolutions else .noSolution } := by
  by_cases hc : |c2 - a2 / a1 * c1| < tiny <;> simp only [compute, ha, hb, hc, if_false, if_true]

/-- C1. Whenever the handler reports a solution (outcome Unique), the reported pair is
`y = newC2/newB2`, `x = (c1 - b1*y)/a1`; both verification values equal the right-hand
sides exactly, so both display checks pass; and every pair solving the two equations is
the reported one. -/
theorem elimination_unique_solves (s : State K) (a1 b1 c1 a2 b2 c2 : K)
    (h : (compute s a1 b1 c1 a2 b2 c2).hasSolution = 1) :
    (compute s a1 b1 c1 a2 b2 c2).resultText
        = .success (compute s a1 b1 c1 a2 b2 c2).solX (compute s a1 b1 c1 a2 b2 c2).solY
    ∧ (compute s a1 b1 c1 a2 b2 c2).s_new_b2 = b2 - a2 / a1 * b1
    ∧ (compute s a1 b1 c1 a2 b2 c2).s_new_c2 = c2 - a2 / a1 * c1
    ∧ (compute s a1 b1 c1 a2 b2 c2).solY
        = (compute s a1 b1 c1 a2 b2 c2).s_new_c2 / (compute s a1 b1 c1 a2 b2 c2).s_new_b2
    ∧ (compute s a1 b1 c1 a2 b2 c2).solX
        = (c1 - b1 * (compute s a1 b1 c1 a2 b2 c2).solY) / a1
    ∧ (compute s a1 b1 c1 a2 b2 c2).s_verify1
        = a1 * (compute s a1 b1 c1 a2 b2 c2).solX + b1 * (compute s a1 b1 c1 a2 b2 c2).solY
    ∧ (compute s a1 b1 c1 a2 b2 c2).s_verify2
        = a2 * (compute s a1 b1 c1 a2 b2 c2).solX + b2 * (compute s a1 b1 c1 a2 b2 c2).solY
    ∧ (compute s a1 b1 c1 a2 b2 c2).s_verify1 = c1
    ∧ (compute s a1 b1 c1 a2 b2 c2).s_verify2 = c2
    ∧ check1 (compute s a1 b1 c1 a2 b2 c2) = true
    ∧ check2 (compute s a1 b1 c1 a2 b2 c2) = true
    ∧ ∀ x y : K, a1 * x + b1 * y = c1 → a2 * x + b2 * y = c2 →
        x = (compute s a1 b1 c1 a2 b2 c2).solX ∧ y = (compute s a1 b1 c1 a2 b2 c2).solY := by
  by_cases ha : |a1| < tiny
  · simp [compute, ha] at h
  by_cases hb : |b2 - a2 / a1 * b1| < tiny
  · rw [compute_special s a1 b1 c1 a2 b2 c2 ha hb] at h
    exact absurd h Nat.zero_ne_one
  have ha0 : a1 ≠ 0 := ne_zero_of_not_abs_lt_tiny ha
  have hb0 : b2 - a2 / a1 * b1 ≠ 0 := ne_zero_of_not_abs_lt_tiny hb
  have hy0 : (c2 - a2 / a1 * c1) / (b2 - a2 / a1 * b1) * (b2 - a2 / a1 * b1)
      = c2 - a2 / a1 * c1 := div_mul_cancel₀ _ hb0
  have hm : a2 / a1 * a1 = a2 := div_mul_cancel₀ _ ha0
  have e1 : a1 * ((c1 - b1 * ((c2 - a2 / a1 * c1) / (b2 - a2 / a1 * b1))) / a1)
      + b1 * ((c2 - a2 / a1 * c1) / (b2 - a2 / a1 * b1)) = c1 := by
    rw [mul_div_cancel₀ _ ha0]; ring
  have e2 : a2 * ((c1 - b1 * ((c2 - a2 / a1 * c1) / (b2 - a2 / a1 * b1))) / a1)
      + b2 * ((c2 - a2 / a1 * c1) / (b2 - a2 / a1 * b1)) = c2 := by
    rw [mul_div_assoc', mul_comm a2, mul_div_assoc]
    linear_combination hy0
  rw [compute_unique s a1 b1 c1 a2 b2 c2 ha hb]
  refine ⟨rfl, rfl, rfl, rfl, rfl, rfl, rfl, e1, e2, ?_, ?_, ?_⟩
  · simp only [check1, e1, sub_self, abs_zero, decide_eq_true_eq]; norm_num
  · simp only [check2, e2, sub_self, abs_zero, decide_eq_true_eq]; norm_num
  intro x y h1 h2
  have hy : y = (c2 - a2 / a1 * c1) / (b2 - a2 / a1 * b1) := by
    rw [eq_div_iff hb0]
    linear_combination h2 - (a2 / a1) * h1 + x * hm
  have hx : x = (c1 - b1 * y) / a1 := by
    rw [eq_div_iff ha0]; linear_combination h1
  exact ⟨by rw [hx, hy], hy⟩

/-- The example run of C1 on the rationals: `x + y = 3`, `2x + y = 4`. -/
theorem example_unique_state :
    compute (initial : State ℚ) 1 1 3 2 1 4 =
      { (initial : State ℚ) with
        a1 := 1, b1 := 1, c1 := 3, a2 := 2, b2 := 1, c2 := 4, hasSteps := 1,
        s_multiplier := 2, s_new_b2 := -1, s_new_c2 := -2, solY := 2, solX := 1,
        s_verify1 := 3, s_verify2 := 4, hasSolution := 1,
        resultText := .success 1 2 } := by
  rw [compute_unique _ _ _ _ _ _ _ (by norm_num [tiny, abs_lt]) (by norm_num [tiny, abs_lt])]
  simp only [initial]
  norm_num

/-- Witness for C1: on `a1=1, b1=1, c1=3, a2=2, b2=1, c2=4` the handler reports a solution,
which is `x = 1`, `y = 2`, and the theorem applies to it. -/
theorem elimination_unique_solves_witness :
    (compute (initial : State ℚ) 1 1 3 2 1 4).hasSolution = 1
    ∧ (compute (initial : State ℚ) 1 1 3 2 1 4).solX = 1
    ∧ (compute (initial : State ℚ) 1 1 3 2 1 4).solY = 2
    ∧ (compute (initial : State ℚ) 1 1 3 2 1 4).s_verify1 = 3
    ∧ (compute (initial : State ℚ) 1 1 3 2 1 4).s_verify2 = 4
    ∧ ∀ x y : ℚ, 1 * x + 1 * y = 3 → 2 * x + 1 * y = 4 →
        x = (compute (initial : State ℚ) 1 1 3 2 1 4).solX
        ∧ y = (compute (initial : State ℚ) 1 1 3 2 1 4).solY :=
  have h := elimination_unique_solves (initial : State ℚ) 1 1 3 2 1 4
    (by rw [example_unique_state])
  ⟨by rw [example_unique_state], by rw [example_unique_state], by rw [example_unique_state],
    h.2.2.2.2.2.2.2.1, h.2.2.2.2.2.2.2.2.1, h.2.2.2.2.2.2.2.2.2.2.2⟩

/-- C2. When the first pivot passes its guard, the handler exposes `m = a2/a1`,
`newB2 = b2 - m*b1`, `newC2 = c2 - m*c1`, and its outcome is InfiniteSolutions exactly when
both `|newB2|` and `|newC2|` are below `1e-10`, NoSolution exactly when `|newB2|` is below and
`|newC2|` is not, and Unique exactly when `|newB2|` is not below; one of the three holds. -/
theorem elimination_classification (s : State K) (a1 b1 c1 a2 b2 c2 : K)
    (ha : tiny ≤ |a1|) :
    (compute s a1 b1 c1 a2 b2 c2).hasSteps = 1
    ∧ (compute s a1 b1 c1 a2 b2 c2).s_multiplier = a2 / a1
    ∧ (compute s a1 b1 c1 a2 b2 c2).s_new_b2 = b2 - a2 / a1 * b1
    ∧ (compute s a1 b1 c1 a2 b2 c2).s_new_c2 = c2 - a2 / a1 * c1
    ∧ (((compute s a1 b1 c1 a2 b2 c2).resultText = .infiniteSolutions
          ∧ (compute s a1 b1 c1 a2 b2 c2).specialCase = 1)
        ↔ (|b2 - a2 / a1 * b1| < tiny ∧ |c2 - a2 / a1 * c1| < tiny))
    ∧ (((compute s a1 b1 c1 a2 b2 c2).resultText = .noSolution
          ∧ (compute s a1 b1 c1 a2 b2 c2).specialCase = 2)
        ↔ (|b2 - a2 / a1 * b1| < tiny ∧ tiny ≤ |c2 - a2 / a1 * c1|))
    ∧ (((compute s a1 b1 c1 a2 b2 c2).resultText
            = .success (compute s a1 b1 c1 a2 b2 c2).solX (compute s a1 b1 c1 a2 b2 c2).solY
          ∧ (compute s a1 b1 c1 a2 b2 c2).hasSolution = 1)
        ↔ tiny ≤ |b2 - a2 / a1 * b1|)
    ∧ ((compute s a1 b1 c1 a2 b2 c2).resultText = .infiniteSolutions
        ∨ (compute s a1 b1 c1 a2 b2 c2).resultText = .noSolution
        ∨ (compute s a1 b1 c1 a2 b2 c2).resultText
            = .success (compute s a1 b1 c1 a2 b2 c2).solX (compute s a1 b1 c1 a2 b2 c2).solY)
    ∧ ((compute s a1 b1 c1 a2 b2 c2).resultText = .infiniteSolutions →
        (compute s a1 b1 c1 a2 b2 c2).resultText ≠ .noSolution)
    ∧ (∀ x y : K, (compute s a1 b1 c1 a2 b2 c2).resultText = .success x y →
        (compute s a1 b1 c1 a2 b2 c2).resultText ≠ .infiniteSolutions
        ∧ (compute s a1 b1 c1 a2 b2 c2).resultText ≠ .noSolution) := by
  have ha' : ¬ |a1| < tiny := not_lt.mpr ha
  by_cases hb : |b2 - a2 / a1 * b1| < tiny
  · rw [compute_special s a1 b1 c1 a2 b2 c2 ha' hb]
    by_cases hc : |c2 - a2 / a1 * c1| < tiny
    · simp [hb, hc, not_le.mpr hb, not_le.mpr hc]
    · simp [hb, hc, not_le.mpr hb, not_lt.mp hc]
  · rw [compute_unique s a1 b1 c1 a2 b2 c2 ha' hb]
    simp [hb, not_lt.mp hb]

/-- Witness for C2: `(1,2,3,2,4,6)` passes the first pivot and is classified
InfiniteSolutions, and `(1,2,3,2,4,7)` is classified NoSolution. -/
theorem elimination_classification_witness :
    (tiny : ℚ) ≤ |1|
    ∧ (compute (initial : State ℚ) 1 2 3 2 4 6).resultText = .infiniteSolutions
    ∧ (compute (initial : State ℚ) 1 2 3 2 4 7).resultText = .noSolution :=
  ⟨by norm_num [tiny],
    ((elimination_classification (initial : State ℚ) 1 2 3 2 4 6
        (by norm_num [tiny])).2.2.2.2.1.mpr (by norm_num [tiny])).1,
    ((elimination_classification (initial : State ℚ) 1 2 3 2 4 7
        (by norm_num [tiny])).2.2.2.2.2.1.mpr (by norm_num [tiny])).1⟩

/-- C3. When `|a1| < 1e-10` the handler reports the a1 error, whatever the other five
coefficients are, and computes nothing else: the three flags are zero and the multiplier,
the eliminated row, the solution and the verification values keep their old contents. -/
theorem elimination_degenerate (s : State K) (a1 b1 c1 a2 b2 c2 : K)
    (ha : |a1| < tiny) :
    (compute s a1 b1 c1 a2 b2 c2).resultText = .errorA1Zero
    ∧ (compute s a1 b1 c1 a2 b2 c2).hasSteps = 0
    ∧ (compute s a1 b1 c1 a2 b2 c2).specialCase = 0
    ∧ (compute s a1 b1 c1 a2 b2 c2).hasSolution = 0
    ∧ (compute s a1 b1 c1 a2 b2 c2).s_multiplier = s.s_multiplier
    ∧ (compute s a1 b1 c1 a2 b2 c2).s_new_b2 = s.s_new_b2
    ∧ (compute s a1 b1 c1 a2 b2 c2).s_new_c2 = s.s_new_c2
    ∧ (compute s a1 b1 c1 a2 b2 c2).solX = s.solX
    ∧ (compute s a1 b1 c1 a2 b2 c2).solY = s.solY
    ∧ (compute s a1 b1 c1 a2 b2 c2).s_verify1 = s.s_verify1
    ∧ (compute s a1 b1 c1 a2 b2 c2).s_verify2 = s.s_verify2 := by
  simp only [compute, ha, if_true, and_self]

/-- Witness for C3: `a1 = 0` with the other coefficients of the C1 example. -/
theorem elimination_degenerate_witness :
    |(0 : ℚ)| < tiny
    ∧ (compute (initial : State ℚ) 0 1 3 2 1 4).resultText = .errorA1Zero
    ∧ (compute (initial : State ℚ) 0 1 3 2 1 4).hasSteps = 0
    ∧ (compute (initial : State ℚ) 0 1 3 2 1 4).hasSolution = 0 :=
  have h := elimination_degenerate (initial : State ℚ) 0 1 3 2 1 4 (by norm_num [tiny])
  ⟨by norm_num [tiny], h.1, h.2.1, h.2.2.2.1⟩

end Elimination

namespace FalsePosition

variable {K : Type} [LinearOrderedField K]

/-- One unfolding of the loop, phrased with the bracket of the recurrence. -/
theorem falsePosition_loop_succ (exp : K → K) (fuel iter : Nat) (q : Bracket K) (s : State K) :
    loop exp (fuel + 1) iter q.x0 q.x1 q.fx0 q.fx1 s =
      if |f exp (specX2 q) s.coefA s.coefB| < TOLERANCE then
        { s with
          iterations := Function.update s.iterations iter (rowOf exp s.coefA s.coefB iter q),
          totalIterations := s.totalIterations + 1,
          hasValidRoot := 1, finalRoot := specX2 q,
          resultText := .success (specX2 q) (iter + 1) }
      else
        loop exp fuel (iter + 1) (specStep exp s.coefA s.coefB q).x0
          (specStep exp s.coefA s.coefB q).x1 (specStep exp s.coefA s.coefB q).fx0
          (specStep exp s.coefA s.coefB q).fx1
          { s with
            iterations := Function.update s.iterations iter (rowOf exp s.coefA s.coefB iter q),
            totalIterations := s.totalIterations + 1 } := by
  simp only [loop, specStep, rowOf, specX2]
  split_ifs <;> rfl

/-- What the loop leaves behind, in terms of the recurrence started at `q`. -/
theorem falsePosition_loop_spec (exp : K → K) (fuel : Nat) :
    ∀ (iter : Nat) (q : Bracket K) (s : State K),
      (loop exp fuel iter q.x0 q.x1 q.fx0 q.fx1 s).coefA = s.coefA
      ∧ (loop exp fuel iter q.x0 q.x1 q.fx0 q.fx1 s).coefB = s.coefB
      ∧ (∀ i, i < iter →
          (loop exp fuel iter q.x0 q.x1 q.fx0 q.fx1 s).iterations i = s.iterations i)
      ∧ (∀ k, k < fuel →
          |f exp (specX2 ((specStep exp s.coefA s.coefB)^[k] q)) s.coefA s.coefB| < TOLERANCE →
          (∀ j, j < k →
            ¬ |f exp (specX2 ((specStep exp s.coefA s.coefB)^[j] q)) s.coefA s.coefB|
                < TOLERANCE) →
          (loop exp fuel iter q.x0 q.x1 q.fx0 q.fx1 s).hasValidRoot = 1
          ∧ (loop exp fuel iter q.x0 q.x1 q.fx0 q.fx1 s).finalRoot
              = specX2 ((specStep exp s.coefA s.coefB)^[k] q)
          ∧ (loop exp fuel iter q.x0 q.x1 q.fx0 q.fx1 s).resultText
              = .success (specX2 ((specStep exp s.coefA s.coefB)^[k] q)) (iter + k + 1)
          ∧ (loop exp fuel iter q.x0 q.x1 q.fx0 q.fx1 s).totalIterations
              = s.totalIterations + (k + 1)
          ∧ ∀ j, j ≤ k →
              (loop exp fuel iter q.x0 q.x1 q.fx0 q.fx1 s).iterations (iter + j)
                = rowOf exp s.coefA s.coefB (iter + j) ((specStep exp s.coefA s.coefB)^[j] q))
      ∧ ((∀ j, j < fuel →
            ¬ |f exp (specX2 ((specStep exp s.coefA s.coefB)^[j] q)) s.coefA s.coefB|
                < TOLERANCE) →
          (loop exp fuel iter q.x0 q.x1 q.fx0 q.fx1 s).hasValidRoot = s.hasValidRoot
          ∧ (loop exp fuel iter q.x0 q.x1 q.fx0 q.fx1 s).finalRoot = s.finalRoot
          ∧ (loop exp fuel iter q.x0 q.x1 q.fx0 q.fx1 s).resultText = s.resultText
          ∧ (loop exp fuel iter q.x0 q.x1 q.fx0 q.fx1 s).totalIterations
              = s.totalIterations + fuel
          ∧ ∀ j, j < fuel →
              (loop exp fuel iter q.x0 q.x1 q.fx0 q.fx1 s).iterations (iter + j)
                = rowOf exp s.coefA s.coefB (iter + j)
                    ((specStep exp s.coefA s.coefB)^[j] q)) := by
  induction fuel with
  | zero =>
    intro iter q s
    refine ⟨rfl, rfl, fun _ _ => rfl, fun k hk => absurd hk (Nat.not_lt_zero k), fun _ => ?_⟩
    exact ⟨rfl, rfl, rfl, rfl, fun j hj => absurd hj (Nat.not_lt_zero j)⟩
  | succ n ih =>
    intro iter q s
    rw [falsePosition_loop_succ]
    by_cases hc : |f exp (specX2 q) s.coefA s.coefB| < TOLERANCE
    · rw [if_pos hc]
      refine ⟨rfl, rfl, ?_, ?_, ?_⟩
      · intro i hi
        exact Function.update_noteq (Nat.ne_of_lt hi) _ _
      · intro k _ _ hfirst
        have hk0 : k = 0 := by
          by_contra hne
          exact hfirst 0 (Nat.pos_of_ne_zero hne) hc
        subst hk0
        refine ⟨rfl, rfl, rfl, rfl, ?_⟩
        intro j hj
        have hj0 : j = 0 := Nat.le_zero.mp hj
        subst hj0
        simp
      · intro hnone
        exact absurd hc (hnone 0 (Nat.succ_pos n))
    · rw [if_neg hc]
      obtain ⟨hA, hB, hold, hconv, hnone⟩ := ih (iter + 1) (specStep exp s.coefA s.coefB q)
        { s with
          iterations := Function.update s.iterations iter (rowOf exp s.coefA s.coefB iter q),
          totalIterations := s.totalIterations + 1 }
      have hrow0 := hold iter (Nat.lt_succ_self iter)
      simp only [Function.update_same] at hrow0
      refine ⟨hA, hB, ?_, ?_, ?_⟩
      · intro i hi
        rw [hold i (Nat.lt_succ_of_lt hi)]
        exact Function.update_noteq (Nat.ne_of_lt hi) _ _
      · intro k hk hck hfirst
        cases k with
        | zero => exact absurd hck hc
        | succ k =>
          obtain ⟨h1, h2, h3, h4, h5⟩ := hconv k (Nat.lt_of_succ_lt_succ hk) hck
            (fun j hj => hfirst (j + 1) (Nat.succ_lt_succ hj))
          refine ⟨h1, h2, ?_, ?_, ?_⟩
          · rw [h3]; simp only [Function.iterate_succ_apply]; congr 1; omega
          · rw [h4]; simp only; omega
          · intro j hj
            cases j with
            | zero => simpa using hrow0
            | succ j =>
              have := h5 j (Nat.le_of_succ_le_succ hj)
              simp only [Function.iterate_succ_apply]
              rw [show iter + (j + 1) = iter + 1 + j by omega]
              exact this
      · intro hn
        obtain ⟨h1, h2, h3, h4, h5⟩ := hnone (fun j hj => hn (j + 1) (Nat.succ_lt_succ hj))
        refine ⟨h1, h2, h3, ?_, ?_⟩
        · rw [h4]; simp only; omega
        · intro j hj
          cases j with
          | zero => simpa using hrow0
          | succ j =>
            have := h5 j (Nat.lt_of_succ_lt_succ hj)
            simp only [Function.iterate_succ_apply]
            rw [show iter + (j + 1) = iter + 1 + j by omega]
            exact this


/-- The table of a state with `n` rows that agree with `rows`. -/
theorem falsePosition_trace_eq_of_rows (s : State K) (n : Nat) (rows : Nat → IterationRow K)
    (hn : s.totalIterations = n) (hrows : ∀ j, j < n → s.iterations j = rows j) :
    trace s = (List.range n).map rows := by
  unfold trace
  rw [hn]
  apply List.map_congr_left
  intro j hj
  exact hrows j (List.mem_range.mp hj)

/-- The handler on a bracketing pair, in terms of the recurrence. -/
theorem compute_bracketed (exp : K → K) (s : State K) (a b x0 x1 : K)
    (hb : f exp x0 a b * f exp x1 a b < 0) :
    (∀ k, k < 50 →
        (specRow exp a b x0 x1 k).error < TOLERANCE →
        (∀ j, j < k → ¬ (specRow exp a b x0 x1 j).error < TOLERANCE) →
        (compute exp s a b x0 x1).resultText = .success (specRow exp a b x0 x1 k).x2 (k + 1)
        ∧ (compute exp s a b x0 x1).hasValidRoot = 1
        ∧ (compute exp s a b x0 x1).finalRoot = (specRow exp a b x0 x1 k).x2
        ∧ (compute exp s a b x0 x1).totalIterations = k + 1
        ∧ trace (compute exp s a b x0 x1) = (List.range (k + 1)).map (specRow exp a b x0 x1))
    ∧ ((∀ j, j < 50 → ¬ (specRow exp a b x0 x1 j).error < TOLERANCE) →
        (compute exp s a b x0 x1).resultText = .failedDidNotConverge
        ∧ (compute exp s a b x0 x1).hasValidRoot = 0
        ∧ (compute exp s a b x0 x1).finalRoot = s.finalRoot
        ∧ (compute exp s a b x0 x1).totalIterations = 50
        ∧ trace (compute exp s a b x0 x1) = (List.range 50).map (specRow exp a b x0 x1)) := by
  have hnb : ¬ f exp x0 a b * f exp x1 a b ≥ 0 := not_le.mpr hb
  have hcomp : compute exp s a b x0 x1 =
      if (loop exp MAX_ITER 0 x0 x1 (f exp x0 a b) (f exp x1 a b)
          { s with coefA := a, coefB := b, totalIterations := 0, hasValidRoot := 0 }).hasValidRoot
            = 0 then
        { loop exp MAX_ITER 0 x0 x1 (f exp x0 a b) (f exp x1 a b)
            { s with coefA := a, coefB := b, totalIterations := 0, hasValidRoot := 0 } with
          resultText := .failedDidNotConverge }
      else
        loop exp MAX_ITER 0 x0 x1 (f exp x0 a b) (f exp x1 a b)
          { s with coefA := a, coefB := b, totalIterations := 0, hasValidRoot := 0 } := by
    simp only [compute, hnb, if_false]
  obtain ⟨-, -, -, hconv, hnone⟩ := falsePosition_loop_spec exp MAX_ITER 0
    ⟨x0, x1, f exp x0 a b, f exp x1 a b⟩
    { s with coefA := a, coefB := b, totalIterations := 0, hasValidRoot := 0 }
  simp only [zero_add] at hconv hnone
  rw [hcomp]
  constructor
  · intro k hk hck hfirst
    obtain ⟨h1, h2, h3, h4, h5⟩ := hconv k hk hck hfirst
    rw [if_neg (by rw [h1]; exact Nat.one_ne_zero)]
    refine ⟨h3, h1, h2, h4, falsePosition_trace_eq_of_rows _ _ _ h4 ?_⟩
    intro j hj
    exact h5 j (Nat.lt_succ_iff.mp hj)
  · intro hn
    obtain ⟨h1, h2, h3, h4, h5⟩ := hnone hn
    rw [if_pos h1]
    exact ⟨rfl, h1, h2, h4, falsePosition_trace_eq_of_rows _ _ _ h4 h5⟩

/-- A bracket update after a row that missed the tolerance keeps the signs opposite. -/
theorem specStep_opposite (exp : K → K) (a b : K) (q : Bracket K)
    (hq : q.fx0 * q.fx1 < 0) (hc : ¬ |f exp (specX2 q) a b| < TOLERANCE) :
    (specStep exp a b q).fx0 * (specStep exp a b q).fx1 < 0 := by
  have htol : (0 : K) < TOLERANCE := by unfold TOLERANCE; positivity
  have hv : f exp (specX2 q) a b ≠ 0 := by
    intro h0; apply hc; rw [h0, abs_zero]; exact htol
  unfold specStep
  by_cases h : q.fx0 * f exp (specX2 q) a b < 0
  · rw [if_pos h]; exact h
  · rw [if_neg h]
    show f exp (specX2 q) a b * q.fx1 < 0
    have h0 : q.fx0 ≠ 0 := by
      intro h0; rw [h0, zero_mul] at hq; exact lt_irrefl _ hq
    have hpos : 0 < q.fx0 * f exp (specX2 q) a b :=
      lt_of_le_of_ne (not_lt.mp h) (Ne.symm (mul_ne_zero h0 hv))
    by_contra hge
    have hge' : 0 ≤ f exp (specX2 q) a b * q.fx1 := not_lt.mp hge
    have hsq : 0 < f exp (specX2 q) a b * f exp (specX2 q) a b :=
      mul_self_pos.mpr hv
    have h1 : 0 ≤ (q.fx0 * f exp (specX2 q) a b) * (f exp (specX2 q) a b * q.fx1) :=
      mul_nonneg (le_of_lt hpos) hge'
    have h2 : (q.fx0 * f exp (specX2 q) a b) * (f exp (specX2 q) a b * q.fx1)
        = (f exp (specX2 q) a b * f exp (specX2 q) a b) * (q.fx0 * q.fx1) := by ring
    rw [h2] at h1
    exact absurd (mul_neg_of_pos_of_neg hsq hq) (not_lt.mpr h1)

/-- Every bracket the loop uses has opposite signs at its ends, so the denominator
`f(x1) - f(x0)` of the interpolation is never zero in a run that passed the bracket test. -/
theorem specBracket_opposite (exp : K → K) (a b x0 x1 : K)
    (hb : f exp x0 a b * f exp x1 a b < 0) (n : Nat)
    (hrun : ∀ j, j < n → ¬ (specRow exp a b x0 x1 j).error < TOLERANCE) :
    (specBracket exp a b x0 x1 n).fx0 * (specBracket exp a b x0 x1 n).fx1 < 0
    ∧ (specBracket exp a b x0 x1 n).fx1 - (specBracket exp a b x0 x1 n).fx0 ≠ 0 := by
  have hsign : (specBracket exp a b x0 x1 n).fx0 * (specBracket exp a b x0 x1 n).fx1 < 0 := by
    induction n with
    | zero => exact hb
    | succ n ih =>
      have hn := ih (fun j hj => hrun j (Nat.lt_succ_of_lt hj))
      have hc := hrun n (Nat.lt_succ_self n)
      simp only [specBracket, Function.iterate_succ_apply']
      exact specStep_opposite exp a b _ hn hc
  refine ⟨hsign, fun h0 => ?_⟩
  have heq : (specBracket exp a b x0 x1 n).fx1 = (specBracket exp a b x0 x1 n).fx0 :=
    sub_eq_zero.mp h0
  rw [heq] at hsign
  exact absurd hsign (not_lt.mpr (mul_self_nonneg _))

/-- On a bracketing pair the handler ends with the success text or the failure text. -/
theorem compute_bracketed_text (exp : K → K) (s : State K) (a b x0 x1 : K)
    (hb : f exp x0 a b * f exp x1 a b < 0) :
    (∃ x n, (compute exp s a b x0 x1).resultText = .success x n)
    ∨ (compute exp s a b x0 x1).resultText = .failedDidNotConverge := by
  obtain ⟨hconv, hnone⟩ := compute_bracketed exp s a b x0 x1 hb
  by_cases h : ∃ k, k < 50 ∧ (specRow exp a b x0 x1 k).error < TOLERANCE
  · left
    have hmin : ∀ j, j < Nat.find h → ¬ (specRow exp a b x0 x1 j).error < TOLERANCE := by
      intro j hj hc
      exact Nat.find_min h hj ⟨Nat.lt_trans hj (Nat.find_spec h).1, hc⟩
    exact ⟨_, _, (hconv (Nat.find h) (Nat.find_spec h).1 (Nat.find_spec h).2 hmin).1⟩
  · right
    exact (hnone (fun j hj hc => h ⟨j, hj, hc⟩)).1

end FalsePosition

namespace FixedPoint

variable {K : Type} [LinearOrderedField K]

/-- The handler of fixed_point_iteration_quadratic.c runs the shared solver block with the
quadratic `g` and `f`. -/
theorem quadratic_compute_run (sqrt : K → K) (s : FixedPointQuadratic.State K)
    (a b c x0 : K) (method : Int) :
    (FixedPointQuadratic.compute sqrt s a b c x0 method).run
      = solve (fun x => Quadratic.g sqrt x a b c method) (fun x => Quadratic.f x a b c) x0
          s.run := rfl

/-- The handler of Panes/fixed_point_iteration_exponential.c runs the shared solver block
with the exponential `g` and `f`. -/
theorem exponential_compute_run (exp log : K → K) (s : FixedPointExponential.State K)
    (a b x0 : K) (method : Int) :
    (FixedPointExponential.compute exp log s a b x0 method).run
      = solve (fun x => Exponential.g exp log x a b method) (fun x => Exponential.f exp x a b)
          x0 s.run := rfl

/-- The handler of gui_app.c runs the shared solver block with the quadratic `g` and `f`
when the method id is one of 1 to 5. -/
theorem guiApp_compute_run (sqrt : K → K) (s : GuiApp.State K)
    (a b c x0 : K) (method : Int) (h1 : 1 ≤ method) (h5 : method ≤ 5) :
    (GuiApp.compute sqrt s a b c x0 method).run
      = solve (fun x => Quadratic.g sqrt x a b c method) (fun x => Quadratic.f x a b c) x0
          s.run := by
  have hm : ¬ (method < 1 ∨ method > 5) := by
    intro h
    rcases h with h | h
    · exact absurd h1 (not_le.mpr h)
    · exact absurd h5 (not_le.mpr h)
  simp only [GuiApp.compute, hm, if_false]

/-- One unfolding of the loop when the iteration diverges. -/
theorem loop_succ_divergent (g : K → Dbl K) (fuel iter : Nat) (x : K) (s : Run K)
    (hd : divergent (g x) = true) :
    loop g (fuel + 1) iter x s =
      ⟨x, 1, { s with
        iterations := Function.update s.iterations iter ⟨x, g x, (g x).fabsSub x⟩,
        totalIterations := s.totalIterations + 1 }⟩ := by
  unfold loop
  cases hg : g x with
  | nan => rfl
  | inf => rfl
  | fin v =>
    rw [hg] at hd
    have hv : |v| > huge := by simpa [divergent] using hd
    simp only [hv, if_true]

/-- One unfolding of the loop when the iteration accepts `v`. -/
theorem loop_succ_fin (g : K → Dbl K) (fuel iter : Nat) (x v : K) (s : Run K)
    (hg : g x = .fin v) (hv : ¬ |v| > huge) :
    loop g (fuel + 1) iter x s =
      if |v - x| < TOLERANCE then
        ⟨v, 0, { s with
          iterations := Function.update s.iterations iter ⟨x, g x, (g x).fabsSub x⟩,
          totalIterations := s.totalIterations + 1 }⟩
      else
        loop g fuel (iter + 1) v { s with
          iterations := Function.update s.iterations iter ⟨x, g x, (g x).fabsSub x⟩,
          totalIterations := s.totalIterations + 1 } := by
  rw [loop]
  simp only [hg, hv, if_false]

/-- Either the divergence test fires or the value is finite and within the bound. -/
theorem divergent_or_fin (d : Dbl K) :
    divergent d = true ∨ ∃ v, d = .fin v ∧ ¬ |v| > huge := by
  cases d with
  | nan => exact Or.inl rfl
  | inf => exact Or.inl rfl
  | fin v =>
    by_cases hv : |v| > huge
    · left; simpa [divergent] using hv
    · right; exact ⟨v, rfl, hv⟩

/-- The loop writes only rows at or above its start index and leaves the three result
variables alone. -/
theorem loop_frame (g : K → Dbl K) (fuel : Nat) :
    ∀ (iter : Nat) (x : K) (s : Run K),
      (loop g fuel iter x s).run.resultText = s.resultText
      ∧ (loop g fuel iter x s).run.finalRoot = s.finalRoot
      ∧ (loop g fuel iter x s).run.hasValidRoot = s.hasValidRoot
      ∧ ∀ i, i < iter → (loop g fuel iter x s).run.iterations i = s.iterations i := by
  induction fuel with
  | zero => intro iter x s; exact ⟨rfl, rfl, rfl, fun _ _ => rfl⟩
  | succ n ih =>
    intro iter x s
    rcases divergent_or_fin (g x) with hd | ⟨v, hg, hv⟩
    · rw [loop_succ_divergent g n iter x s hd]
      exact ⟨rfl, rfl, rfl, fun i hi => Function.update_noteq (Nat.ne_of_lt hi) _ _⟩
    · rw [loop_succ_fin g n iter x v s hg hv]
      by_cases ht : |v - x| < TOLERANCE
      · rw [if_pos ht]
        exact ⟨rfl, rfl, rfl, fun i hi => Function.update_noteq (Nat.ne_of_lt hi) _ _⟩
      · rw [if_neg ht]
        obtain ⟨h1, h2, h3, h4⟩ := ih (iter + 1) v { s with
          iterations := Function.update s.iterations iter ⟨x, g x, (g x).fabsSub x⟩,
          totalIterations := s.totalIterations + 1 }
        refine ⟨h1, h2, h3, fun i hi => ?_⟩
        rw [h4 i (Nat.lt_succ_of_lt hi)]
        exact Function.update_noteq (Nat.ne_of_lt hi) _ _

/-- Row `iter + j` of the table is the row of the iteration the loop runs at `reach j`. -/
theorem loop_rows (g : K → Dbl K) (fuel : Nat) :
    ∀ (iter : Nat) (x : K) (s : Run K) (j : Nat) (z : K),
      j < fuel → reach g x j = some z →
      (loop g fuel iter x s).run.iterations (iter + j) = ⟨z, g z, (g z).fabsSub z⟩ := by
  induction fuel with
  | zero => intro iter x s j z hj; exact absurd hj (Nat.not_lt_zero j)
  | succ n ih =>
    intro iter x s j z hj hr
    cases j with
    | zero =>
      simp only [reach, Option.some.injEq] at hr
      subst hr
      rcases divergent_or_fin (g x) with hd | ⟨v, hg, hv⟩
      · rw [loop_succ_divergent g n iter x s hd]; simp
      · rw [loop_succ_fin g n iter x v s hg hv]
        by_cases ht : |v - x| < TOLERANCE
        · rw [if_pos ht]; simp
        · rw [if_neg ht]
          have hfr := (loop_frame g n (iter + 1) v { s with
            iterations := Function.update s.iterations iter ⟨x, g x, (g x).fabsSub x⟩,
            totalIterations := s.totalIterations + 1 }).2.2.2 iter (Nat.lt_succ_self iter)
          simpa using hfr
    | succ j =>
      rcases divergent_or_fin (g x) with hd | ⟨v, hg, hv⟩
      · exfalso
        cases hgx : g x with
        | nan => simp [reach, hgx] at hr
        | inf => simp [reach, hgx] at hr
        | fin v =>
          rw [hgx] at hd
          have hv : |v| > huge := by simpa [divergent] using hd
          simp [reach, hgx, hv] at hr
      · by_cases ht : |v - x| < TOLERANCE
        · simp [reach, hg, hv, ht] at hr
        · rw [loop_succ_fin g n iter x v s hg hv, if_neg ht]
          have hr' : reach g v j = some z := by simpa [reach, hg, hv, ht] using hr
          have := ih (iter + 1) v { s with
            iterations := Function.update s.iterations iter ⟨x, g x, (g x).fabsSub x⟩,
            totalIterations := s.totalIterations + 1 } j z (Nat.lt_of_succ_lt_succ hj) hr'
          rw [show iter + (j + 1) = iter + 1 + j by omega]
          exact this

/-- The exit of the loop when the divergence test fires at the iteration reached as
number `k`. -/
theorem loop_diverges_at (g : K → Dbl K) (fuel : Nat) :
    ∀ (iter : Nat) (x : K) (s : Run K) (k : Nat) (z : K),
      k < fuel → reach g x k = some z → divergent (g z) = true →
      (loop g fuel iter x s).diverged = 1
      ∧ (loop g fuel iter x s).x_current = z
      ∧ (loop g fuel iter x s).run.totalIterations = s.totalIterations + (k + 1) := by
  induction fuel with
  | zero => intro iter x s k z hk; exact absurd hk (Nat.not_lt_zero k)
  | succ n ih =>
    intro iter x s k z hk hr hd
    cases k with
    | zero =>
      simp only [reach, Option.some.injEq] at hr
      subst hr
      rw [loop_succ_divergent g n iter x s hd]
      exact ⟨rfl, rfl, rfl⟩
    | succ k =>
      cases hgx : g x with
      | nan => simp [reach, hgx] at hr
      | inf => simp [reach, hgx] at hr
      | fin v =>
        by_cases hv : |v| > huge
        · simp [reach, hgx, hv] at hr
        by_cases ht : |v - x| < TOLERANCE
        · simp [reach, hgx, hv, ht] at hr
        have hr' : reach g v k = some z := by simpa [reach, hgx, hv, ht] using hr
        rw [loop_succ_fin g n iter x v s hgx hv, if_neg ht]
        obtain ⟨h1, h2, h3⟩ := ih (iter + 1) v { s with
            iterations := Function.update s.iterations iter ⟨x, g x, (g x).fabsSub x⟩,
            totalIterations := s.totalIterations + 1 } k z (Nat.lt_of_succ_lt_succ hk) hr' hd
        refine ⟨h1, h2, ?_⟩
        rw [h3]; simp only; omega

/-- The exit of the loop when the iteration reached as number `k` meets the tolerance. -/
theorem loop_converges_at (g : K → Dbl K) (fuel : Nat) :
    ∀ (iter : Nat) (x : K) (s : Run K) (k : Nat) (z v : K),
      k < fuel → reach g x k = some z → g z = .fin v → ¬ |v| > huge →
      |v - z| < TOLERANCE →
      (loop g fuel iter x s).diverged = 0
      ∧ (loop g fuel iter x s).x_current = v
      ∧ (loop g fuel iter x s).run.totalIterations = s.totalIterations + (k + 1) := by
  induction fuel with
  | zero => intro iter x s k z v hk; exact absurd hk (Nat.not_lt_zero k)
  | succ n ih =>
    intro iter x s k z v hk hr hgz hvz htz
    cases k with
    | zero =>
      simp only [reach, Option.some.injEq] at hr
      subst hr
      rw [loop_succ_fin g n iter x v s hgz hvz, if_pos htz]
      exact ⟨rfl, rfl, rfl⟩
    | succ k =>
      cases hgx : g x with
      | nan => simp [reach, hgx] at hr
      | inf => simp [reach, hgx] at hr
      | fin w =>
        by_cases hv : |w| > huge
        · simp [reach, hgx, hv] at hr
        by_cases ht : |w - x| < TOLERANCE
        · simp [reach, hgx, hv, ht] at hr
        have hr' : reach g w k = some z := by simpa [reach, hgx, hv, ht] using hr
        rw [loop_succ_fin g n iter x w s hgx hv, if_neg ht]
        obtain ⟨h1, h2, h3⟩ := ih (iter + 1) w { s with
            iterations := Function.update s.iterations iter ⟨x, g x, (g x).fabsSub x⟩,
            totalIterations := s.totalIterations + 1 } k z v (Nat.lt_of_succ_lt_succ hk) hr'
            hgz hvz htz
        refine ⟨h1, h2, ?_⟩
        rw [h3]; simp only; omega

/-- The exit of the loop when all `fuel` iterations run without a `break`. -/
theorem loop_exhausts (g : K → Dbl K) (fuel : Nat) :
    ∀ (iter : Nat) (x : K) (s : Run K) (y : K),
      reach g x fuel = some y →
      (loop g fuel iter x s).diverged = 0
      ∧ (loop g fuel iter x s).x_current = y
      ∧ (loop g fuel iter x s).run.totalIterations = s.totalIterations + fuel := by
  induction fuel with
  | zero =>
    intro iter x s y hr
    simp only [reach, Option.some.injEq] at hr
    subst hr
    exact ⟨rfl, rfl, rfl⟩
  | succ n ih =>
    intro iter x s y hr
    cases hgx : g x with
    | nan => simp [reach, hgx] at hr
    | inf => simp [reach, hgx] at hr
    | fin v =>
      by_cases hv : |v| > huge
      · simp [reach, hgx, hv] at hr
      by_cases ht : |v - x| < TOLERANCE
      · simp [reach, hgx, hv, ht] at hr
      have hr' : reach g v n = some y := by simpa [reach, hgx, hv, ht] using hr
      rw [loop_succ_fin g n iter x v s hgx hv, if_neg ht]
      obtain ⟨h1, h2, h3⟩ := ih (iter + 1) v { s with
          iterations := Function.update s.iterations iter ⟨x, g x, (g x).fabsSub x⟩,
          totalIterations := s.totalIterations + 1 } y hr'
      refine ⟨h1, h2, ?_⟩
      rw [h3]; simp only; omega

/-- How the loop is left: the last row written is the row of the iteration that stopped
it, and that iteration either failed the divergence test or accepted its value. -/
theorem loop_exit (g : K → Dbl K) (fuel : Nat) :
    ∀ (iter : Nat) (x : K) (s : Run K), 0 < fuel →
      ∃ n y, 1 ≤ n ∧ n ≤ fuel
        ∧ (loop g fuel iter x s).run.totalIterations = s.totalIterations + n
        ∧ (loop g fuel iter x s).run.iterations (iter + (n - 1)) = ⟨y, g y, (g y).fabsSub y⟩
        ∧ (((loop g fuel iter x s).diverged = 1 ∧ (loop g fuel iter x s).x_current = y
              ∧ divergent (g y) = true)
            ∨ ((loop g fuel iter x s).diverged = 0
              ∧ g y = .fin (loop g fuel iter x s).x_current
              ∧ ¬ |(loop g fuel iter x s).x_current| > huge
              ∧ (|(loop g fuel iter x s).x_current - y| < TOLERANCE ∨ n = fuel))) := by
  induction fuel with
  | zero => intro iter x s h; exact absurd h (Nat.lt_irrefl 0)
  | succ n ih =>
    intro iter x s _
    rcases divergent_or_fin (g x) with hd | ⟨v, hg, hv⟩
    · rw [loop_succ_divergent g n iter x s hd]
      exact ⟨1, x, le_refl 1, Nat.succ_le_succ (Nat.zero_le n), rfl, by simp,
        Or.inl ⟨rfl, rfl, hd⟩⟩
    · rw [loop_succ_fin g n iter x v s hg hv]
      by_cases ht : |v - x| < TOLERANCE
      · rw [if_pos ht]
        exact ⟨1, x, le_refl 1, Nat.succ_le_succ (Nat.zero_le n), rfl, by simp,
          Or.inr ⟨rfl, hg, hv, Or.inl ht⟩⟩
      · rw [if_neg ht]
        cases n with
        | zero =>
          exact ⟨1, x, le_refl 1, le_refl 1, rfl, by simp [loop],
            Or.inr ⟨rfl, hg, hv, Or.inr rfl⟩⟩
        | succ m =>
          obtain ⟨n', y, h1, h2, h3, h4, h5⟩ := ih (iter + 1) v { s with
            iterations := Function.update s.iterations iter ⟨x, g x, (g x).fabsSub x⟩,
            totalIterations := s.totalIterations + 1 } (Nat.succ_pos m)
          refine ⟨n' + 1, y, Nat.succ_le_succ (Nat.zero_le n'), Nat.succ_le_succ h2, ?_, ?_, ?_⟩
          · rw [h3]; simp only; omega
          · rw [show iter + (n' + 1 - 1) = iter + 1 + (n' - 1) by omega]; exact h4
          · rcases h5 with h5 | ⟨a1, a2, a3, a4⟩
            · exact Or.inl h5
            · refine Or.inr ⟨a1, a2, a3, ?_⟩
              rcases a4 with a4 | a4
              · exact Or.inl a4
              · exact Or.inr (by omega)

/-- The exit of the loop as the solver block starts it: 50 iterations at most, rows from
index 0, count reset. -/
theorem loop_exit_solve (g : K → Dbl K) (x0 : K) (s : Run K) :
    ∃ n y, 1 ≤ n ∧ n ≤ 50
      ∧ (loop g MAX_ITER 0 x0 (resetCount s)).run.totalIterations = n
      ∧ (loop g MAX_ITER 0 x0 (resetCount s)).run.iterations (n - 1)
          = ⟨y, g y, (g y).fabsSub y⟩
      ∧ (((loop g MAX_ITER 0 x0 (resetCount s)).diverged = 1
            ∧ (loop g MAX_ITER 0 x0 (resetCount s)).x_current = y
            ∧ divergent (g y) = true)
          ∨ ((loop g MAX_ITER 0 x0 (resetCount s)).diverged = 0
            ∧ g y = .fin (loop g MAX_ITER 0 x0 (resetCount s)).x_current
            ∧ ¬ |(loop g MAX_ITER 0 x0 (resetCount s)).x_current| > huge
            ∧ (|(loop g MAX_ITER 0 x0 (resetCount s)).x_current - y| < TOLERANCE
                ∨ n = 50))) := by
  obtain ⟨n, y, h1, h2, h3, h4, h5⟩ :=
    loop_exit g MAX_ITER 0 x0 (resetCount s) (by decide)
  refine ⟨n, y, h1, h2, ?_, ?_, h5⟩
  · rw [h3]; exact Nat.zero_add n
  · rw [← h4, Nat.zero_add]

/-- The diverged flag is 0 or 1. -/
theorem loop_diverged_cases (g : K → Dbl K) (fuel iter : Nat) (x : K) (s : Run K) :
    (loop g fuel iter x s).diverged = 0 ∨ (loop g fuel iter x s).diverged = 1 := by
  cases fuel with
  | zero => exact Or.inl rfl
  | succ n =>
    obtain ⟨_, _, _, _, _, _, h | h⟩ := loop_exit g (n + 1) iter x s (Nat.succ_pos n)
    · exact Or.inr h.1
    · exact Or.inl h.1

/-- The table has as many rows as `totalIterations` says. -/
theorem length_trace (s : Run K) : (trace s).length = s.totalIterations := by
  simp [trace]

/-- C6. In the solver block shared by the GUI drivers (the quadratic and the exponential
handler call it with their own `g` and `f`, see `quadratic_compute_run`,
`exponential_compute_run` and `guiApp_compute_run`): when the loop is left without the
divergence flag, the last row holds the last accepted `x_next`, which is `finalRoot`; the outcome is
"Did not converge" exactly when `|f(finalRoot)| > 0.1`, whatever the last step error was,
and otherwise it is success with that root. -/
theorem fixedPoint_residual_decides (g : K → Dbl K) (f : K → K) (x0 : K) (s : Run K)
    (hnd : (loop g MAX_ITER 0 x0 (resetCount s)).diverged = 0) :
    1 ≤ (solve g f x0 s).totalIterations
    ∧ (solve g f x0 s).totalIterations ≤ 50
    ∧ ((solve g f x0 s).iterations ((solve g f x0 s).totalIterations - 1)).xn1
        = .fin (solve g f x0 s).finalRoot
    ∧ ((solve g f x0 s).resultText = .failed false ↔ |f (solve g f x0 s).finalRoot| > 1 / 10)
    ∧ (|f (solve g f x0 s).finalRoot| > 1 / 10 → (solve g f x0 s).hasValidRoot = 0)
    ∧ (¬ |f (solve g f x0 s).finalRoot| > 1 / 10 →
        (solve g f x0 s).resultText
          = .success (solve g f x0 s).finalRoot (solve g f x0 s).totalIterations
        ∧ (solve g f x0 s).hasValidRoot = 1) := by
  obtain ⟨n, y, h1, h2, ht, h4, h5⟩ := loop_exit_solve g x0 s
  rcases h5 with ⟨hd, -, -⟩ | ⟨-, hfin, -, -⟩
  · rw [hnd] at hd; exact absurd hd Nat.zero_ne_one
  have hrow : ((loop g MAX_ITER 0 x0 (resetCount s)).run.iterations
      (n - 1)).xn1 = .fin (loop g MAX_ITER 0 x0 (resetCount s)).x_current := by
    rw [h4]; exact hfin
  have hnd' : ¬ (loop g MAX_ITER 0 x0 (resetCount s)).diverged ≠ 0 :=
    not_not.mpr hnd
  by_cases hv : |f (loop g MAX_ITER 0 x0 (resetCount s)).x_current| > 1 / 10
  · have hs : solve g f x0 s =
        { (loop g MAX_ITER 0 x0 (resetCount s)).run with
          finalRoot := (loop g MAX_ITER 0 x0 (resetCount s)).x_current,
          resultText := .failed false, hasValidRoot := 0 } := by
      simp only [solve, hnd, hv, or_true, if_true, ne_eq, not_true_eq_false, decide_False]
    rw [hs]
    refine ⟨?_, ?_, ?_, ?_, ?_, ?_⟩
    · show 1 ≤ (loop g MAX_ITER 0 x0 (resetCount s)).run.totalIterations
      rw [ht]; exact h1
    · show (loop g MAX_ITER 0 x0 (resetCount s)).run.totalIterations ≤ 50
      rw [ht]; exact h2
    · show ((loop g MAX_ITER 0 x0 (resetCount s)).run.iterations
        ((loop g MAX_ITER 0 x0 (resetCount s)).run.totalIterations - 1)).xn1 = _
      rw [ht]; exact hrow
    · exact ⟨fun _ => hv, fun _ => rfl⟩
    · exact fun _ => rfl
    · exact fun h => absurd hv h
  · have hs : solve g f x0 s =
        { (loop g MAX_ITER 0 x0 (resetCount s)).run with
          finalRoot := (loop g MAX_ITER 0 x0 (resetCount s)).x_current,
          resultText := .success (loop g MAX_ITER 0 x0 (resetCount s)).x_current
            (loop g MAX_ITER 0 x0 (resetCount s)).run.totalIterations,
          hasValidRoot := 1 } := by
      simp only [solve, hnd', hv, or_self, if_false]
    rw [hs]
    refine ⟨?_, ?_, ?_, ?_, ?_, ?_⟩
    · show 1 ≤ (loop g MAX_ITER 0 x0 (resetCount s)).run.totalIterations
      rw [ht]; exact h1
    · show (loop g MAX_ITER 0 x0 (resetCount s)).run.totalIterations ≤ 50
      rw [ht]; exact h2
    · show ((loop g MAX_ITER 0 x0 (resetCount s)).run.iterations
        ((loop g MAX_ITER 0 x0 (resetCount s)).run.totalIterations - 1)).xn1 = _
      rw [ht]; exact hrow
    · exact ⟨fun h => ResultText.noConfusion h, fun h => absurd h hv⟩
    · exact fun h => absurd h hv
    · exact fun _ => ⟨rfl, rfl⟩

/-- The solver block after a loop that set the divergence flag. -/
theorem solve_of_diverged (g : K → Dbl K) (f : K → K) (x0 : K) (s : Run K)
    (hd : (loop g MAX_ITER 0 x0 (resetCount s)).diverged = 1) :
    solve g f x0 s =
      { (loop g MAX_ITER 0 x0 (resetCount s)).run with
        finalRoot := (loop g MAX_ITER 0 x0 (resetCount s)).x_current,
        resultText := .failed true, hasValidRoot := 0 } := by
  simp only [solve, hd, ne_eq, one_ne_zero, not_false_eq_true, true_or, if_true, decide_True]

/-- The solver block after a loop without the flag whose residual is above `0.1`. -/
theorem solve_of_residual (g : K → Dbl K) (f : K → K) (x0 : K) (s : Run K)
    (hd : (loop g MAX_ITER 0 x0 (resetCount s)).diverged = 0)
    (hv : |f (loop g MAX_ITER 0 x0 (resetCount s)).x_current| > 1 / 10) :
    solve g f x0 s =
      { (loop g MAX_ITER 0 x0 (resetCount s)).run with
        finalRoot := (loop g MAX_ITER 0 x0 (resetCount s)).x_current,
        resultText := .failed false, hasValidRoot := 0 } := by
  simp only [solve, hd, hv, or_true, if_true, ne_eq, not_true_eq_false, decide_False]

/-- The solver block after a loop without the flag whose residual is at most `0.1`. -/
theorem solve_of_accepted (g : K → Dbl K) (f : K → K) (x0 : K) (s : Run K)
    (hd : (loop g MAX_ITER 0 x0 (resetCount s)).diverged = 0)
    (hv : ¬ |f (loop g MAX_ITER 0 x0 (resetCount s)).x_current| > 1 / 10) :
    solve g f x0 s =
      { (loop g MAX_ITER 0 x0 (resetCount s)).run with
        finalRoot := (loop g MAX_ITER 0 x0 (resetCount s)).x_current,
        resultText := .success (loop g MAX_ITER 0 x0 (resetCount s)).x_current
          (loop g MAX_ITER 0 x0 (resetCount s)).run.totalIterations,
        hasValidRoot := 1 } := by
  have hd' : ¬ (loop g MAX_ITER 0 x0 (resetCount s)).diverged ≠ 0 :=
    not_not.mpr hd
  simp only [solve, hd', hv, or_self, if_false]

/-- Witness for C6: the quadratic handler on `x^2 - 3x + 2`, method 1, `x0 = 1` over the
reals. The first iteration returns `g(1) = 1`, so the loop is left without the flag, and the
theorem applies; the residual is `f(1) = 0` and the outcome is success with root 1. -/
theorem fixedPoint_residual_decides_witness :
    (loop (fun x => Quadratic.g Real.sqrt x 1 (-3) 2 1) MAX_ITER 0 1
      (resetCount (initial (fun _ => ⟨0, .nan, .nan⟩)))).diverged = 0
    ∧ ((FixedPointQuadratic.compute Real.sqrt
          (FixedPointQuadratic.initial (fun _ => ⟨0, .nan, .nan⟩)) 1 (-3) 2 1 1).run.resultText
        = .failed false
      ↔ |Quadratic.f (FixedPointQuadratic.compute Real.sqrt
          (FixedPointQuadratic.initial (fun _ => ⟨0, .nan, .nan⟩)) 1 (-3) 2 1 1).run.finalRoot
          1 (-3) 2| > 1 / 10) :=
  have hnd : (loop (fun x => Quadratic.g Real.sqrt x 1 (-3) 2 1) MAX_ITER 0 1
      (resetCount (initial (fun _ => ⟨0, .nan, .nan⟩)))).diverged = 0 :=
    (loop_converges_at _ MAX_ITER 0 1 _ 0 1 1 (by decide) rfl
      (by norm_num [Quadratic.g, Dbl.div]) (by norm_num [huge, lt_abs])
      (by norm_num [TOLERANCE])).1
  ⟨hnd, (fixedPoint_residual_decides (fun x => Quadratic.g Real.sqrt x 1 (-3) 2 1)
    (fun x => Quadratic.f x 1 (-3) 2) 1 (initial (fun _ => ⟨0, .nan, .nan⟩)) hnd).2.2.2.1⟩

/-- C7. In the solver block shared by the GUI drivers: if the loop gets to its iteration
number `k + 1 ≤ 50` with `x_current = z` and there `g(z)` is NaN, infinite or larger than
`1e10` in absolute value, the outcome is "Diverged" (no condition on the step error or on
the residual), `totalIterations` is `k + 1`, the table has exactly `k + 1` rows, its last
row is the offending one, and every earlier row is the row of the iteration run there. -/
theorem fixedPoint_divergence_priority (g : K → Dbl K) (f : K → K) (x0 : K) (s : Run K)
    (k : Nat) (z : K) (hk : k < 50) (hr : reach g x0 k = some z)
    (hd : divergent (g z) = true) :
    (solve g f x0 s).resultText = .failed true
    ∧ (solve g f x0 s).hasValidRoot = 0
    ∧ (solve g f x0 s).totalIterations = k + 1
    ∧ (trace (solve g f x0 s)).length = k + 1
    ∧ (solve g f x0 s).iterations k = ⟨z, g z, (g z).fabsSub z⟩
    ∧ ∀ j y, j ≤ k → reach g x0 j = some y →
        (solve g f x0 s).iterations j = ⟨y, g y, (g y).fabsSub y⟩ := by
  obtain ⟨h1, -, h3⟩ :=
    loop_diverges_at g MAX_ITER 0 x0 (resetCount s) k z hk hr hd
  have hrows : ∀ j y, j ≤ k → reach g x0 j = some y →
      (loop g MAX_ITER 0 x0 (resetCount s)).run.iterations j
        = ⟨y, g y, (g y).fabsSub y⟩ := by
    intro j y hj hy
    have := loop_rows g MAX_ITER 0 x0 (resetCount s) j y
      (Nat.lt_of_le_of_lt hj hk) hy
    rwa [Nat.zero_add] at this
  have ht : (loop g MAX_ITER 0 x0 (resetCount s)).run.totalIterations
      = k + 1 := by
    rw [h3]; exact Nat.zero_add _
  rw [length_trace, solve_of_diverged g f x0 s h1]
  exact ⟨rfl, rfl, ht, ht, hrows k z (le_refl k) hr, hrows⟩

/-- Witness for C7: the quadratic handler on `x^2 - x`, method 1 (`g(x) = x^2`), `x0 = 10`
over the reals. The loop gets to its fourth iteration with `x_current = 1e8`, where
`g = 1e16` exceeds `1e10`: the outcome is "Diverged" and the table has four rows. -/
theorem fixedPoint_divergence_priority_witness :
    reach (fun x => Quadratic.g Real.sqrt x 1 (-1) 0 1) 10 3 = some (10 ^ 8)
    ∧ divergent (Quadratic.g Real.sqrt (10 ^ 8) 1 (-1) 0 1) = true
    ∧ (FixedPointQuadratic.compute Real.sqrt
          (FixedPointQuadratic.initial (fun _ => ⟨0, .nan, .nan⟩)) 1 (-1) 0 10 1).run.resultText
        = .failed true
    ∧ (FixedPointQuadratic.compute Real.sqrt
          (FixedPointQuadratic.initial (fun _ => ⟨0, .nan, .nan⟩)) 1 (-1) 0 10
          1).run.totalIterations = 4
    ∧ (FixedPointQuadratic.compute Real.sqrt
          (FixedPointQuadratic.initial (fun _ => ⟨0, .nan, .nan⟩)) 1 (-1) 0 10
          1).run.iterations 3
        = ⟨10 ^ 8, Quadratic.g Real.sqrt (10 ^ 8) 1 (-1) 0 1,
            (Quadratic.g Real.sqrt (10 ^ 8) 1 (-1) 0 1).fabsSub (10 ^ 8)⟩ :=
  have hr : reach (fun x => Quadratic.g Real.sqrt x 1 (-1) 0 1) 10 3 = some (10 ^ 8) := by
    norm_num [reach, Quadratic.g, Dbl.div, huge, TOLERANCE, abs_lt, lt_abs]
  have hd : divergent (Quadratic.g Real.sqrt (10 ^ 8) 1 (-1) 0 1) = true := by
    norm_num [divergent, Quadratic.g, Dbl.div, huge, lt_abs]
  have h := fixedPoint_divergence_priority (fun x => Quadratic.g Real.sqrt x 1 (-1) 0 1)
    (fun x => Quadratic.f x 1 (-1) 0) 10 (initial (fun _ => ⟨0, .nan, .nan⟩)) 3 (10 ^ 8)
    (by decide) hr hd
  ⟨hr, hd, h.1, h.2.2.1, h.2.2.2.2.1⟩

/-- One accepted iteration that does not meet the tolerance moves the start of `reach`. -/
theorem reach_succ_of_continue (g : K → Dbl K) (x v : K) (n : Nat) (hg : g x = .fin v)
    (hv : ¬ |v| > huge) (ht : ¬ |v - x| < TOLERANCE) :
    reach g x (n + 1) = reach g v n := by
  simp only [reach, hg, hv, ht, if_false]

/-- A pair exchanged by `g`, both within the bound and further apart than the tolerance,
keeps the loop running: after an even number of iterations it is back at its start. -/
theorem reach_two_cycle (g : K → Dbl K) (p q : K) (hp : g p = .fin q) (hq : g q = .fin p)
    (hvp : ¬ |p| > huge) (hvq : ¬ |q| > huge)
    (hpq : ¬ |q - p| < TOLERANCE) (hqp : ¬ |p - q| < TOLERANCE) (m : Nat) :
    reach g p (2 * m) = some p ∧ reach g p (2 * m + 1) = some q := by
  have hboth : reach g p (2 * m) = some p ∧ reach g q (2 * m) = some q := by
    induction m with
    | zero => exact ⟨rfl, rfl⟩
    | succ m ih =>
      have e : 2 * (m + 1) = 2 * m + 1 + 1 := by ring
      rw [e, reach_succ_of_continue g p q _ hp hvq hpq, reach_succ_of_continue g q p _ hq hvp hqp,
        reach_succ_of_continue g q p _ hq hvp hqp, reach_succ_of_continue g p q _ hp hvq hpq]
      exact ih
  exact ⟨hboth.1, by rw [reach_succ_of_continue g p q _ hp hvq hpq]; exact hboth.2⟩

/-- Counterexample to C8: the quadratic handler on `x^2 - 1`, method 2 (`g(x) = 1/x`),
`x0 = 51/50` over the reals. The iterates alternate between `51/50` and `50/51`, every step
error is `101/2550 > 0.01`, all 50 iterations run, and since `|f(51/50)| = 0.0404 ≤ 0.1` the
handler reports success although the step error of the last row is not below `0.01`. -/
theorem fixedPoint_success_without_tolerance :
    (FixedPointQuadratic.compute Real.sqrt
        (FixedPointQuadratic.initial (fun _ => ⟨0, .nan, .nan⟩)) 1 0 (-1) (51 / 50)
        2).run.resultText = .success (51 / 50) 50
    ∧ (FixedPointQuadratic.compute Real.sqrt
        (FixedPointQuadratic.initial (fun _ => ⟨0, .nan, .nan⟩)) 1 0 (-1) (51 / 50)
        2).run.hasValidRoot = 1
    ∧ (FixedPointQuadratic.compute Real.sqrt
        (FixedPointQuadratic.initial (fun _ => ⟨0, .nan, .nan⟩)) 1 0 (-1) (51 / 50)
        2).run.totalIterations = 50
    ∧ (FixedPointQuadratic.compute Real.sqrt
        (FixedPointQuadratic.initial (fun _ => ⟨0, .nan, .nan⟩)) 1 0 (-1) (51 / 50)
        2).run.iterations 49 = ⟨50 / 51, .fin (51 / 50), .fin (101 / 2550)⟩
    ∧ ¬ ((101 / 2550 : ℝ) < TOLERANCE) := by
  have hp : (fun x => Quadratic.g Real.sqrt x 1 0 (-1) 2) (51 / 50) = .fin (50 / 51) := by
    norm_num [Quadratic.g, Dbl.div, tiny, abs_lt, lt_abs]
  have hq : (fun x => Quadratic.g Real.sqrt x 1 0 (-1) 2) (50 / 51) = .fin (51 / 50) := by
    norm_num [Quadratic.g, Dbl.div, tiny, abs_lt, lt_abs]
  have hcyc := reach_two_cycle (fun x => Quadratic.g Real.sqrt x 1 0 (-1) 2) (51 / 50) (50 / 51)
    hp hq (by norm_num [huge, lt_abs]) (by norm_num [huge, lt_abs])
    (by norm_num [TOLERANCE, abs_lt]) (by norm_num [TOLERANCE, abs_lt])
  have h50 : reach (fun x => Quadratic.g Real.sqrt x 1 0 (-1) 2) (51 / 50) 50
      = some (51 / 50) := (hcyc 25).1
  have h49 : reach (fun x => Quadratic.g Real.sqrt x 1 0 (-1) 2) (51 / 50) 49
      = some (50 / 51) := (hcyc 24).2
  obtain ⟨e1, e2, e3⟩ := loop_exhausts (fun x => Quadratic.g Real.sqrt x 1 0 (-1) 2) MAX_ITER 0
    (51 / 50) (resetCount (initial (fun _ => ⟨0, .nan, .nan⟩))) (51 / 50) h50
  have hrow := loop_rows (fun x => Quadratic.g Real.sqrt x 1 0 (-1) 2) MAX_ITER 0
    (51 / 50) (resetCount (initial (fun _ => ⟨0, .nan, .nan⟩))) 49 (50 / 51)
    (by decide) h49
  have hres : ¬ |(fun x => Quadratic.f x 1 0 (-1))
      (loop (fun x => Quadratic.g Real.sqrt x 1 0 (-1) 2) MAX_ITER 0 (51 / 50)
      (resetCount (initial (fun _ => ⟨0, .nan, .nan⟩)))).x_current|
      > 1 / 10 := by
    rw [e2]; norm_num [Quadratic.f, abs_lt, lt_abs]
  have hs := solve_of_accepted (fun x => Quadratic.g Real.sqrt x 1 0 (-1) 2)
    (fun x => Quadratic.f x 1 0 (-1)) (51 / 50) (initial (fun _ => ⟨0, .nan, .nan⟩)) e1 hres
  have hc : (FixedPointQuadratic.compute Real.sqrt
      (FixedPointQuadratic.initial (fun _ => ⟨0, .nan, .nan⟩)) 1 0 (-1) (51 / 50) 2).run
      = solve (fun x => Quadratic.g Real.sqrt x 1 0 (-1) 2)
          (fun x => Quadratic.f x 1 0 (-1)) (51 / 50)
          (initial (fun _ => ⟨0, .nan, .nan⟩)) := rfl
  rw [hc, hs]
  refine ⟨?_, rfl, ?_, ?_, by norm_num [TOLERANCE]⟩
  · show ResultText.success _ _ = _
    rw [e2, e3]; rfl
  · exact e3
  · show (loop (fun x => Quadratic.g Real.sqrt x 1 0 (-1) 2) MAX_ITER 0 (51 / 50)
      (resetCount (initial (fun _ => ⟨0, .nan, .nan⟩)))).run.iterations 49 = _
    rw [Nat.zero_add] at hrow
    rw [hrow]
    simp only [hq, Dbl.fabsSub]
    norm_num [abs_of_pos]

/-- C8, amended. In the solver block shared by the fixed-point drivers, success is reported
only when the loop was left without the divergence flag and `|f(root)| ≤ 0.1`, where `root`
is the `x_next` of the last row; and then either the step error of the last row is below
`0.01` or all 50 iterations were used. -/
theorem fixedPoint_success_requires (g : K → Dbl K) (f : K → K) (x0 : K) (s : Run K)
    (root : K) (n : Nat) (h : (solve g f x0 s).resultText = .success root n) :
    (loop g MAX_ITER 0 x0 (resetCount s)).diverged = 0
    ∧ root = (solve g f x0 s).finalRoot
    ∧ n = (solve g f x0 s).totalIterations
    ∧ (solve g f x0 s).hasValidRoot = 1
    ∧ |f root| ≤ 1 / 10
    ∧ 1 ≤ n ∧ n ≤ 50
    ∧ ((solve g f x0 s).iterations (n - 1)).xn1 = .fin root
    ∧ ((∃ e, ((solve g f x0 s).iterations (n - 1)).error = .fin e ∧ e < TOLERANCE)
        ∨ n = 50) := by
  obtain ⟨m, y, h1, h2, h3, h4, h5⟩ := loop_exit_solve g x0 s
  rcases h5 with ⟨hd, -, -⟩ | ⟨hd, hfin, -, hstop⟩
  · rw [solve_of_diverged g f x0 s hd] at h
    exact ResultText.noConfusion h
  by_cases hv : |f (loop g MAX_ITER 0 x0 (resetCount s)).x_current| > 1 / 10
  · rw [solve_of_residual g f x0 s hd hv] at h
    exact ResultText.noConfusion h
  rw [solve_of_accepted g f x0 s hd hv] at h ⊢
  have hroot : (loop g MAX_ITER 0 x0 (resetCount s)).x_current = root :=
    (ResultText.success.inj h).1
  have hn : (loop g MAX_ITER 0 x0 (resetCount s)).run.totalIterations = n :=
    (ResultText.success.inj h).2
  have hmn : m = n := by rw [← h3, hn]
  subst hmn
  rw [hroot] at hv hfin hstop
  refine ⟨hd, hroot.symm, hn.symm, rfl, not_lt.mp hv, h1, h2, ?_, ?_⟩
  · show ((loop g MAX_ITER 0 x0 (resetCount s)).run.iterations (m - 1)).xn1 = _
    rw [h4]; exact hfin
  · rcases hstop with hlt | hfull
    · left
      refine ⟨|root - y|, ?_, hlt⟩
      show ((loop g MAX_ITER 0 x0 (resetCount s)).run.iterations (m - 1)).error
        = _
      rw [h4]
      simp only [hfin, Dbl.fabsSub]
    · right; exact hfull

/-- Witness for C8 as amended: gui_app.c on `x - 2` (`a = 0, b = 1, c = -2`), method 2
(`g(x) = 2`), `x0 = 2` over the reals: success with root 2 after one iteration. -/
theorem fixedPoint_success_requires_witness :
    (GuiApp.compute Real.sqrt (GuiApp.initial (fun _ => ⟨0, .nan, .nan⟩)) 0 1 (-2) 2
        2).run.resultText = .success 2 1
    ∧ |Quadratic.f (2 : ℝ) 0 1 (-2)| ≤ 1 / 10
    ∧ ((∃ e, ((GuiApp.compute Real.sqrt (GuiApp.initial (fun _ => ⟨0, .nan, .nan⟩)) 0 1
          (-2) 2 2).run.iterations (1 - 1)).error = .fin e ∧ e < TOLERANCE) ∨ 1 = 50) :=
  have hc : (GuiApp.compute Real.sqrt (GuiApp.initial (fun _ => ⟨0, .nan, .nan⟩)) 0 1 (-2) 2
      2).run = solve (fun x => Quadratic.g Real.sqrt x 0 1 (-2) 2)
        (fun x => Quadratic.f x 0 1 (-2)) 2 (initial (fun _ => ⟨0, .nan, .nan⟩)) := by
    simp [GuiApp.compute, GuiApp.initial]
  have hl := loop_converges_at (fun x => Quadratic.g Real.sqrt x 0 1 (-2) 2) MAX_ITER 0 2
      (resetCount (initial (fun _ => ⟨0, .nan, .nan⟩))) 0 2 2 (by decide) rfl
    (by norm_num [Quadratic.g, Dbl.div, tiny, abs_lt, lt_abs]) (by norm_num [huge, lt_abs])
    (by norm_num [TOLERANCE])
  have hres : ¬ |(fun x => Quadratic.f x 0 1 (-2))
      (loop (fun x => Quadratic.g Real.sqrt x 0 1 (-2) 2) MAX_ITER 0 2
      (resetCount (initial (fun _ => ⟨0, .nan, .nan⟩)))).x_current|
      > 1 / 10 := by
    rw [hl.2.1]; norm_num [Quadratic.f]
  have htxt : (GuiApp.compute Real.sqrt (GuiApp.initial (fun _ => ⟨0, .nan, .nan⟩)) 0 1 (-2) 2
      2).run.resultText = .success 2 1 := by
    rw [hc, solve_of_accepted _ _ _ _ hl.1 hres]
    show ResultText.success _ _ = _
    rw [hl.2.1, hl.2.2]; rfl
  have h := fixedPoint_success_requires (fun x => Quadratic.g Real.sqrt x 0 1 (-2) 2)
    (fun x => Quadratic.f x 0 1 (-2)) 2 (initial (fun _ => ⟨0, .nan, .nan⟩)) 2 1
    (by rw [← hc]; exact htxt)
  ⟨htxt, h.2.2.2.2.1, by rw [hc]; exact h.2.2.2.2.2.2.2.2⟩

end FixedPoint

namespace Secant

variable {K : Type} [LinearOrderedField K]

/-- One unfolding of the loop, phrased with the window of the secant sequence. -/
theorem secant_loop_succ (exp : K → K) (fuel iter : Nat) (w : Window K) (s : State K) :
    loop exp (fuel + 1) iter w.x_prev w.x_curr w.f_prev w.f_curr s =
      if guardTrips w then
        ⟨0, { s with statusMsg := .errorDivisionByZero (iter + 1) }⟩
      else if converges exp s.a_val s.b_val w then
        ⟨1, { s with
          iterations := Function.update s.iterations s.iterationCount (rowOf iter w),
          iterationCount := s.iterationCount + 1,
          root := specNext w, hasResult := 1, statusSuccess := 1,
          statusMsg := .success (s.iterationCount + 1) (specNext w) }⟩
      else
        loop exp fuel (iter + 1) (specShift exp s.a_val s.b_val w).x_prev
          (specShift exp s.a_val s.b_val w).x_curr (specShift exp s.a_val s.b_val w).f_prev
          (specShift exp s.a_val s.b_val w).f_curr
          { s with
            iterations := Function.update s.iterations s.iterationCount (rowOf iter w),
            iterationCount := s.iterationCount + 1 } := by
  simp only [loop, guardTrips, converges, specShift, rowOf, specNext]

/-- What the loop leaves behind, in terms of the secant sequence started at `w`: the three
ways of leaving it (stopping test met, all iterations used, denominator guard). -/
theorem secant_loop_spec (exp : K → K) (fuel : Nat) :
    ∀ (iter : Nat) (w : Window K) (s : State K),
      (∀ i, i < s.iterationCount →
          (loop exp fuel iter w.x_prev w.x_curr w.f_prev w.f_curr s).st.iterations i
            = s.iterations i)
      ∧ (∀ k, k < fuel →
          (∀ j, j ≤ k → ¬ guardTrips ((specShift exp s.a_val s.b_val)^[j] w)) →
          converges exp s.a_val s.b_val ((specShift exp s.a_val s.b_val)^[k] w) →
          (∀ j, j < k →
            ¬ converges exp s.a_val s.b_val ((specShift exp s.a_val s.b_val)^[j] w)) →
          (loop exp fuel iter w.x_prev w.x_curr w.f_prev w.f_curr s).converged = 1
          ∧ (loop exp fuel iter w.x_prev w.x_curr w.f_prev w.f_curr s).st.root
              = specNext ((specShift exp s.a_val s.b_val)^[k] w)
          ∧ (loop exp fuel iter w.x_prev w.x_curr w.f_prev w.f_curr s).st.hasResult = 1
          ∧ (loop exp fuel iter w.x_prev w.x_curr w.f_prev w.f_curr s).st.statusSuccess = 1
          ∧ (loop exp fuel iter w.x_prev w.x_curr w.f_prev w.f_curr s).st.statusMsg
              = .success (s.iterationCount + (k + 1))
                  (specNext ((specShift exp s.a_val s.b_val)^[k] w))
          ∧ (loop exp fuel iter w.x_prev w.x_curr w.f_prev w.f_curr s).st.iterationCount
              = s.iterationCount + (k + 1)
          ∧ ∀ j, j ≤ k →
              (loop exp fuel iter w.x_prev w.x_curr w.f_prev w.f_curr s).st.iterations
                  (s.iterationCount + j)
                = rowOf (iter + j) ((specShift exp s.a_val s.b_val)^[j] w))
      ∧ ((∀ j, j < fuel → ¬ guardTrips ((specShift exp s.a_val s.b_val)^[j] w)) →
          (∀ j, j < fuel →
            ¬ converges exp s.a_val s.b_val ((specShift exp s.a_val s.b_val)^[j] w)) →
          (loop exp fuel iter w.x_prev w.x_curr w.f_prev w.f_curr s).converged = 0
          ∧ (loop exp fuel iter w.x_prev w.x_curr w.f_prev w.f_curr s).st.root = s.root
          ∧ (loop exp fuel iter w.x_prev w.x_curr w.f_prev w.f_curr s).st.hasResult
              = s.hasResult
          ∧ (loop exp fuel iter w.x_prev w.x_curr w.f_prev w.f_curr s).st.statusSuccess
              = s.statusSuccess
          ∧ (loop exp fuel iter w.x_prev w.x_curr w.f_prev w.f_curr s).st.statusMsg
              = s.statusMsg
          ∧ (loop exp fuel iter w.x_prev w.x_curr w.f_prev w.f_curr s).st.iterationCount
              = s.iterationCount + fuel
          ∧ ∀ j, j < fuel →
              (loop exp fuel iter w.x_prev w.x_curr w.f_prev w.f_curr s).st.iterations
                  (s.iterationCount + j)
                = rowOf (iter + j) ((specShift exp s.a_val s.b_val)^[j] w))
      ∧ (∀ k, k < fuel →
          guardTrips ((specShift exp s.a_val s.b_val)^[k] w) →
          (∀ j, j < k → ¬ guardTrips ((specShift exp s.a_val s.b_val)^[j] w)) →
          (∀ j, j < k →
            ¬ converges exp s.a_val s.b_val ((specShift exp s.a_val s.b_val)^[j] w)) →
          (loop exp fuel iter w.x_prev w.x_curr w.f_prev w.f_curr s).converged = 0
          ∧ (loop exp fuel iter w.x_prev w.x_curr w.f_prev w.f_curr s).st.root = s.root
          ∧ (loop exp fuel iter w.x_prev w.x_curr w.f_prev w.f_curr s).st.hasResult
              = s.hasResult
          ∧ (loop exp fuel iter w.x_prev w.x_curr w.f_prev w.f_curr s).st.statusSuccess
              = s.statusSuccess
          ∧ (loop exp fuel iter w.x_prev w.x_curr w.f_prev w.f_curr s).st.statusMsg
              = .errorDivisionByZero (iter + k + 1)
          ∧ (loop exp fuel iter w.x_prev w.x_curr w.f_prev w.f_curr s).st.iterationCount
              = s.iterationCount + k
          ∧ ∀ j, j < k →
              (loop exp fuel iter w.x_prev w.x_curr w.f_prev w.f_curr s).st.iterations
                  (s.iterationCount + j)
                = rowOf (iter + j) ((specShift exp s.a_val s.b_val)^[j] w)) := by
  induction fuel with
  | zero =>
    intro iter w s
    refine ⟨fun _ _ => rfl, fun k hk => absurd hk (Nat.not_lt_zero k), fun _ _ => ?_,
      fun k hk => absurd hk (Nat.not_lt_zero k)⟩
    exact ⟨rfl, rfl, rfl, rfl, rfl, rfl, fun j hj => absurd hj (Nat.not_lt_zero j)⟩
  | succ n ih =>
    intro iter w s
    rw [secant_loop_succ]
    by_cases hg : guardTrips w
    · rw [if_pos hg]
      refine ⟨fun _ _ => rfl, ?_, ?_, ?_⟩
      · intro k _ hng
        exact absurd hg (hng 0 (Nat.zero_le k))
      · intro hng
        exact absurd hg (hng 0 (Nat.succ_pos n))
      · intro k _ _ hfirst _
        have hk0 : k = 0 := by
          by_contra hne
          exact hfirst 0 (Nat.pos_of_ne_zero hne) hg
        subst hk0
        exact ⟨rfl, rfl, rfl, rfl, rfl, rfl, fun j hj => absurd hj (Nat.not_lt_zero j)⟩
    rw [if_neg hg]
    by_cases hc : converges exp s.a_val s.b_val w
    · rw [if_pos hc]
      refine ⟨fun i hi => Function.update_noteq (Nat.ne_of_lt hi) _ _, ?_, ?_, ?_⟩
      · intro k _ _ _ hfirst
        have hk0 : k = 0 := by
          by_contra hne
          exact hfirst 0 (Nat.pos_of_ne_zero hne) hc
        subst hk0
        refine ⟨rfl, rfl, rfl, rfl, rfl, rfl, ?_⟩
        intro j hj
        have hj0 : j = 0 := Nat.le_zero.mp hj
        subst hj0
        simp
      · intro _ hnc
        exact absurd hc (hnc 0 (Nat.succ_pos n))
      · intro k _ hgk _ hnc
        cases k with
        | zero => exact absurd hgk hg
        | succ k => exact absurd hc (hnc 0 (Nat.succ_pos k))
    rw [if_neg hc]
    obtain ⟨hold, hconv, hnone, hguard⟩ := ih (iter + 1) (specShift exp s.a_val s.b_val w)
      { s with
        iterations := Function.update s.iterations s.iterationCount (rowOf iter w),
        iterationCount := s.iterationCount + 1 }
    have hrow0 := hold s.iterationCount (Nat.lt_succ_self _)
    simp only [Function.update_same] at hrow0
    have hrows : ∀ m, (∀ j, j < m →
        (loop exp n (iter + 1) (specShift exp s.a_val s.b_val w).x_prev
          (specShift exp s.a_val s.b_val w).x_curr (specShift exp s.a_val s.b_val w).f_prev
          (specShift exp s.a_val s.b_val w).f_curr
          { s with
            iterations := Function.update s.iterations s.iterationCount (rowOf iter w),
            iterationCount := s.iterationCount + 1 }).st.iterations (s.iterationCount + 1 + j)
          = rowOf (iter + 1 + j)
              ((specShift exp s.a_val s.b_val)^[j] (specShift exp s.a_val s.b_val w))) →
        ∀ j, j < m + 1 →
        (loop exp n (iter + 1) (specShift exp s.a_val s.b_val w).x_prev
          (specShift exp s.a_val s.b_val w).x_curr (specShift exp s.a_val s.b_val w).f_prev
          (specShift exp s.a_val s.b_val w).f_curr
          { s with
            iterations := Function.update s.iterations s.iterationCount (rowOf iter w),
            iterationCount := s.iterationCount + 1 }).st.iterations (s.iterationCount + j)
          = rowOf (iter + j) ((specShift exp s.a_val s.b_val)^[j] w) := by
      intro m h5 j hj
      cases j with
      | zero => simpa using hrow0
      | succ j =>
        have := h5 j (Nat.lt_of_succ_lt_succ hj)
        simp only [Function.iterate_succ_apply]
        rw [show s.iterationCount + (j + 1) = s.iterationCount + 1 + j by omega,
          show iter + (j + 1) = iter + 1 + j by omega]
        exact this
    refine ⟨?_, ?_, ?_, ?_⟩
    · intro i hi
      rw [hold i (Nat.lt_succ_of_lt hi)]
      exact Function.update_noteq (Nat.ne_of_lt hi) _ _
    · intro k hk hng hck hfirst
      cases k with
      | zero => exact absurd hck hc
      | succ k =>
        obtain ⟨h1, h2, h3, h4, h5, h6, h7⟩ := hconv k (Nat.lt_of_succ_lt_succ hk)
          (fun j hj => hng (j + 1) (Nat.succ_le_succ hj)) hck
          (fun j hj => hfirst (j + 1) (Nat.succ_lt_succ hj))
        refine ⟨h1, h2, h3, h4, ?_, ?_, ?_⟩
        · rw [h5]; simp only [Function.iterate_succ_apply]; congr 1; omega
        · rw [h6]; simp only; omega
        · intro j hj
          exact hrows (k + 1) (fun j hj => h7 j (Nat.lt_succ_iff.mp hj)) j
            (Nat.lt_succ_of_le hj)
    · intro hng hnc
      obtain ⟨h1, h2, h3, h4, h5, h6, h7⟩ :=
        hnone (fun j hj => hng (j + 1) (Nat.succ_lt_succ hj))
          (fun j hj => hnc (j + 1) (Nat.succ_lt_succ hj))
      refine ⟨h1, h2, h3, h4, h5, ?_, hrows n h7⟩
      rw [h6]; simp only; omega
    · intro k hk hgk hng hnc
      cases k with
      | zero => exact absurd hgk hg
      | succ k =>
        obtain ⟨h1, h2, h3, h4, h5, h6, h7⟩ := hguard k (Nat.lt_of_succ_lt_succ hk) hgk
          (fun j hj => hng (j + 1) (Nat.succ_lt_succ hj))
          (fun j hj => hnc (j + 1) (Nat.succ_lt_succ hj))
        refine ⟨h1, h2, h3, h4, ?_, ?_, hrows k h7⟩
        · rw [h5]; congr 1; omega
        · rw [h6]; simp only; omega

/-- The table of a state with `n` rows that agree with `rows`. -/
theorem secant_trace_eq_of_rows (s : State K) (n : Nat) (rows : Nat → IterationData K)
    (hn : s.iterationCount = n) (hrows : ∀ j, j < n → s.iterations j = rows j) :
    trace s = (List.range n).map rows := by
  unfold trace
  rw [hn]
  apply List.map_congr_left
  intro j hj
  exact hrows j (List.mem_range.mp hj)

/-- The handler on two distinct guesses, in terms of the loop. -/
theorem compute_distinct (exp : K → K) (s : State K) (a b x0 x1 : K)
    (h01 : ¬ |x1 - x0| < tiny) :
    compute exp s a b x0 x1 =
      if (loop exp MAX_ITERATIONS 0 x0 x1 (function exp x0 a b) (function exp x1 a b)
            { s with a_val := a, b_val := b, hasResult := 0, iterationCount := 0,
                     statusSuccess := 0 }).converged = 0
          ∧ (loop exp MAX_ITERATIONS 0 x0 x1 (function exp x0 a b) (function exp x1 a b)
            { s with a_val := a, b_val := b, hasResult := 0, iterationCount := 0,
                     statusSuccess := 0 }).st.iterationCount > 0 then
        { (loop exp MAX_ITERATIONS 0 x0 x1 (function exp x0 a b) (function exp x1 a b)
            { s with a_val := a, b_val := b, hasResult := 0, iterationCount := 0,
                     statusSuccess := 0 }).st with
          statusMsg := .didNotConverge MAX_ITERATIONS }
      else
        (loop exp MAX_ITERATIONS 0 x0 x1 (function exp x0 a b) (function exp x1 a b)
            { s with a_val := a, b_val := b, hasResult := 0, iterationCount := 0,
                     statusSuccess := 0 }).st := by
  simp only [compute, h01, if_false]

/-- The status the handler ends with when the denominator guard trips in the iteration
with 0-based number `k`: the division-by-zero text survives only for `k = 0`; for `k ≥ 1`
the test after the loop replaces it by the did-not-converge text. -/
theorem compute_guard_status (exp : K → K) (s : State K) (a b x0 x1 : K)
    (h01 : ¬ |x1 - x0| < tiny) (k : Nat) (hk : k < 100)
    (hgk : guardTrips (specWindow exp a b x0 x1 k))
    (hng : ∀ j, j < k → ¬ guardTrips (specWindow exp a b x0 x1 j))
    (hnc : ∀ j, j < k → ¬ converges exp a b (specWindow exp a b x0 x1 j)) :
    (compute exp s a b x0 x1).statusMsg
        = (if k = 0 then .errorDivisionByZero 1 else .didNotConverge 100)
    ∧ (compute exp s a b x0 x1).iterationCount = k
    ∧ (compute exp s a b x0 x1).hasResult = 0
    ∧ (compute exp s a b x0 x1).statusSuccess = 0
    ∧ trace (compute exp s a b x0 x1) = (List.range k).map (specRow exp a b x0 x1) := by
  obtain ⟨-, -, -, hguard⟩ := secant_loop_spec exp MAX_ITERATIONS 0
    ⟨x0, x1, function exp x0 a b, function exp x1 a b⟩
    { s with a_val := a, b_val := b, hasResult := 0, iterationCount := 0, statusSuccess := 0 }
  obtain ⟨h1, -, h3, h4, h5, h6, h7⟩ := hguard k hk hgk hng hnc
  simp only [Nat.zero_add] at h5 h6 h7
  rw [compute_distinct exp s a b x0 x1 h01]
  cases k with
  | zero =>
    rw [if_neg (by rw [h6]; exact fun h => absurd h.2 (Nat.lt_irrefl 0))]
    exact ⟨h5, h6, h3, h4, secant_trace_eq_of_rows _ _ _ h6 h7⟩
  | succ k =>
    rw [if_pos ⟨h1, by rw [h6]; exact Nat.succ_pos k⟩]
    exact ⟨rfl, h6, h3, h4, secant_trace_eq_of_rows _ _ _ h6 h7⟩

/-- The real exponential at `-40` is positive and below the guard constant. -/
theorem exp_neg_forty_lt_tiny : Real.exp (-40) < (tiny : ℝ) := by
  have he : (2 : ℝ) < Real.exp 1 := by
    have := Real.add_one_lt_exp (one_ne_zero : (1 : ℝ) ≠ 0)
    linarith
  have h40 : Real.exp 40 = Real.exp 1 ^ 40 := by
    rw [← Real.exp_nat_mul]; norm_num
  have hbig : (10 : ℝ) ^ 10 < Real.exp 40 := by
    rw [h40]
    calc (10 : ℝ) ^ 10 < 2 ^ 40 := by norm_num
      _ < Real.exp 1 ^ 40 := pow_lt_pow_left₀ he (by norm_num) (by norm_num)
  rw [Real.exp_neg, tiny, one_div]
  exact inv_strictAnti₀ (by positivity) hbig

/-- The three facts about the secant windows of `a = 0`, `b = -1`, `x0 = 0`, `x1 = -40`
over the reals that decide the run: iteration 1 passes the guard and does not meet the
stopping test, and at iteration 2 the guard trips. -/
theorem failing_run_windows :
    ¬ guardTrips (specWindow Real.exp 0 (-1) 0 (-40) 0)
    ∧ ¬ converges Real.exp 0 (-1) (specWindow Real.exp 0 (-1) 0 (-40) 0)
    ∧ guardTrips (specWindow Real.exp 0 (-1) 0 (-40) 1) := by
  have hε := exp_neg_forty_lt_tiny
  have hpos : 0 < Real.exp (-40) := Real.exp_pos _
  have htiny : (tiny : ℝ) < 1 / 2 := by norm_num [tiny]
  have hw0 : specWindow Real.exp 0 (-1) 0 (-40) 0
      = ⟨0, -40, 2, Real.exp (-40) + 1⟩ := by
    simp only [specWindow, Function.iterate_zero, id_eq, function, Real.exp_zero]
    norm_num
  have hden : Real.exp (-40) + 1 - 2 < 0 := by linarith
  have hx2 : specNext (⟨0, -40, 2, Real.exp (-40) + 1⟩ : Window ℝ) < -40 := by
    simp only [specNext]
    have : (Real.exp (-40) + 1) * (-40 - 0) / (Real.exp (-40) + 1 - 2) > 0 := by
      apply div_pos_of_neg_of_neg _ hden
      nlinarith
    linarith
  have hx2' : specNext (⟨0, -40, 2, Real.exp (-40) + 1⟩ : Window ℝ) ≤ -40 - 40 := by
    simp only [specNext]
    have hq : (Real.exp (-40) + 1) * (-40 - 0) / (Real.exp (-40) + 1 - 2) ≥ 40 := by
      rw [ge_iff_le, le_div_iff_of_neg hden]
      nlinarith
    linarith
  refine ⟨?_, ?_, ?_⟩
  · rw [hw0]
    simp only [guardTrips, not_lt]
    rw [abs_of_neg hden]
    linarith
  · rw [hw0]
    simp only [converges, not_or, not_lt, function]
    constructor
    · rw [abs_of_neg (by linarith)]
      norm_num [TOLERANCE]; linarith
    · have := Real.exp_pos (specNext (⟨0, -40, 2, Real.exp (-40) + 1⟩ : Window ℝ))
      rw [abs_of_pos (by linarith)]
      norm_num [TOLERANCE]; linarith
  · have hw1 : specWindow Real.exp 0 (-1) 0 (-40) 1
        = specShift Real.exp 0 (-1) (specWindow Real.exp 0 (-1) 0 (-40) 0) := by
      simp only [specWindow, Function.iterate_succ, Function.iterate_zero, Function.comp,
        id_eq]
    rw [hw1, hw0]
    simp only [guardTrips, specShift, function]
    have h1 := Real.exp_pos (specNext (⟨0, -40, 2, Real.exp (-40) + 1⟩ : Window ℝ))
    have h2 : Real.exp (specNext (⟨0, -40, 2, Real.exp (-40) + 1⟩ : Window ℝ))
        < Real.exp (-40) := Real.exp_lt_exp.mpr hx2
    rw [abs_lt]
    constructor <;> linarith

/-- C10, the run that contradicts it: `a = 0`, `b = -1`, `x0 = 0`, `x1 = -40` over the
reals. Iteration 1 passes the guard and does not converge; at iteration 2
`|f_curr - f_prev| < 1e-10`, the loop stops with one row, and the status the handler ends
with is "Did not converge in 100 iterations", not the division-by-zero text. -/
theorem secant_division_by_zero_overwritten :
    ¬ guardTrips (specWindow Real.exp 0 (-1) 0 (-40) 0)
    ∧ ¬ converges Real.exp 0 (-1) (specWindow Real.exp 0 (-1) 0 (-40) 0)
    ∧ guardTrips (specWindow Real.exp 0 (-1) 0 (-40) 1)
    ∧ (compute Real.exp initial 0 (-1) 0 (-40)).statusMsg = .didNotConverge 100
    ∧ (compute Real.exp initial 0 (-1) 0 (-40)).statusMsg ≠ .errorDivisionByZero 2
    ∧ (compute Real.exp initial 0 (-1) 0 (-40)).iterationCount = 1 := by
  obtain ⟨h0, hc0, h1⟩ := failing_run_windows
  have h01 : ¬ |(-40 : ℝ) - 0| < tiny := by norm_num [tiny, abs_lt]
  have hs := compute_guard_status Real.exp initial 0 (-1) 0 (-40) h01 1 (by decide) h1
    (fun j hj => by rw [Nat.lt_one_iff.mp hj]; exact h0)
    (fun j hj => by rw [Nat.lt_one_iff.mp hj]; exact hc0)
  refine ⟨h0, hc0, h1, hs.1, ?_, hs.2.1⟩
  rw [hs.1]
  exact fun h => StatusMsg.noConfusion h

end Secant

namespace Secant

variable {K : Type} [LinearOrderedField K]

/-- Counterexample to C11: `a = 0`, `b = -1`, `x0 = 0`, `x1 = -40` over the reals. The
denominator guard trips at iteration 2, and the table the handler leaves has exactly one
row, the row of iteration 1; there is no row with `n = 2` for the failing iteration. -/
theorem secant_failing_iteration_not_recorded :
    guardTrips (specWindow Real.exp 0 (-1) 0 (-40) 1)
    ∧ (compute Real.exp initial 0 (-1) 0 (-40)).iterationCount = 1
    ∧ trace (compute Real.exp initial 0 (-1) 0 (-40)) = [specRow Real.exp 0 (-1) 0 (-40) 0]
    ∧ (specRow Real.exp 0 (-1) 0 (-40) 0).n = 1
    ∧ ¬ ∃ row, row ∈ trace (compute Real.exp initial 0 (-1) 0 (-40)) ∧ row.n = 2 := by
  obtain ⟨h0, hc0, h1⟩ := failing_run_windows
  have h01 : ¬ |(-40 : ℝ) - 0| < tiny := by norm_num [tiny, abs_lt]
  have hs := compute_guard_status Real.exp initial 0 (-1) 0 (-40) h01 1 (by decide) h1
    (fun j hj => by rw [Nat.lt_one_iff.mp hj]; exact h0)
    (fun j hj => by rw [Nat.lt_one_iff.mp hj]; exact hc0)
  have ht : trace (compute Real.exp initial 0 (-1) 0 (-40))
      = [specRow Real.exp 0 (-1) 0 (-40) 0] := by
    rw [hs.2.2.2.2]; rfl
  refine ⟨h1, hs.2.1, ht, rfl, ?_⟩
  rintro ⟨row, hmem, hn⟩
  rw [ht, List.mem_singleton] at hmem
  rw [hmem] at hn
  exact absurd hn (by decide)

/-- C11, amended. When the denominator guard trips first at the iteration with 1-based
number `k + 1` (no earlier iteration tripped it or met the stopping test), the table holds
exactly the rows of the iterations before it, `n = 1 .. k`, in order, each equal to the row
of the secant sequence; it has no row for the failing iteration `k + 1` or any later one. -/
theorem secant_guard_trace (exp : K → K) (s : State K) (a b x0 x1 : K)
    (h01 : tiny ≤ |x1 - x0|) (k : Nat) (hk : k < 100)
    (hgk : guardTrips (specWindow exp a b x0 x1 k))
    (hng : ∀ j, j < k → ¬ guardTrips (specWindow exp a b x0 x1 j))
    (hnc : ∀ j, j < k → ¬ converges exp a b (specWindow exp a b x0 x1 j)) :
    (compute exp s a b x0 x1).iterationCount = k
    ∧ trace (compute exp s a b x0 x1) = (List.range k).map (specRow exp a b x0 x1)
    ∧ (trace (compute exp s a b x0 x1)).length = k
    ∧ (∀ i, i < k → (specRow exp a b x0 x1 i).n = i + 1)
    ∧ (∀ row, row ∈ trace (compute exp s a b x0 x1) → 1 ≤ row.n ∧ row.n ≤ k)
    ∧ (compute exp s a b x0 x1).hasResult = 0 := by
  have hs := compute_guard_status exp s a b x0 x1 (not_lt.mpr h01) k hk hgk hng hnc
  refine ⟨hs.2.1, hs.2.2.2.2, ?_, fun _ _ => rfl, ?_, hs.2.2.1⟩
  · rw [hs.2.2.2.2]; simp
  · intro row hrow
    rw [hs.2.2.2.2, List.mem_map] at hrow
    obtain ⟨i, hi, rfl⟩ := hrow
    have hik : i < k := List.mem_range.mp hi
    exact ⟨Nat.succ_pos i, hik⟩

/-- Witness for C11 as amended: the run of the counterexample, whose guard trips first at
iteration 2 (`k = 1`): the table is the single row of iteration 1. -/
theorem secant_guard_trace_witness :
    (tiny : ℝ) ≤ |(-40) - 0|
    ∧ guardTrips (specWindow Real.exp 0 (-1) 0 (-40) 1)
    ∧ (compute Real.exp initial 0 (-1) 0 (-40)).iterationCount = 1
    ∧ (trace (compute Real.exp initial 0 (-1) 0 (-40))).length = 1 :=
  have h01 : (tiny : ℝ) ≤ |(-40) - 0| := by norm_num [tiny, le_abs]
  have hw := failing_run_windows
  have h := secant_guard_trace Real.exp initial 0 (-1) 0 (-40) h01 1 (by decide) hw.2.2
    (fun j hj => by rw [Nat.lt_one_iff.mp hj]; exact hw.1)
    (fun j hj => by rw [Nat.lt_one_iff.mp hj]; exact hw.2.1)
  ⟨h01, hw.2.2, h.1, h.2.2.1⟩

/-- C12. When `|x1 - x0| < 1e-10` (in particular when `x0 = x1`) the handler reports the
identical-guesses error before any iteration: `iterationCount = 0`, the table is empty,
`hasResult = 0`, `statusSuccess = 0`, and the row array and `root` are untouched. -/
theorem secant_identical_guesses (exp : K → K) (s : State K) (a b x0 x1 : K)
    (h : |x1 - x0| < tiny) :
    (compute exp s a b x0 x1).statusMsg = .errorIdenticalGuesses
    ∧ (compute exp s a b x0 x1).iterationCount = 0
    ∧ trace (compute exp s a b x0 x1) = []
    ∧ (compute exp s a b x0 x1).hasResult = 0
    ∧ (compute exp s a b x0 x1).statusSuccess = 0
    ∧ (compute exp s a b x0 x1).iterations = s.iterations
    ∧ (compute exp s a b x0 x1).root = s.root := by
  simp only [compute, h, if_true, trace, List.range_zero, List.map_nil, and_self]

/-- Witness for C12: `x0 = x1 = 1` with `a = 1`, `b = 2` over the reals. -/
theorem secant_identical_guesses_witness :
    |(1 : ℝ) - 1| < tiny
    ∧ (compute Real.exp initial 1 2 1 1).statusMsg = .errorIdenticalGuesses
    ∧ (compute Real.exp initial 1 2 1 1).iterationCount = 0
    ∧ trace (compute Real.exp initial 1 2 1 1) = []
    ∧ (compute Real.exp initial 1 2 1 1).hasResult = 0 :=
  have h0 : |(1 : ℝ) - 1| < tiny := by norm_num [tiny]
  have h := secant_identical_guesses Real.exp initial 1 2 1 1 h0
  ⟨h0, h.1, h.2.1, h.2.2.1, h.2.2.2.1⟩

end Secant

namespace Dbl

variable {K : Type} [LinearOrderedField K]

/-- The finite values of the C quotient: `n / d` is the finite `v` exactly when `d ≠ 0` and
`v` is the field quotient. -/
theorem div_eq_fin_iff (n d v : K) : div n d = .fin v ↔ d ≠ 0 ∧ n / d = v := by
  unfold div
  by_cases hd : d = 0
  · by_cases hn : n = 0 <;> simp [hd, hn]
  · simp [hd]

/-- The finite values of the libm logarithm: `log(v)` is the finite `w` exactly when
`v > 0` and `w` is the logarithm of `v`. -/
theorem log_eq_fin_iff (logK : K → K) (v w : K) :
    log logK v = .fin w ↔ 0 < v ∧ logK v = w := by
  unfold log
  by_cases hneg : v < 0
  · rw [if_pos hneg]
    exact ⟨fun h => Dbl.noConfusion h, fun h => absurd h.1 (not_lt.mpr (le_of_lt hneg))⟩
  · rw [if_neg hneg]
    by_cases hz : v = 0
    · rw [if_pos hz]
      exact ⟨fun h => Dbl.noConfusion h, fun h => absurd hz (ne_of_gt h.1)⟩
    · rw [if_neg hz]
      exact ⟨fun h => ⟨lt_of_le_of_ne (not_lt.mp hneg) (Ne.symm hz), Dbl.fin.inj h⟩,
        fun h => by rw [h.2]⟩

end Dbl

namespace Quadratic

variable {K : Type} [LinearOrderedField K]

/-- Method 1 of the quadratic `g`. -/
theorem quadratic_g_method1 (sqrt : K → K) (x a b c : K) :
    g sqrt x a b c 1 = Dbl.div (-(a * x * x + c)) b := by
  unfold g; rw [if_pos rfl]

/-- Method 2 of the quadratic `g`. -/
theorem quadratic_g_method2 (sqrt : K → K) (x a b c : K) :
    g sqrt x a b c 2 = if |a * x + b| < tiny then .nan else Dbl.div (-c) (a * x + b) := by
  unfold g; rw [if_neg (by decide), if_pos rfl]

/-- Method 3 of the quadratic `g`. -/
theorem quadratic_g_method3 (sqrt : K → K) (x a b c : K) :
    g sqrt x a b c 3
      = if a = 0 ∨ (-b * x - c) / a < 0 then .nan else Dbl.sqrt sqrt ((-b * x - c) / a) := by
  unfold g; rw [if_neg (by decide), if_neg (by decide), if_pos rfl]

/-- Method 4 of the quadratic `g`. -/
theorem quadratic_g_method4 (sqrt : K → K) (x a b c : K) :
    g sqrt x a b c 4
      = if a = 0 ∨ (-b * x - c) / a < 0 then .nan
        else (Dbl.sqrt sqrt ((-b * x - c) / a)).neg := by
  unfold g; rw [if_neg (by decide), if_neg (by decide), if_neg (by decide), if_pos rfl]

/-- Method 5 of the quadratic `g`. -/
theorem quadratic_g_method5 (sqrt : K → K) (x a b c : K) :
    g sqrt x a b c 5
      = if b = 0 then .nan else if a = 0 then .nan else Dbl.div (x * x - c / a) (-b / a) := by
  unfold g
  rw [if_neg (by decide), if_neg (by decide), if_neg (by decide), if_neg (by decide),
    if_pos rfl]

/-- The fixed points of method 5 are the roots of `a x^2 + b x - c`, with the sign of `c`
opposite to the one in `f`. -/
theorem quadratic_g5_fixed_point_iff (sqrt : K → K) (x a b c : K) (ha : a ≠ 0) (hb : b ≠ 0) :
    g sqrt x a b c 5 = .fin x ↔ a * x * x + b * x - c = 0 := by
  have hba : -b / a ≠ 0 := div_ne_zero (neg_ne_zero.mpr hb) ha
  rw [quadratic_g_method5, if_neg hb, if_neg ha, Dbl.div_eq_fin_iff]
  constructor
  · rintro ⟨-, h⟩
    rw [div_eq_iff hba] at h
    field_simp at h
    linear_combination h
  · intro h
    refine ⟨hba, ?_⟩
    rw [div_eq_iff hba]
    field_simp
    linear_combination h

/-- C13, the input that contradicts it: `a = 1`, `b = 1`, `c = 2`, `x = 1` over the reals.
Method 5 is defined there and `g5(1) = (1 - 2)/(-1) = 1`, a fixed point, while
`f(1) = 1 + 1 + 2 = 4` is not zero. -/
theorem quadratic_g5_fixed_point_not_root :
    g Real.sqrt 1 1 1 2 5 = .fin 1
    ∧ f (1 : ℝ) 1 1 2 = 4
    ∧ f (1 : ℝ) 1 1 2 ≠ 0 := by
  refine ⟨?_, ?_, ?_⟩
  · norm_num [g, Dbl.div]
  · norm_num [f]
  · norm_num [f]

/-- C15. Over the reals, for each of the methods 1 to 4: when `g` is defined at `x` (its
guard passes and its quotient is finite) and returns `x` itself, then `f(x) = 0`. -/
theorem quadratic_g1234_rearrangement (a b c x : ℝ) (m : Int)
    (hm : m = 1 ∨ m = 2 ∨ m = 3 ∨ m = 4)
    (hfix : g Real.sqrt x a b c m = .fin x) :
    f x a b c = 0 := by
  unfold f
  rcases hm with rfl | rfl | rfl | rfl
  · rw [quadratic_g_method1, Dbl.div_eq_fin_iff] at hfix
    obtain ⟨hb, h⟩ := hfix
    rw [div_eq_iff hb] at h
    linear_combination -h
  · rw [quadratic_g_method2] at hfix
    by_cases hg : |a * x + b| < tiny
    · rw [if_pos hg] at hfix; exact Dbl.noConfusion hfix
    · rw [if_neg hg, Dbl.div_eq_fin_iff] at hfix
      obtain ⟨hd, h⟩ := hfix
      rw [div_eq_iff hd] at h
      linear_combination -h
  · rw [quadratic_g_method3] at hfix
    by_cases hg : a = 0 ∨ (-b * x - c) / a < 0
    · rw [if_pos hg] at hfix; exact Dbl.noConfusion hfix
    · have ha : a ≠ 0 := fun h => hg (Or.inl h)
      have hr : 0 ≤ (-b * x - c) / a := not_lt.mp (fun h => hg (Or.inr h))
      rw [if_neg hg, Dbl.sqrt, if_neg (not_lt.mpr hr)] at hfix
      have hx : Real.sqrt ((-b * x - c) / a) = x := Dbl.fin.inj hfix
      have hsq : x * x = (-b * x - c) / a := by
        have := Real.mul_self_sqrt hr
        rw [hx] at this
        exact this
      rw [eq_div_iff ha] at hsq
      linear_combination hsq
  · rw [quadratic_g_method4] at hfix
    by_cases hg : a = 0 ∨ (-b * x - c) / a < 0
    · rw [if_pos hg] at hfix; exact Dbl.noConfusion hfix
    · have ha : a ≠ 0 := fun h => hg (Or.inl h)
      have hr : 0 ≤ (-b * x - c) / a := not_lt.mp (fun h => hg (Or.inr h))
      rw [if_neg hg, Dbl.sqrt, if_neg (not_lt.mpr hr), Dbl.neg] at hfix
      have hx : -Real.sqrt ((-b * x - c) / a) = x := Dbl.fin.inj hfix
      have hsq : x * x = (-b * x - c) / a := by
        have := Real.mul_self_sqrt hr
        rw [← neg_mul_neg, hx] at this
        exact this
      rw [eq_div_iff ha] at hsq
      linear_combination hsq

/-- Witness for C15: `x^2 - 3x + 2`, method 1, `x = 1`: `g1(1) = -(1 + 2)/(-3) = 1` and
`f(1) = 0`. -/
theorem quadratic_g1234_rearrangement_witness :
    g Real.sqrt 1 1 (-3) 2 1 = .fin 1 ∧ f (1 : ℝ) 1 (-3) 2 = 0 :=
  have h : g Real.sqrt 1 1 (-3) 2 1 = .fin 1 := by norm_num [g, Dbl.div]
  ⟨h, quadratic_g1234_rearrangement 1 (-3) 2 1 1 (Or.inl rfl) h⟩

end Quadratic

namespace Exponential

variable {K : Type} [LinearOrderedField K]

/-- Method 1 of the exponential `g`. -/
theorem exponential_g_method1 (exp log : K → K) (x a b : K) :
    g exp log x a b 1 = if a * x + b ≤ 0 then .nan else Dbl.log log (a * x + b) := by
  unfold g; rw [if_pos rfl]

/-- Method 2 of the exponential `g`. -/
theorem exponential_g_method2 (exp log : K → K) (x a b : K) :
    g exp log x a b 2 = if a = 0 then .nan else Dbl.div (exp x - b) a := by
  unfold g; rw [if_neg (by decide), if_pos rfl]

/-- Method 3 of the exponential `g`. -/
theorem exponential_g_method3 (exp log : K → K) (x a b : K) :
    g exp log x a b 3
      = if a = 0 ∨ exp x - b ≤ 0 then .nan else Dbl.log log ((exp x - b) / a) := by
  unfold g; rw [if_neg (by decide), if_neg (by decide), if_pos rfl]

/-- Method 4 of the exponential `g`. -/
theorem exponential_g_method4 (exp log : K → K) (x a b : K) :
    g exp log x a b 4 = if a = 0 then .nan else .fin (exp x / a - b / a) := by
  unfold g; rw [if_neg (by decide), if_neg (by decide), if_neg (by decide), if_pos rfl]

/-- Method 5 of the exponential `g`. -/
theorem exponential_g_method5 (exp log : K → K) (x a b : K) :
    g exp log x a b 5 = .fin (x - 1 / 10 * (exp x - a * x - b)) := by
  unfold g
  rw [if_neg (by decide), if_neg (by decide), if_neg (by decide), if_neg (by decide),
    if_pos rfl]

/-- The fixed points of method 3 satisfy `a e^x = e^x - b`, which is not `f(x) = 0`. -/
theorem exponential_g3_fixed_point (a b x : ℝ) (hfix : g Real.exp Real.log x a b 3 = .fin x) :
    a * Real.exp x = Real.exp x - b := by
  rw [exponential_g_method3] at hfix
  by_cases hg : a = 0 ∨ Real.exp x - b ≤ 0
  · rw [if_pos hg] at hfix; exact Dbl.noConfusion hfix
  · have ha : a ≠ 0 := fun h => hg (Or.inl h)
    rw [if_neg hg, Dbl.log_eq_fin_iff] at hfix
    obtain ⟨hpos, hx⟩ := hfix
    have he : Real.exp x = (Real.exp x - b) / a := by
      have := Real.exp_log hpos
      rw [hx] at this
      exact this
    rw [eq_div_iff ha] at he
    linear_combination he

/-- C14, the input that contradicts it: `a = 1/2`, `b = 1/2`, `x = 0` over the reals.
Method 3 is defined there and `g3(0) = ln((1 - 1/2)/(1/2)) = ln 1 = 0`, a fixed point, while
`f(0) = 1 - 0 - 1/2 = 1/2` is not zero. -/
theorem exponential_g3_fixed_point_not_root :
    g Real.exp Real.log 0 (1 / 2) (1 / 2) 3 = .fin 0
    ∧ f Real.exp 0 (1 / 2) (1 / 2) = 1 / 2
    ∧ f Real.exp 0 (1 / 2) (1 / 2) ≠ 0 := by
  refine ⟨?_, ?_, ?_⟩
  · norm_num [g, Dbl.log, Real.exp_zero]
  · norm_num [f, Real.exp_zero]
  · norm_num [f, Real.exp_zero]

/-- C16. Over the reals, for each of the methods 1, 2, 4 and 5: when `g` is defined at `x`
(its guard passes) and returns `x` itself, then `f(x) = 0`. -/
theorem exponential_g1245_rearrangement (a b x : ℝ) (m : Int)
    (hm : m = 1 ∨ m = 2 ∨ m = 4 ∨ m = 5)
    (hfix : g Real.exp Real.log x a b m = .fin x) :
    f Real.exp x a b = 0 := by
  unfold f
  rcases hm with rfl | rfl | rfl | rfl
  · rw [exponential_g_method1] at hfix
    by_cases hg : a * x + b ≤ 0
    · rw [if_pos hg] at hfix; exact Dbl.noConfusion hfix
    · rw [if_neg hg, Dbl.log_eq_fin_iff] at hfix
      obtain ⟨hpos, hx⟩ := hfix
      have he : Real.exp x = a * x + b := by
        have := Real.exp_log hpos
        rw [hx] at this
        exact this
      linear_combination he
  · rw [exponential_g_method2] at hfix
    by_cases ha : a = 0
    · rw [if_pos ha] at hfix; exact Dbl.noConfusion hfix
    · rw [if_neg ha, Dbl.div_eq_fin_iff] at hfix
      obtain ⟨-, h⟩ := hfix
      rw [div_eq_iff ha] at h
      linear_combination h
  · rw [exponential_g_method4] at hfix
    by_cases ha : a = 0
    · rw [if_pos ha] at hfix; exact Dbl.noConfusion hfix
    · rw [if_neg ha] at hfix
      have hx : Real.exp x / a - b / a = x := Dbl.fin.inj hfix
      field_simp at hx
      linear_combination hx
  · rw [exponential_g_method5] at hfix
    have hx : x - 1 / 10 * (Real.exp x - a * x - b) = x := Dbl.fin.inj hfix
    linear_combination -10 * hx

/-- Witness for C16: `a = 1`, `b = 1` (`f = exp - x - 1`), method 5, `x = 0`:
`g5(0) = 0 - 0.1 (1 - 0 - 1) = 0` and `f(0) = 0`. -/
theorem exponential_g1245_rearrangement_witness :
    g Real.exp Real.log 0 1 1 5 = .fin 0 ∧ f Real.exp 0 1 1 = 0 :=
  have h : g Real.exp Real.log 0 1 1 5 = .fin 0 := by norm_num [g, Real.exp_zero]
  ⟨h, exponential_g1245_rearrangement 1 1 0 5 (Or.inr (Or.inr (Or.inr rfl))) h⟩

end Exponential

namespace Elimination

variable {K : Type} [LinearOrderedField K]

/-- Counterexample to C20: `x = 0`, `1e-11 y = 1` over the reals (`a1 = 1`, `b1 = 0`,
`c1 = 0`, `a2 = 0`, `b2 = 1e-11`, `c2 = 1`). The eliminated coefficient `1e-11` is below the
threshold, so the handler reports "NO SOLUTION", yet `(0, 1e11)` solves both equations. -/
theorem elimination_noSolution_with_solution :
    (compute (initial : State ℝ) 1 0 0 0 (1 / 10 ^ 11) 1).resultText = .noSolution
    ∧ (1 : ℝ) * 0 + 0 * 10 ^ 11 = 0
    ∧ (0 : ℝ) * 0 + 1 / 10 ^ 11 * 10 ^ 11 = 1 := by
  refine ⟨?_, by norm_num, by norm_num⟩
  rw [compute_special _ _ _ _ _ _ _ (by norm_num [tiny, abs_lt])
    (by norm_num [tiny, abs_lt])]
  have hc : ¬ |(1 : ℝ) - 0 / 1 * 0| < tiny := by norm_num [tiny, abs_lt]
  simp only [hc, if_false]

/-- C20, amended. Whenever the outcome is NoSolution, the eliminated row has
`|newB2| < 1e-10 ≤ |newC2|`. If `newB2` is exactly zero the two equations have no common
real solution; in every case a common solution `(x, y)` satisfies `newB2 * y = newC2`, so
`newB2` is not zero and `|y| > 1`. -/
theorem elimination_noSolution_meaning (s : State K) (a1 b1 c1 a2 b2 c2 : K)
    (h : (compute s a1 b1 c1 a2 b2 c2).resultText = .noSolution) :
    tiny ≤ |a1|
    ∧ |b2 - a2 / a1 * b1| < tiny
    ∧ tiny ≤ |c2 - a2 / a1 * c1|
    ∧ (b2 - a2 / a1 * b1 = 0 → ¬ ∃ x y : K, a1 * x + b1 * y = c1 ∧ a2 * x + b2 * y = c2)
    ∧ (∀ x y : K, a1 * x + b1 * y = c1 → a2 * x + b2 * y = c2 →
        (b2 - a2 / a1 * b1) * y = c2 - a2 / a1 * c1
        ∧ b2 - a2 / a1 * b1 ≠ 0
        ∧ 1 < |y|) := by
  have ha : ¬ |a1| < tiny := by
    intro ha
    simp only [compute, ha, if_true] at h
    exact ResultText.noConfusion h
  have hb : |b2 - a2 / a1 * b1| < tiny := by
    by_contra hb
    rw [compute_unique s a1 b1 c1 a2 b2 c2 ha hb] at h
    exact ResultText.noConfusion h
  have hc : ¬ |c2 - a2 / a1 * c1| < tiny := by
    intro hc
    rw [compute_special s a1 b1 c1 a2 b2 c2 ha hb] at h
    simp only [hc, if_true] at h
    exact ResultText.noConfusion h
  have ha0 : a1 ≠ 0 := ne_zero_of_not_abs_lt_tiny ha
  have hm : a2 / a1 * a1 = a2 := div_mul_cancel₀ _ ha0
  have hrow : ∀ x y : K, a1 * x + b1 * y = c1 → a2 * x + b2 * y = c2 →
      (b2 - a2 / a1 * b1) * y = c2 - a2 / a1 * c1 := by
    intro x y h1 h2
    linear_combination h2 - (a2 / a1) * h1 + x * hm
  have hc0 : c2 - a2 / a1 * c1 ≠ 0 := ne_zero_of_not_abs_lt_tiny hc
  refine ⟨not_lt.mp ha, hb, not_lt.mp hc, ?_, ?_⟩
  · rintro h0 ⟨x, y, h1, h2⟩
    have := hrow x y h1 h2
    rw [h0, zero_mul] at this
    exact hc0 this.symm
  · intro x y h1 h2
    have hxy := hrow x y h1 h2
    have hb0 : b2 - a2 / a1 * b1 ≠ 0 := by
      intro h0
      rw [h0, zero_mul] at hxy
      exact hc0 hxy.symm
    refine ⟨hxy, hb0, ?_⟩
    have habs : |b2 - a2 / a1 * b1| * |y| = |c2 - a2 / a1 * c1| := by
      rw [← abs_mul, hxy]
    have hbpos : 0 < |b2 - a2 / a1 * b1| := abs_pos.mpr hb0
    by_contra hy
    have hy1 : |y| ≤ 1 := not_lt.mp hy
    have : |c2 - a2 / a1 * c1| < tiny := by
      rw [← habs]
      calc |b2 - a2 / a1 * b1| * |y| ≤ |b2 - a2 / a1 * b1| * 1 :=
            mul_le_mul_of_nonneg_left hy1 (le_of_lt hbpos)
        _ = |b2 - a2 / a1 * b1| := mul_one _
        _ < tiny := hb
    exact hc this

/-- Witness for C20 as amended: `x + 2y = 3`, `2x + 4y = 7` over the rationals is reported
as NoSolution, its eliminated coefficient is exactly zero, and it has no solution. -/
theorem elimination_noSolution_meaning_witness :
    (compute (initial : State ℚ) 1 2 3 2 4 7).resultText = .noSolution
    ∧ (4 : ℚ) - 2 / 1 * 2 = 0
    ∧ ¬ ∃ x y : ℚ, 1 * x + 2 * y = 3 ∧ 2 * x + 4 * y = 7 :=
  have ht : (compute (initial : State ℚ) 1 2 3 2 4 7).resultText = .noSolution := by
    rw [compute_special _ _ _ _ _ _ _ (by norm_num [tiny, abs_lt])
      (by norm_num [tiny, abs_lt])]
    have hc : ¬ |(7 : ℚ) - 2 / 1 * 3| < tiny := by norm_num [tiny, abs_lt]
    simp only [hc, if_false]
  have h0 : (4 : ℚ) - 2 / 1 * 2 = 0 := by norm_num
  ⟨ht, h0, (elimination_noSolution_meaning (initial : State ℚ) 1 2 3 2 4 7 ht).2.2.2.1 h0⟩

end Elimination

namespace FixedPoint

variable {K : Type} [LinearOrderedField K]

/-- The solver block on a run whose loop stops at iteration `k + 1` because the step error
is below the tolerance: the residual alone decides between "Did not converge" and
success. -/
theorem solve_stops_at (g : K → Dbl K) (f : K → K) (x0 : K) (s : Run K)
    (k : Nat) (z v : K) (hk : k < 50) (hr : reach g x0 k = some z) (hg : g z = .fin v)
    (hv : ¬ |v| > huge) (ht : |v - z| < TOLERANCE) :
    (solve g f x0 s).totalIterations = k + 1
    ∧ (solve g f x0 s).finalRoot = v
    ∧ (solve g f x0 s).iterations k = ⟨z, .fin v, .fin |v - z|⟩
    ∧ (|f v| > 1 / 10 →
        (solve g f x0 s).resultText = .failed false ∧ (solve g f x0 s).hasValidRoot = 0)
    ∧ (¬ |f v| > 1 / 10 →
        (solve g f x0 s).resultText = .success v (k + 1)
        ∧ (solve g f x0 s).hasValidRoot = 1) := by
  obtain ⟨h1, h2, h3⟩ := loop_converges_at g MAX_ITER 0 x0 (resetCount s) k z v hk hr hg hv ht
  have ht3 : (loop g MAX_ITER 0 x0 (resetCount s)).run.totalIterations = k + 1 := by
    rw [h3]; exact Nat.zero_add _
  have hrow : (loop g MAX_ITER 0 x0 (resetCount s)).run.iterations k
      = ⟨z, .fin v, .fin |v - z|⟩ := by
    have := loop_rows g MAX_ITER 0 x0 (resetCount s) k z hk hr
    rw [Nat.zero_add, hg] at this
    exact this
  by_cases hres : |f v| > 1 / 10
  · have hres' : |f (loop g MAX_ITER 0 x0 (resetCount s)).x_current| > 1 / 10 := by
      rw [h2]; exact hres
    rw [solve_of_residual g f x0 s h1 hres']
    exact ⟨ht3, h2, hrow, fun _ => ⟨rfl, rfl⟩, fun h => absurd hres h⟩
  · have hres' : ¬ |f (loop g MAX_ITER 0 x0 (resetCount s)).x_current| > 1 / 10 := by
      rw [h2]; exact hres
    rw [solve_of_accepted g f x0 s h1 hres']
    refine ⟨ht3, h2, hrow, fun h => absurd h hres, fun _ => ⟨?_, rfl⟩⟩
    show ResultText.success _ _ = _
    rw [h2, ht3]

/-- The handler of gui_app.c on a method id outside 1 to 5: the error text is written and
`hasValidRoot` is cleared, and nothing else changes; `totalIterations` and the rows keep
the values of the previous run. -/
theorem guiApp_invalid_method (sqrt : K → K) (s : GuiApp.State K) (a b c x0 : K)
    (method : Int) (hm : method < 1 ∨ method > 5) :
    (GuiApp.compute sqrt s a b c x0 method).run.resultText = .errorMethod
    ∧ (GuiApp.compute sqrt s a b c x0 method).run.hasValidRoot = 0
    ∧ (GuiApp.compute sqrt s a b c x0 method).run.totalIterations = s.run.totalIterations
    ∧ (GuiApp.compute sqrt s a b c x0 method).run.iterations = s.run.iterations
    ∧ (GuiApp.compute sqrt s a b c x0 method).run.finalRoot = s.run.finalRoot
    ∧ trace (GuiApp.compute sqrt s a b c x0 method).run = trace s.run := by
  simp only [GuiApp.compute, hm, if_true, trace, and_self]

/-- C17, the run that contradicts it: in gui_app.c over the reals, compute `x - 2`
(`a = 0`, `b = 1`, `c = -2`) with method 2 and `x0 = 2`, which succeeds with a one-row
table, then press COMPUTE again with method id 7. The second request reports the method
error and no valid root, but `totalIterations` is still 1 and the table it exposes is the
row of the first solve. -/
theorem guiApp_invalid_method_keeps_rows :
    (GuiApp.compute Real.sqrt
        (GuiApp.compute Real.sqrt (GuiApp.initial (fun _ => ⟨0, .nan, .nan⟩)) 0 1 (-2) 2 2)
        0 1 (-2) 2 7).run.resultText = .errorMethod
    ∧ (GuiApp.compute Real.sqrt
        (GuiApp.compute Real.sqrt (GuiApp.initial (fun _ => ⟨0, .nan, .nan⟩)) 0 1 (-2) 2 2)
        0 1 (-2) 2 7).run.hasValidRoot = 0
    ∧ (GuiApp.compute Real.sqrt
        (GuiApp.compute Real.sqrt (GuiApp.initial (fun _ => ⟨0, .nan, .nan⟩)) 0 1 (-2) 2 2)
        0 1 (-2) 2 7).run.totalIterations = 1
    ∧ trace (GuiApp.compute Real.sqrt
        (GuiApp.compute Real.sqrt (GuiApp.initial (fun _ => ⟨0, .nan, .nan⟩)) 0 1 (-2) 2 2)
        0 1 (-2) 2 7).run = [⟨2, .fin 2, .fin 0⟩]
    ∧ trace (GuiApp.compute Real.sqrt
        (GuiApp.compute Real.sqrt (GuiApp.initial (fun _ => ⟨0, .nan, .nan⟩)) 0 1 (-2) 2 2)
        0 1 (-2) 2 7).run ≠ [] := by
  have hfirst := solve_stops_at (fun x => Quadratic.g Real.sqrt x 0 1 (-2) 2)
    (fun x => Quadratic.f x 0 1 (-2)) 2 (GuiApp.initial (fun _ => ⟨0, .nan, .nan⟩)).run
    0 2 2 (by decide) rfl
    (by norm_num [Quadratic.g, Dbl.div, tiny, abs_lt, lt_abs]) (by norm_num [huge, lt_abs])
    (by norm_num [TOLERANCE])
  rw [← guiApp_compute_run Real.sqrt _ 0 1 (-2) 2 2 (by decide) (by decide)] at hfirst
  obtain ⟨h1, h2, h3, h4, h5, h6⟩ := guiApp_invalid_method Real.sqrt
    (GuiApp.compute Real.sqrt (GuiApp.initial (fun _ => ⟨0, .nan, .nan⟩)) 0 1 (-2) 2 2)
    0 1 (-2) 2 7 (Or.inr (by decide))
  have ht : trace (GuiApp.compute Real.sqrt
      (GuiApp.compute Real.sqrt (GuiApp.initial (fun _ => ⟨0, .nan, .nan⟩)) 0 1 (-2) 2 2)
      0 1 (-2) 2 7).run = [⟨2, .fin 2, .fin 0⟩] := by
    rw [h6, trace, hfirst.1]
    show [(GuiApp.compute Real.sqrt (GuiApp.initial (fun _ => ⟨0, .nan, .nan⟩)) 0 1 (-2) 2
      2).run.iterations 0] = _
    rw [hfirst.2.2.1]
    norm_num
  refine ⟨h1, h2, by rw [h3]; exact hfirst.1, ht, ?_⟩
  rw [ht]
  exact List.cons_ne_nil _ _

/-- C19. Both candidate inputs stop by the step error with a residual above `0.1` and are
reported as "Did not converge": the exponential handler on `a = 1/2`, `b = 1/2`, method 3,
`x0 = 0` (`g3(0) = 0`, `f(0) = 1/2`) and the quadratic handler on `a = 1`, `b = 1`, `c = 2`,
method 5, `x0 = 1` (`g5(1) = 1`, `f(1) = 4`). And for every `g`, `f` and `x0`: if the loop
stops at some iteration because the step error is below `0.01` and the accepted value `v`
has `|f(v)| > 0.1`, the outcome is "Did not converge" with no valid root, not success. -/
theorem fixedPoint_two_stage_rejection :
    (reach (fun x => Exponential.g Real.exp Real.log x (1 / 2) (1 / 2) 3) 0 0 = some 0
      ∧ Exponential.g Real.exp Real.log 0 (1 / 2) (1 / 2) 3 = .fin 0
      ∧ |(0 : ℝ) - 0| < TOLERANCE
      ∧ |Exponential.f Real.exp 0 (1 / 2) (1 / 2)| > 1 / 10
      ∧ (FixedPointExponential.compute Real.exp Real.log
          (FixedPointExponential.initial (fun _ => ⟨0, .nan, .nan⟩)) (1 / 2) (1 / 2) 0
          3).run.resultText = .failed false)
    ∧ (reach (fun x => Quadratic.g Real.sqrt x 1 1 2 5) 1 0 = some 1
      ∧ Quadratic.g Real.sqrt 1 1 1 2 5 = .fin 1
      ∧ |(1 : ℝ) - 1| < TOLERANCE
      ∧ |Quadratic.f (1 : ℝ) 1 1 2| > 1 / 10
      ∧ (FixedPointQuadratic.compute Real.sqrt
          (FixedPointQuadratic.initial (fun _ => ⟨0, .nan, .nan⟩)) 1 1 2 1
          5).run.resultText = .failed false)
    ∧ (∀ (g : K → Dbl K) (f : K → K) (x0 : K) (s : Run K) (k : Nat) (z v : K),
        k < 50 → reach g x0 k = some z → g z = .fin v → ¬ |v| > huge →
        |v - z| < TOLERANCE → |f v| > 1 / 10 →
        (solve g f x0 s).resultText = .failed false
        ∧ (solve g f x0 s).hasValidRoot = 0
        ∧ (solve g f x0 s).finalRoot = v
        ∧ ∀ root n, (solve g f x0 s).resultText ≠ .success root n) := by
  have huniv : ∀ (K' : Type) [LinearOrderedField K'] (g : K' → Dbl K') (f : K' → K')
      (x0 : K') (s : Run K') (k : Nat) (z v : K'),
      k < 50 → reach g x0 k = some z → g z = .fin v → ¬ |v| > huge →
      |v - z| < TOLERANCE → |f v| > 1 / 10 →
      (solve g f x0 s).resultText = .failed false
      ∧ (solve g f x0 s).hasValidRoot = 0
      ∧ (solve g f x0 s).finalRoot = v
      ∧ ∀ root n, (solve g f x0 s).resultText ≠ .success root n := by
    intro K' _ g f x0 s k z v hk hr hg hv ht hres
    obtain ⟨-, h2, -, h4, -⟩ := solve_stops_at g f x0 s k z v hk hr hg hv ht
    refine ⟨(h4 hres).1, (h4 hres).2, h2, ?_⟩
    intro root n h
    rw [(h4 hres).1] at h
    exact ResultText.noConfusion h
  have hg3 : Exponential.g Real.exp Real.log 0 (1 / 2) (1 / 2) 3 = .fin 0 := by
    norm_num [Exponential.g, Dbl.log, Real.exp_zero]
  have hf3 : |Exponential.f Real.exp 0 (1 / 2) (1 / 2)| > 1 / 10 := by
    norm_num [Exponential.f, Real.exp_zero, lt_abs]
  have hg5 : Quadratic.g Real.sqrt 1 1 1 2 5 = .fin 1 := by
    norm_num [Quadratic.g, Dbl.div]
  have hf5 : |Quadratic.f (1 : ℝ) 1 1 2| > 1 / 10 := by
    norm_num [Quadratic.f, lt_abs]
  have ht0 : |(0 : ℝ) - 0| < TOLERANCE := by norm_num [TOLERANCE]
  have ht1 : |(1 : ℝ) - 1| < TOLERANCE := by norm_num [TOLERANCE]
  refine ⟨⟨rfl, hg3, ht0, hf3, ?_⟩, ⟨rfl, hg5, ht1, hf5, ?_⟩, huniv K⟩
  · rw [exponential_compute_run]
    exact (huniv ℝ (fun x => Exponential.g Real.exp Real.log x (1 / 2) (1 / 2) 3)
      (fun x => Exponential.f Real.exp x (1 / 2) (1 / 2)) 0 _ 0 0 0 (by decide) rfl hg3
      (by norm_num [huge, lt_abs]) ht0 hf3).1
  · rw [quadratic_compute_run]
    exact (huniv ℝ (fun x => Quadratic.g Real.sqrt x 1 1 2 5)
      (fun x => Quadratic.f x 1 1 2) 1 _ 0 1 1 (by decide) rfl hg5
      (by norm_num [huge, lt_abs]) ht1 hf5).1

/-- Witness for C19: the universal part applied to the exponential candidate. -/
theorem fixedPoint_two_stage_rejection_witness :
    (solve (fun x => Exponential.g Real.exp Real.log x (1 / 2) (1 / 2) 3)
        (fun x => Exponential.f Real.exp x (1 / 2) (1 / 2)) 0
        (initial (fun _ => ⟨0, .nan, .nan⟩))).resultText = .failed false
    ∧ (solve (fun x => Exponential.g Real.exp Real.log x (1 / 2) (1 / 2) 3)
        (fun x => Exponential.f Real.exp x (1 / 2) (1 / 2)) 0
        (initial (fun _ => ⟨0, .nan, .nan⟩))).hasValidRoot = 0 :=
  have h := (@fixedPoint_two_stage_rejection ℝ _).2.2
    (fun x => Exponential.g Real.exp Real.log x (1 / 2) (1 / 2) 3)
    (fun x => Exponential.f Real.exp x (1 / 2) (1 / 2)) 0
    (initial (fun _ => ⟨0, .nan, .nan⟩)) 0 0 0 (by decide) rfl
    (by norm_num [Exponential.g, Dbl.log, Real.exp_zero])
    (by norm_num [huge, lt_abs]) (by norm_num [TOLERANCE])
    (by norm_num [Exponential.f, Real.exp_zero, lt_abs])
  ⟨h.1, h.2.1⟩

end FixedPoint

namespace FalsePosition

variable {K : Type} [LinearOrderedField K]

/-- The tangent-line bound for `f(x) = e^x - x - 2`: the graph lies above each tangent. -/
theorem testCase_tangent (x y : ℝ) :
    f Real.exp x 1 2 + (Real.exp x - 1) * (y - x) ≤ f Real.exp y 1 2 := by
  have h1 : y - x + 1 ≤ Real.exp (y - x) := Real.add_one_le_exp (y - x)
  have h2 : Real.exp y = Real.exp x * Real.exp (y - x) := by
    rw [← Real.exp_add]; congr 1; ring
  have h3 : Real.exp x * (y - x + 1) ≤ Real.exp x * Real.exp (y - x) :=
    mul_le_mul_of_nonneg_left h1 (le_of_lt (Real.exp_pos x))
  unfold f
  rw [h2]
  linarith

/-- On the non-negative reals `f(x) = e^x - x - 2` is increasing. -/
theorem testCase_mono (x y : ℝ) (hx : 0 ≤ x) (hxy : x ≤ y) :
    f Real.exp x 1 2 ≤ f Real.exp y 1 2 := by
  have h := testCase_tangent x y
  have h1 : 0 ≤ Real.exp x - 1 := by
    have := Real.add_one_le_exp x
    linarith
  have h2 : 0 ≤ (Real.exp x - 1) * (y - x) := mul_nonneg h1 (by linarith)
  linarith

/-- Numerical bounds for `f(0)`, `f(1)` and `f(2)`. -/
theorem testCase_values :
    f Real.exp 0 1 2 = -1
    ∧ -(2818 / 10000 : ℝ) < f Real.exp 1 1 2 ∧ f Real.exp 1 1 2 < -(2817 / 10000 : ℝ)
    ∧ (3389 / 1000 : ℝ) < f Real.exp 2 1 2 ∧ f Real.exp 2 1 2 < (33891 / 10000 : ℝ) := by
  have hlo := Real.exp_one_gt_d9
  have hhi := Real.exp_one_lt_d9
  have h2 : Real.exp 2 = Real.exp 1 * Real.exp 1 := by
    rw [← Real.exp_add]; norm_num
  have hpos : 0 < Real.exp 1 := Real.exp_pos 1
  refine ⟨by norm_num [f, Real.exp_zero], ?_, ?_, ?_, ?_⟩
  · unfold f; norm_num at hlo ⊢; linarith
  · unfold f; norm_num at hhi ⊢; linarith
  · unfold f; rw [h2]; norm_num at hlo ⊢; nlinarith
  · unfold f; rw [h2]; norm_num at hhi ⊢; nlinarith

/-- The value of `f` just left of the root 1.1462 is below `-1e-4`, just right of it above
`1e-4`. -/
theorem testCase_near_root :
    f Real.exp (11452 / 10000) 1 2 < -(1 / 10000 : ℝ)
    ∧ (1 / 10000 : ℝ) < f Real.exp (11472 / 10000) 1 2 := by
  have hlo := Real.exp_one_gt_d9
  have hhi := Real.exp_one_lt_d9
  have hpos : 0 < Real.exp 1 := Real.exp_pos 1
  constructor
  · have hsplit : Real.exp (11452 / 10000) = Real.exp 1 * Real.exp (1452 / 10000) := by
      rw [← Real.exp_add]; norm_num
    have hb := Real.exp_bound' (x := 1452 / 10000) (by norm_num) (by norm_num) (n := 3)
      (by norm_num)
    have hb' : Real.exp (1452 / 10000) ≤ 11565 / 10000 := by
      refine le_trans hb ?_
      norm_num [Finset.sum_range_succ, Nat.factorial]
    have hp : 0 < Real.exp (1452 / 10000) := Real.exp_pos _
    unfold f
    rw [hsplit]
    norm_num at hhi ⊢
    nlinarith
  · have hsplit : Real.exp (11472 / 10000) = Real.exp 1 * Real.exp (1472 / 10000) := by
      rw [← Real.exp_add]; norm_num
    have hq := Real.quadratic_le_exp_of_nonneg (x := 1472 / 10000) (by norm_num)
    have hq' : (1158 / 1000 : ℝ) ≤ Real.exp (1472 / 10000) := by
      refine le_trans ?_ hq
      norm_num
    unfold f
    rw [hsplit]
    norm_num at hlo ⊢
    nlinarith

/-- A non-negative point whose residual is below `1e-4` lies within `1e-3` of 1.1462. -/
theorem testCase_localise (x : ℝ) (hx : 0 ≤ x) (h : |f Real.exp x 1 2| < 1 / 10000) :
    |x - 11462 / 10000| < 1 / 1000 := by
  obtain ⟨hlow, hhigh⟩ := testCase_near_root
  rw [abs_lt] at h ⊢
  constructor
  · by_contra hc
    have hle : x ≤ 11452 / 10000 := by linarith [not_lt.mp hc]
    have := testCase_mono x (11452 / 10000) hx hle
    linarith
  · by_contra hc
    have hge : 11472 / 10000 ≤ x := by linarith [not_lt.mp hc]
    have := testCase_mono (11472 / 10000) x (by norm_num) hge
    linarith

/-- One interpolation step of the test case from a bracket `(t, 2)` with `t ≥ 0` and
`f(t) < 0`: the new point lies strictly between `t` and 2, its value is not positive, it
advances by at least `1/16` while `t < 1`, and it shrinks the residual by the factor `2/3`
once `t ≥ 1`. -/
theorem testCase_step (t : ℝ) (ht0 : 0 ≤ t) (hneg : f Real.exp t 1 2 < 0) :
    t < specX2 ⟨t, 2, f Real.exp t 1 2, f Real.exp 2 1 2⟩
    ∧ specX2 ⟨t, 2, f Real.exp t 1 2, f Real.exp 2 1 2⟩ < 2
    ∧ f Real.exp (specX2 ⟨t, 2, f Real.exp t 1 2, f Real.exp 2 1 2⟩) 1 2 ≤ 0
    ∧ (t < 1 → t + 1 / 16 ≤ specX2 ⟨t, 2, f Real.exp t 1 2, f Real.exp 2 1 2⟩)
    ∧ (1 ≤ t →
        -f Real.exp (specX2 ⟨t, 2, f Real.exp t 1 2, f Real.exp 2 1 2⟩) 1 2
          ≤ 2 / 3 * -f Real.exp t 1 2) := by
  obtain ⟨hF0, hF1lo, hF1hi, hF2lo, hF2hi⟩ := testCase_values
  obtain ⟨-, hhigh⟩ := testCase_near_root
  -- `t` is left of the root
  have ht : t < 11472 / 10000 := by
    by_contra hc
    have := testCase_mono (11472 / 10000) t (by norm_num) (not_lt.mp hc)
    linarith
  have hA0 : -1 ≤ f Real.exp t 1 2 := by
    have := testCase_mono 0 t (le_refl 0) ht0
    linarith
  have hD : 0 < f Real.exp 2 1 2 - f Real.exp t 1 2 := by linarith
  -- the step written with `u = (2 - t) / (f 2 - f t)`
  have hu : (2 - t) / (f Real.exp 2 1 2 - f Real.exp t 1 2)
      * (f Real.exp 2 1 2 - f Real.exp t 1 2) = 2 - t := div_mul_cancel₀ _ (ne_of_gt hD)
  have hupos : 0 < (2 - t) / (f Real.exp 2 1 2 - f Real.exp t 1 2) :=
    div_pos (by linarith) hD
  have hX : specX2 ⟨t, 2, f Real.exp t 1 2, f Real.exp 2 1 2⟩
      = 2 - f Real.exp 2 1 2 * ((2 - t) / (f Real.exp 2 1 2 - f Real.exp t 1 2)) := by
    simp only [specX2]; rw [mul_div_assoc]
  rw [hX]
  generalize (2 - t) / (f Real.exp 2 1 2 - f Real.exp t 1 2) = u at hu hupos
  generalize hAdef : f Real.exp t 1 2 = A at hu hneg hA0 hD
  generalize hBdef : f Real.exp 2 1 2 = B at hu hF2lo hF2hi hD
  have hXt : 2 - B * u - t = -A * u := by linarith
  have hstep : 0 < -A * u := mul_pos (by linarith) hupos
  have hBu : 0 < B * u := mul_pos (by linarith) hupos
  have htan1 := testCase_tangent (2 - B * u) t
  have htan2 := testCase_tangent (2 - B * u) 2
  have htan3 := testCase_tangent t (2 - B * u)
  rw [hAdef] at htan1 htan3
  rw [hBdef] at htan2
  have hFX : f Real.exp (2 - B * u) 1 2 ≤ 0 := by
    by_contra hc
    have hc' : 0 < f Real.exp (2 - B * u) 1 2 := not_le.mp hc
    have e1 : (f Real.exp (2 - B * u) 1 2 + (Real.exp (2 - B * u) - 1) * (t - (2 - B * u)))
        * (B * u) ≤ A * (B * u) := mul_le_mul_of_nonneg_right htan1 (le_of_lt hBu)
    have e2 : (f Real.exp (2 - B * u) 1 2 + (Real.exp (2 - B * u) - 1) * (2 - (2 - B * u)))
        * (-A * u) ≤ B * (-A * u) := mul_le_mul_of_nonneg_right htan2 (le_of_lt hstep)
    have e3 : 0 < f Real.exp (2 - B * u) 1 2 * (B * u + -A * u) :=
      mul_pos hc' (by linarith)
    have hid : (Real.exp (2 - B * u) - 1) * (t - (2 - B * u)) * (B * u)
        + (Real.exp (2 - B * u) - 1) * (2 - (2 - B * u)) * (-A * u) = 0 := by
      have : t - (2 - B * u) = -(-A * u) := by linarith
      rw [this]; ring
    nlinarith
  refine ⟨by linarith, by linarith, hFX, ?_, ?_⟩
  · intro ht1
    have hA1 : A ≤ f Real.exp 1 1 2 := by
      rw [← hAdef]; exact testCase_mono t 1 ht0 (le_of_lt ht1)
    have hu1 : 1 ≤ u * (B - A) := by linarith
    have hBA : B - A ≤ 43891 / 10000 := by linarith
    have hu2 : (10000 / 43891 : ℝ) ≤ u := by
      by_contra hc
      have hc' : u < 10000 / 43891 := not_le.mp hc
      have : u * (B - A) < 10000 / 43891 * (43891 / 10000) := by
        calc u * (B - A) ≤ u * (43891 / 10000) :=
              mul_le_mul_of_nonneg_left hBA (le_of_lt hupos)
          _ < 10000 / 43891 * (43891 / 10000) :=
              mul_lt_mul_of_pos_right hc' (by norm_num)
      norm_num at this
      linarith
    have hA2 : (2817 / 10000 : ℝ) ≤ -A := by linarith
    have : (2817 / 10000 : ℝ) * (10000 / 43891) ≤ -A * u :=
      mul_le_mul hA2 hu2 (by norm_num) (by linarith)
    norm_num at this
    linarith
  · intro ht1
    have hA1 : f Real.exp 1 1 2 ≤ A := by
      rw [← hAdef]; exact testCase_mono 1 t (by norm_num) ht1
    have hBA : B - A ≤ 36709 / 10000 := by linarith
    have hnum : (8528 / 10000 : ℝ) ≤ u * (B - A) := by linarith
    have hu2 : (8528 / 36709 : ℝ) ≤ u := by
      by_contra hc
      have hc' : u < 8528 / 36709 := not_le.mp hc
      have : u * (B - A) < 8528 / 36709 * (36709 / 10000) := by
        calc u * (B - A) ≤ u * (36709 / 10000) :=
              mul_le_mul_of_nonneg_left hBA (le_of_lt hupos)
          _ < 8528 / 36709 * (36709 / 10000) :=
              mul_lt_mul_of_pos_right hc' (by norm_num)
      norm_num at this
      linarith
    have hexp : (1718 / 1000 : ℝ) ≤ Real.exp t - 1 := by
      have h1 : Real.exp 1 ≤ Real.exp t := Real.exp_le_exp.mpr ht1
      have := Real.exp_one_gt_d9
      norm_num at this
      linarith
    have hprod : (1 / 3 : ℝ) ≤ (Real.exp t - 1) * u := by
      have : (1718 / 1000 : ℝ) * (8528 / 36709) ≤ (Real.exp t - 1) * u :=
        mul_le_mul hexp hu2 (by norm_num) (by linarith)
      norm_num at this
      linarith
    have hcontr : -f Real.exp (2 - B * u) 1 2 ≤ -A * (1 - (Real.exp t - 1) * u) := by
      have : (Real.exp t - 1) * (2 - B * u - t) = (Real.exp t - 1) * (-A * u) := by
        rw [hXt]
      nlinarith
    have hApos : 0 ≤ -A := by linarith
    have : -A * (1 - (Real.exp t - 1) * u) ≤ -A * (2 / 3) :=
      mul_le_mul_of_nonneg_left (by linarith) hApos
    linarith

/-- The brackets of the test case `a = 1`, `b = 2`, `x0 = 0`, `x1 = 2`: as long as no row has
met the tolerance, the right end stays at 2, the left end `t` is non-negative with
`f(t) < 0`, it has advanced to at least `min 1 (n/16)`, and from row 16 on the residual at
`t` is at most `0.2818 (2/3)^(n - 16)`. -/
theorem testCase_bracket (n : Nat)
    (hrun : ∀ j, j < n → ¬ (specRow Real.exp 1 2 0 2 j).error < TOLERANCE) :
    ∃ t : ℝ, specBracket Real.exp 1 2 0 2 n = ⟨t, 2, f Real.exp t 1 2, f Real.exp 2 1 2⟩
      ∧ 0 ≤ t ∧ f Real.exp t 1 2 < 0
      ∧ min 1 ((n : ℝ) / 16) ≤ t
      ∧ (16 ≤ n → -f Real.exp t 1 2 ≤ 2818 / 10000 * (2 / 3) ^ (n - 16)) := by
  obtain ⟨hF0, hF1lo, hF1hi, hF2lo, hF2hi⟩ := testCase_values
  induction n with
  | zero =>
    refine ⟨0, rfl, le_refl 0, by rw [hF0]; norm_num, ?_, fun h => absurd h (by decide)⟩
    simp
  | succ n ih =>
    obtain ⟨t, hB, ht0, hneg, hmin, hphase⟩ := ih (fun j hj => hrun j (Nat.lt_succ_of_lt hj))
    obtain ⟨h1, h2, h3, h4, h5⟩ := testCase_step t ht0 hneg
    have hrow := hrun n (Nat.lt_succ_self n)
    have herr : (specRow Real.exp 1 2 0 2 n).error
        = |f Real.exp (specX2 ⟨t, 2, f Real.exp t 1 2, f Real.exp 2 1 2⟩) 1 2| := by
      simp only [specRow, rowOf, hB]
    rw [herr] at hrow
    have htol : (0 : ℝ) < TOLERANCE := by unfold TOLERANCE; norm_num
    have hXneg : f Real.exp (specX2 ⟨t, 2, f Real.exp t 1 2, f Real.exp 2 1 2⟩) 1 2 < 0 := by
      rcases lt_or_eq_of_le h3 with hlt | heq
      · exact hlt
      · exfalso; apply hrow; rw [heq, abs_zero]; exact htol
    have hprod : ¬ f Real.exp t 1 2
        * f Real.exp (specX2 ⟨t, 2, f Real.exp t 1 2, f Real.exp 2 1 2⟩) 1 2 < 0 :=
      not_lt.mpr (le_of_lt (mul_pos_of_neg_of_neg hneg hXneg))
    have hnext : specBracket Real.exp 1 2 0 2 (n + 1)
        = ⟨specX2 ⟨t, 2, f Real.exp t 1 2, f Real.exp 2 1 2⟩, 2,
            f Real.exp (specX2 ⟨t, 2, f Real.exp t 1 2, f Real.exp 2 1 2⟩) 1 2,
            f Real.exp 2 1 2⟩ := by
      have hs : specBracket Real.exp 1 2 0 2 (n + 1)
          = specStep Real.exp 1 2 (specBracket Real.exp 1 2 0 2 n) := by
        simp only [specBracket, Function.iterate_succ_apply']
      rw [hs, hB]
      simp only [specStep, hprod, if_false]
    refine ⟨_, hnext, by linarith, hXneg, ?_, ?_⟩
    · by_cases ht1 : t < 1
      · have hn16 : (n : ℝ) / 16 ≤ t := by
          rcases min_le_iff.mp hmin with h | h
          · linarith
          · exact h
        have := h4 ht1
        refine le_trans (min_le_right _ _) ?_
        push_cast
        linarith
      · exact le_trans (min_le_left _ _) (by linarith [not_lt.mp ht1])
    · intro h16
      rcases Nat.eq_or_lt_of_le h16 with heq | hlt
      · -- row 16: the left end has reached 1
        have hn : n = 15 := by omega
        subst hn
        have ht1 : (15 : ℝ) / 16 ≤ t := by
          rcases min_le_iff.mp hmin with h | h
          · linarith
          · simpa using h
        have hX1 : 1 ≤ specX2 ⟨t, 2, f Real.exp t 1 2, f Real.exp 2 1 2⟩ := by
          by_cases hc : t < 1
          · have := h4 hc; linarith
          · linarith [not_lt.mp hc]
        have := testCase_mono 1 _ (by norm_num) hX1
        norm_num
        linarith
      · have hn16 : 16 ≤ n := by omega
        have ht1 : 1 ≤ t := by
          have hge : (1 : ℝ) ≤ (n : ℝ) / 16 := by
            rw [le_div_iff₀ (by norm_num)]
            have : (16 : ℝ) ≤ n := by exact_mod_cast hn16
            linarith
          rw [min_eq_left hge] at hmin
          exact hmin
        have hp := hphase hn16
        have hc := h5 ht1
        have hpow : (2 / 3 : ℝ) ^ (n + 1 - 16) = 2 / 3 * (2 / 3) ^ (n - 16) := by
          rw [show n + 1 - 16 = (n - 16) + 1 by omega, pow_succ]; ring
        rw [hpow]
        linarith

/-- The test case meets the tolerance within its first 36 rows. -/
theorem testCase_converges :
    ∃ k, k < 36 ∧ (specRow Real.exp 1 2 0 2 k).error < TOLERANCE := by
  by_contra hnone
  have hrun : ∀ j, j < 36 → ¬ (specRow Real.exp 1 2 0 2 j).error < TOLERANCE :=
    fun j hj hc => hnone ⟨j, hj, hc⟩
  obtain ⟨t, hB, ht0, hneg, hmin, hphase⟩ :=
    testCase_bracket 35 (fun j hj => hrun j (Nat.lt_succ_of_lt hj))
  obtain ⟨-, -, h3, -, h5⟩ := testCase_step t ht0 hneg
  have ht1 : 1 ≤ t := by
    have hge : (1 : ℝ) ≤ ((35 : ℕ) : ℝ) / 16 := by norm_num
    rw [min_eq_left hge] at hmin
    exact hmin
  have hp := hphase (by decide)
  have hc := h5 ht1
  apply hrun 35 (by decide)
  have herr : (specRow Real.exp 1 2 0 2 35).error
      = |f Real.exp (specX2 ⟨t, 2, f Real.exp t 1 2, f Real.exp 2 1 2⟩) 1 2| := by
    simp only [specRow, rowOf, hB]
  rw [herr, abs_of_nonpos h3]
  have hnum : (2 / 3 : ℝ) * (2818 / 10000 * (2 / 3) ^ (35 - 16)) < TOLERANCE := by
    norm_num [TOLERANCE]
  linarith

/-- The handler on a pair that fails the bracket test. -/
theorem compute_not_bracketed (exp : K → K) (s : State K) (a b x0 x1 : K)
    (h : 0 ≤ f exp x0 a b * f exp x1 a b) :
    compute exp s a b x0 x1 =
      { s with coefA := a, coefB := b,
               resultText := .errorOppositeSigns x0 (f exp x0 a b) x1 (f exp x1 a b),
               hasValidRoot := 0, totalIterations := 0 } := by
  have h' : f exp x0 a b * f exp x1 a b ≥ 0 := h
  simp only [compute, h', if_true]

/-- The initial points `-2` and `2` of the test case do not bracket a root of
`e^x - x - 2`: both values are positive. -/
theorem testCase_same_sign : 0 < f Real.exp (-2) 1 2 ∧ 0 < f Real.exp 2 1 2 := by
  obtain ⟨-, -, -, hF2lo, -⟩ := testCase_values
  constructor
  · have := Real.exp_pos (-2)
    unfold f
    linarith
  · linarith

/-- Counterexample to C18: `a = 1`, `b = 2`, `x0 = -2`, `x1 = 2` over the reals. Both
`f(-2) = e^-2` and `f(2) = e^2 - 4` are positive, so the handler reports the
opposite-signs error (NoBracket) with no iteration; it does not report a root. -/
theorem falsePosition_test_case_rejected :
    0 < f Real.exp (-2) 1 2
    ∧ 0 < f Real.exp 2 1 2
    ∧ (compute Real.exp (initial (fun _ => ⟨0, 0, 0, 0, 0, 0, 0, 0⟩)) 1 2 (-2) 2).resultText
        = .errorOppositeSigns (-2) (f Real.exp (-2) 1 2) 2 (f Real.exp 2 1 2)
    ∧ (compute Real.exp (initial (fun _ => ⟨0, 0, 0, 0, 0, 0, 0, 0⟩)) 1 2 (-2) 2).hasValidRoot
        = 0
    ∧ (compute Real.exp (initial (fun _ => ⟨0, 0, 0, 0, 0, 0, 0, 0⟩)) 1 2 (-2)
        2).totalIterations = 0
    ∧ ∀ root n,
        (compute Real.exp (initial (fun _ => ⟨0, 0, 0, 0, 0, 0, 0, 0⟩)) 1 2 (-2) 2).resultText
          ≠ .success root n := by
  obtain ⟨h1, h2⟩ := testCase_same_sign
  rw [compute_not_bracketed Real.exp _ 1 2 (-2) 2 (le_of_lt (mul_pos h1 h2))]
  exact ⟨h1, h2, rfl, rfl, rfl, fun _ _ h => ResultText.noConfusion h⟩

/-- C18, amended. For `a = 1`, `b = 2` (`f(x) = e^x - x - 2`) over the reals and any earlier
state: the initial points `x0 = -2`, `x1 = 2` are rejected with the opposite-signs error
(NoBracket) and no iteration; with the bracketing points `x0 = 0`, `x1 = 2` the handler
reports success after at most 36 iterations, with a root within `1e-3` of 1.1462 and
`|f(root)| < 1e-4`. -/
theorem falsePosition_test_case (s : State ℝ) :
    ((compute Real.exp s 1 2 (-2) 2).resultText
        = .errorOppositeSigns (-2) (f Real.exp (-2) 1 2) 2 (f Real.exp 2 1 2)
      ∧ (compute Real.exp s 1 2 (-2) 2).hasValidRoot = 0
      ∧ (compute Real.exp s 1 2 (-2) 2).totalIterations = 0)
    ∧ ∃ root n,
        (compute Real.exp s 1 2 0 2).resultText = .success root n
        ∧ (compute Real.exp s 1 2 0 2).hasValidRoot = 1
        ∧ (compute Real.exp s 1 2 0 2).finalRoot = root
        ∧ (compute Real.exp s 1 2 0 2).totalIterations = n
        ∧ n ≤ 36
        ∧ |root - 11462 / 10000| < 1 / 1000
        ∧ |f Real.exp root 1 2| < 1 / 10000 := by
  obtain ⟨hs1, hs2⟩ := testCase_same_sign
  obtain ⟨hF0, -, -, hF2lo, -⟩ := testCase_values
  constructor
  · rw [compute_not_bracketed Real.exp s 1 2 (-2) 2 (le_of_lt (mul_pos hs1 hs2))]
    exact ⟨rfl, rfl, rfl⟩
  · have hb : f Real.exp 0 1 2 * f Real.exp 2 1 2 < 0 := by
      rw [hF0]; linarith
    obtain ⟨hconv, -⟩ := compute_bracketed Real.exp s 1 2 0 2 hb
    have hex := testCase_converges
    have hk36 : Nat.find hex < 36 := (Nat.find_spec hex).1
    have hck : (specRow Real.exp 1 2 0 2 (Nat.find hex)).error < TOLERANCE :=
      (Nat.find_spec hex).2
    have hfirst : ∀ j, j < Nat.find hex →
        ¬ (specRow Real.exp 1 2 0 2 j).error < TOLERANCE := by
      intro j hj hc
      exact Nat.find_min hex hj ⟨Nat.lt_trans hj hk36, hc⟩
    obtain ⟨h1, h2, h3, h4, -⟩ :=
      hconv (Nat.find hex) (Nat.lt_trans hk36 (by decide)) hck hfirst
    obtain ⟨t, hB, ht0, hneg, -, -⟩ := testCase_bracket (Nat.find hex) hfirst
    obtain ⟨hlt, -, -, -, -⟩ := testCase_step t ht0 hneg
    have hx2 : (specRow Real.exp 1 2 0 2 (Nat.find hex)).x2
        = specX2 ⟨t, 2, f Real.exp t 1 2, f Real.exp 2 1 2⟩ := by
      simp only [specRow, rowOf, hB]
    have herr : (specRow Real.exp 1 2 0 2 (Nat.find hex)).error
        = |f Real.exp (specRow Real.exp 1 2 0 2 (Nat.find hex)).x2 1 2| := rfl
    have hres : |f Real.exp (specRow Real.exp 1 2 0 2 (Nat.find hex)).x2 1 2| < 1 / 10000 := by
      rw [← herr]; exact hck
    have hnonneg : 0 ≤ (specRow Real.exp 1 2 0 2 (Nat.find hex)).x2 := by
      rw [hx2]; linarith
    exact ⟨_, _, h1, h2, h3, h4, hk36, testCase_localise _ hnonneg hres, hres⟩

end FalsePosition


namespace Exponential

variable {K : Type} [LinearOrderedField K]

/-- The exponential `g` in exact arithmetic (every value of `exp` a finite number, no
overflow), over any ordered field, for every `a`, `b`, `x`:
method 1 is undefined exactly when `a*x + b ≤ 0` and is `ln(a*x + b)` otherwise; methods 2
and 4 are undefined exactly when `a = 0` and are `(e^x - b)/a` and `e^x/a - b/a` otherwise;
method 3 is undefined exactly when `a ≤ 0` or `e^x - b ≤ 0` (the guard `a = 0` or
`e^x - b ≤ 0`, or the logarithm of the negative quotient when `a < 0`) and is
`ln((e^x - b)/a)` otherwise; method 5 is always `x - 0.1 (e^x - a x - b)`; every other method
number is undefined. -/
theorem exponential_g_domain (exp log : K → K) (x a b : K) :
    ((g exp log x a b 1 = .nan ↔ a * x + b ≤ 0)
      ∧ (¬ a * x + b ≤ 0 → g exp log x a b 1 = .fin (log (a * x + b))))
    ∧ ((g exp log x a b 2 = .nan ↔ a = 0)
      ∧ (a ≠ 0 → g exp log x a b 2 = .fin ((exp x - b) / a)))
    ∧ ((g exp log x a b 3 = .nan ↔ a ≤ 0 ∨ exp x - b ≤ 0)
      ∧ (¬ (a ≤ 0 ∨ exp x - b ≤ 0) → g exp log x a b 3 = .fin (log ((exp x - b) / a))))
    ∧ ((g exp log x a b 4 = .nan ↔ a = 0)
      ∧ (a ≠ 0 → g exp log x a b 4 = .fin (exp x / a - b / a)))
    ∧ g exp log x a b 5 = .fin (x - 1 / 10 * (exp x - a * x - b))
    ∧ ∀ method : Int, (method < 1 ∨ 5 < method) → g exp log x a b method = .nan := by
  refine ⟨?_, ?_, ?_, ?_, exponential_g_method5 exp log x a b, ?_⟩
  · have hfin : ¬ a * x + b ≤ 0 → g exp log x a b 1 = .fin (log (a * x + b)) := by
      intro h
      rw [exponential_g_method1, if_neg h]
      exact (Dbl.log_eq_fin_iff log _ _).mpr ⟨not_le.mp h, rfl⟩
    refine ⟨⟨fun h => ?_, fun h => ?_⟩, hfin⟩
    · by_contra hn
      rw [hfin hn] at h
      exact Dbl.noConfusion h
    · rw [exponential_g_method1, if_pos h]
  · have hfin : a ≠ 0 → g exp log x a b 2 = .fin ((exp x - b) / a) := by
      intro h
      rw [exponential_g_method2, if_neg h]
      exact (Dbl.div_eq_fin_iff _ _ _).mpr ⟨h, rfl⟩
    refine ⟨⟨fun h => ?_, fun h => ?_⟩, hfin⟩
    · by_contra hn
      rw [hfin hn] at h
      exact Dbl.noConfusion h
    · rw [exponential_g_method2, if_pos h]
  · have hfin : ¬ (a ≤ 0 ∨ exp x - b ≤ 0) →
        g exp log x a b 3 = .fin (log ((exp x - b) / a)) := by
      intro h
      have ha : 0 < a := not_le.mp (fun h0 => h (Or.inl h0))
      have he : 0 < exp x - b := not_le.mp (fun h0 => h (Or.inr h0))
      have hg : ¬ (a = 0 ∨ exp x - b ≤ 0) := by
        rintro (h0 | h0)
        · exact absurd h0 (ne_of_gt ha)
        · exact absurd h0 (not_le.mpr he)
      rw [exponential_g_method3, if_neg hg]
      exact (Dbl.log_eq_fin_iff log _ _).mpr ⟨div_pos he ha, rfl⟩
    refine ⟨⟨fun h => ?_, fun h => ?_⟩, hfin⟩
    · by_contra hn
      rw [hfin hn] at h
      exact Dbl.noConfusion h
    · rw [exponential_g_method3]
      by_cases hg : a = 0 ∨ exp x - b ≤ 0
      · rw [if_pos hg]
      · rw [if_neg hg]
        have ha0 : a ≠ 0 := fun h0 => hg (Or.inl h0)
        have he : 0 < exp x - b := not_le.mp (fun h0 => hg (Or.inr h0))
        have ha : a < 0 := by
          rcases h with h | h
          · exact lt_of_le_of_ne h ha0
          · exact absurd h (not_le.mpr he)
        unfold Dbl.log
        rw [if_pos (div_neg_of_pos_of_neg he ha)]
  · have hfin : a ≠ 0 → g exp log x a b 4 = .fin (exp x / a - b / a) := by
      intro h
      rw [exponential_g_method4, if_neg h]
    refine ⟨⟨fun h => ?_, fun h => ?_⟩, hfin⟩
    · by_contra hn
      rw [hfin hn] at h
      exact Dbl.noConfusion h
    · rw [exponential_g_method4, if_pos h]
  · intro method hm
    unfold g
    rw [if_neg (by omega), if_neg (by omega), if_neg (by omega), if_neg (by omega),
      if_neg (by omega)]

/-- An instance of `exponential_g_domain`: `a = 0`, `b = 1`, `x = 0` over the reals passes
the guard of method 1 and gives `ln(0 * 0 + 1)`. -/
theorem exponential_g_domain_witness :
    ¬ ((0 : ℝ) * 0 + 1 ≤ 0)
    ∧ g Real.exp Real.log 0 0 1 1 = .fin (Real.log (0 * 0 + 1)) :=
  ⟨by norm_num, (@exponential_g_domain ℝ _ Real.exp Real.log 0 0 1).1.2 (by norm_num)⟩

end Exponential

namespace Console

variable {K : Type} [LinearOrderedField K]

/-- On inputs the validation accepts, with `a ≠ 0` when the method is 5, an evaluation of
`g` returns through its guard or divides by non-zero numbers only. -/
theorem accepted_divisors_ne_zero (x a b c : K) (method : Int) (h : accepted a b method)
    (h5 : method = 5 → a ≠ 0) :
    Quadratic.guardReturns x a b c method ∨ (0 : K) ∉ Quadratic.divisors x a b c method := by
  obtain ⟨hrange, hb, ha⟩ := h
  have hm : method = 1 ∨ method = 2 ∨ method = 3 ∨ method = 4 ∨ method = 5 := by
    have h1 : ¬ method < 1 := fun h => hrange (Or.inl h)
    have h2 : ¬ method > 5 := fun h => hrange (Or.inr h)
    omega
  rcases hm with rfl | rfl | rfl | rfl | rfl
  · right
    have hb0 : b ≠ 0 := fun h0 => hb ⟨Or.inl rfl, h0⟩
    unfold Quadratic.divisors
    rw [if_pos rfl]
    simpa using Ne.symm hb0
  · by_cases hg : |a * x + b| < tiny
    · left
      unfold Quadratic.guardReturns
      rw [if_neg (by decide), if_pos rfl]
      exact hg
    · right
      unfold Quadratic.divisors
      rw [if_neg (by decide), if_pos rfl, if_neg hg]
      have hne : a * x + b ≠ 0 := by
        intro h0
        apply hg
        rw [h0, abs_zero]
        exact Elimination.tiny_pos
      simpa using Ne.symm hne
  · right
    have ha0 : a ≠ 0 := fun h0 => ha ⟨Or.inl rfl, h0⟩
    unfold Quadratic.divisors
    rw [if_neg (by decide), if_neg (by decide), if_pos rfl, if_neg ha0]
    split_ifs <;> simpa using Ne.symm ha0
  · right
    have ha0 : a ≠ 0 := fun h0 => ha ⟨Or.inr rfl, h0⟩
    unfold Quadratic.divisors
    rw [if_neg (by decide), if_neg (by decide), if_neg (by decide), if_pos rfl, if_neg ha0]
    split_ifs <;> simpa using Ne.symm ha0
  · right
    have hb0 : b ≠ 0 := fun h0 => hb ⟨Or.inr rfl, h0⟩
    have ha0 : a ≠ 0 := h5 rfl
    have hq : -b / a ≠ 0 := div_ne_zero (neg_ne_zero.mpr hb0) ha0
    unfold Quadratic.divisors
    rw [if_neg (by decide), if_neg (by decide), if_neg (by decide), if_neg (by decide),
      if_pos rfl, if_neg hb0, if_neg ha0]
    simp only [List.mem_cons, List.mem_singleton, List.not_mem_nil, or_false, not_or]
    exact ⟨Ne.symm ha0, Ne.symm ha0, Ne.symm hq⟩

/-- C29 (the code departs from the claim). The validation of main.c accepts method 5 with
`a = 0`, `b = 1` and any `c`; for every `x` the guard of `g` (`b == 0`) does not return, and
the return expression forms the quotients `c / a` and `-b / a` with divisor `a = 0`; the
value of `g` is NaN. -/
theorem console_method5_divides_by_zero (sqrt : K → K) (x c : K) :
    accepted (0 : K) 1 5
    ∧ ¬ Quadratic.guardReturns x 0 1 c 5
    ∧ (0 : K) ∈ Quadratic.divisors x 0 1 c 5
    ∧ Quadratic.g sqrt x 0 1 c 5 = .nan := by
  refine ⟨?_, ?_, ?_, ?_⟩
  · unfold accepted
    refine ⟨by omega, ?_, ?_⟩
    · rintro ⟨-, h⟩
      exact one_ne_zero h
    · rintro ⟨h, -⟩
      omega
  · unfold Quadratic.guardReturns
    rw [if_neg (by decide), if_neg (by decide), if_neg (by decide), if_neg (by decide),
      if_pos rfl]
    exact one_ne_zero
  · unfold Quadratic.divisors
    rw [if_neg (by decide), if_neg (by decide), if_neg (by decide), if_neg (by decide),
      if_pos rfl, if_neg one_ne_zero, if_pos rfl]
    exact List.mem_cons_self _ _
  · rw [Quadratic.quadratic_g_method5, if_neg one_ne_zero, if_pos rfl]

end Console

namespace FalsePosition

/-- The pair `x0 = 0`, `x1 = 1` brackets a root of `e^x - 2`: `f(0) = -1`, `f(1) = e - 2`. -/
theorem exampleBracket : f Real.exp 0 0 2 * f Real.exp 1 0 2 < 0 := by
  have he : (2 : ℝ) < Real.exp 1 := by
    have := Real.add_one_lt_exp (one_ne_zero : (1 : ℝ) ≠ 0)
    linarith
  simp only [f, Real.exp_zero, zero_mul, sub_zero]
  nlinarith

/-- Over the reals `f(x) = e^x - a x - b` is continuous. -/
theorem falsePosition_f_continuous (a b : ℝ) : Continuous (fun x => f Real.exp x a b) := by
  unfold f
  fun_prop

/-- Intermediate value theorem for `f`: a sign change between `x0` and `x1` encloses a
root strictly between them. -/
theorem root_of_sign_change (a b x0 x1 : ℝ) (hb : f Real.exp x0 a b * f Real.exp x1 a b < 0) :
    ∃ r, min x0 x1 < r ∧ r < max x0 x1 ∧ f Real.exp r a b = 0 := by
  have h0 : f Real.exp x0 a b ≠ 0 := by
    intro h; rw [h, zero_mul] at hb; exact lt_irrefl _ hb
  have h1 : f Real.exp x1 a b ≠ 0 := by
    intro h; rw [h, mul_zero] at hb; exact lt_irrefl _ hb
  have hmem : (0 : ℝ) ∈ Set.uIcc (f Real.exp x0 a b) (f Real.exp x1 a b) := by
    rw [Set.mem_uIcc]
    rcases mul_neg_iff.mp hb with ⟨hp, hn⟩ | ⟨hn, hp⟩
    · right; exact ⟨le_of_lt hn, le_of_lt hp⟩
    · left; exact ⟨le_of_lt hn, le_of_lt hp⟩
  obtain ⟨r, hr, hfr⟩ :=
    intermediate_value_uIcc (falsePosition_f_continuous a b).continuousOn hmem
  have hfr0 : f Real.exp r a b = 0 := hfr
  have hr0 : r ≠ x0 := fun h => h0 (h ▸ hfr0)
  have hr1 : r ≠ x1 := fun h => h1 (h ▸ hfr0)
  rw [Set.mem_uIcc] at hr
  refine ⟨r, ?_, ?_, hfr0⟩
  · rcases hr with ⟨h, -⟩ | ⟨h, -⟩
    · exact lt_of_le_of_lt (min_le_left _ _) (lt_of_le_of_ne h (Ne.symm hr0))
    · exact lt_of_le_of_lt (min_le_right _ _) (lt_of_le_of_ne h (Ne.symm hr1))
  · rcases hr with ⟨-, h⟩ | ⟨-, h⟩
    · exact lt_of_lt_of_le (lt_of_le_of_ne h hr1) (le_max_right _ _)
    · exact lt_of_lt_of_le (lt_of_le_of_ne h hr0) (le_max_left _ _)

/-- In exact arithmetic over the reals with the real exponential (no overflow, no
underflow, no rounding): whenever the handler does not answer
with the opposite-signs error (NoBracket), `f(x) = e^x - a x - b` has a root strictly
between `x0` and `x1`; if `f` has no real root the handler answers NoBracket for every `x0`,
`x1`; and `a = 1`, `b = 0` is such a case (`e^x - x > 0` everywhere). -/
theorem falsePosition_bracket_has_root (s : State ℝ) (a b x0 x1 : ℝ) :
    ((compute Real.exp s a b x0 x1).resultText
        ≠ .errorOppositeSigns x0 (f Real.exp x0 a b) x1 (f Real.exp x1 a b) →
      f Real.exp x0 a b * f Real.exp x1 a b < 0
      ∧ ∃ r, min x0 x1 < r ∧ r < max x0 x1 ∧ f Real.exp r a b = 0)
    ∧ ((∀ r, f Real.exp r a b ≠ 0) →
        (compute Real.exp s a b x0 x1).resultText
          = .errorOppositeSigns x0 (f Real.exp x0 a b) x1 (f Real.exp x1 a b))
    ∧ (∀ r, f Real.exp r 1 0 ≠ 0)
    ∧ (compute Real.exp s 1 0 x0 x1).resultText
        = .errorOppositeSigns x0 (f Real.exp x0 1 0) x1 (f Real.exp x1 1 0) := by
  have hkey : ∀ a b : ℝ,
      (compute Real.exp s a b x0 x1).resultText
          ≠ .errorOppositeSigns x0 (f Real.exp x0 a b) x1 (f Real.exp x1 a b) →
        f Real.exp x0 a b * f Real.exp x1 a b < 0 := by
    intro a b hne
    by_contra hnb
    apply hne
    rw [compute_not_bracketed Real.exp s a b x0 x1 (not_lt.mp hnb)]
  have hnoroot : ∀ a b : ℝ, (∀ r, f Real.exp r a b ≠ 0) →
      (compute Real.exp s a b x0 x1).resultText
        = .errorOppositeSigns x0 (f Real.exp x0 a b) x1 (f Real.exp x1 a b) := by
    intro a b hno
    by_contra hne
    obtain ⟨r, -, -, hr⟩ := root_of_sign_change a b x0 x1 (hkey a b hne)
    exact hno r hr
  have hpos : ∀ r : ℝ, f Real.exp r 1 0 ≠ 0 := by
    intro r
    have := Real.add_one_le_exp r
    unfold f
    intro h
    linarith
  exact ⟨fun hne => ⟨hkey a b hne, root_of_sign_change a b x0 x1 (hkey a b hne)⟩,
    hnoroot a b, hpos, hnoroot 1 0 hpos⟩

/-- An instance of `falsePosition_bracket_has_root`: `a = 0`, `b = 2`, `x0 = 0`, `x1 = 1`
over the reals is not answered with NoBracket, and `e^x - 2` has a root strictly between 0 and 1. -/
theorem falsePosition_bracket_has_root_witness :
    (compute Real.exp (initial (fun _ => ⟨0, 0, 0, 0, 0, 0, 0, 0⟩)) 0 2 0 1).resultText
        ≠ .errorOppositeSigns 0 (f Real.exp 0 0 2) 1 (f Real.exp 1 0 2)
    ∧ ∃ r : ℝ, min 0 1 < r ∧ r < max 0 1 ∧ f Real.exp r 0 2 = 0 :=
  have hne : (compute Real.exp (initial (fun _ => ⟨0, 0, 0, 0, 0, 0, 0, 0⟩)) 0 2 0
      1).resultText ≠ .errorOppositeSigns 0 (f Real.exp 0 0 2) 1 (f Real.exp 1 0 2) := by
    intro hEq
    rcases compute_bracketed_text Real.exp (initial (fun _ => ⟨0, 0, 0, 0, 0, 0, 0, 0⟩))
      0 2 0 1 exampleBracket with ⟨x, n, hs⟩ | hf
    · rw [hs] at hEq; exact ResultText.noConfusion hEq
    · rw [hf] at hEq; exact ResultText.noConfusion hEq
  ⟨hne, ((falsePosition_bracket_has_root
    (initial (fun _ => ⟨0, 0, 0, 0, 0, 0, 0, 0⟩)) 0 2 0 1).1 hne).2⟩

end FalsePosition

namespace FalsePosition

variable {K : Type} [LinearOrderedField K]

/-- Two states with the same seven fields are the same state. -/
theorem falsePosition_state_ext (s t : State K) (h1 : s.resultText = t.resultText)
    (h2 : s.finalRoot = t.finalRoot) (h3 : s.hasValidRoot = t.hasValidRoot)
    (h4 : s.coefA = t.coefA) (h5 : s.coefB = t.coefB)
    (h6 : ∀ i, s.iterations i = t.iterations i)
    (h7 : s.totalIterations = t.totalIterations) : s = t := by
  have h6' : s.iterations = t.iterations := funext h6
  cases s
  cases t
  simp only at h1 h2 h3 h4 h5 h6' h7
  subst h1 h2 h3 h4 h5 h6' h7
  rfl

/-- The loop run from two states with the same coefficients: it executes the same number
`n ≤ fuel` of iterations, writes the same rows at the indices `iter .. iter + n - 1` (row `i`
carrying the iteration number `i + 1`), leaves every other row and the coefficients alone,
and either converges in both runs with the same root and text or leaves `hasValidRoot`,
`finalRoot` and `resultText` untouched in both. -/
theorem falsePosition_loop_rel (exp : K → K) (fuel : Nat) :
    ∀ (iter : Nat) (q : Bracket K) (s s' r r' : State K),
      s.coefA = s'.coefA → s.coefB = s'.coefB →
      r = loop exp fuel iter q.x0 q.x1 q.fx0 q.fx1 s →
      r' = loop exp fuel iter q.x0 q.x1 q.fx0 q.fx1 s' →
      ∃ n, n ≤ fuel
        ∧ r.totalIterations = s.totalIterations + n
        ∧ r'.totalIterations = s'.totalIterations + n
        ∧ (∀ i, iter ≤ i → i < iter + n →
            r.iterations i = r'.iterations i ∧ (r.iterations i).iteration = i + 1)
        ∧ (∀ i, (i < iter ∨ iter + n ≤ i) →
            r.iterations i = s.iterations i ∧ r'.iterations i = s'.iterations i)
        ∧ (r.coefA = s.coefA ∧ r.coefB = s.coefB ∧ r'.coefA = s'.coefA ∧ r'.coefB = s'.coefB)
        ∧ ((r.hasValidRoot = 1 ∧ r'.hasValidRoot = 1 ∧ r.finalRoot = r'.finalRoot
              ∧ r.resultText = r'.resultText)
          ∨ (r.hasValidRoot = s.hasValidRoot ∧ r'.hasValidRoot = s'.hasValidRoot
              ∧ r.finalRoot = s.finalRoot ∧ r'.finalRoot = s'.finalRoot
              ∧ r.resultText = s.resultText ∧ r'.resultText = s'.resultText)) := by
  induction fuel with
  | zero =>
    intro iter q s s' r r' _ _ hr hr'
    subst hr hr'
    refine ⟨0, Nat.le_refl 0, rfl, rfl, ?_, fun _ _ => ⟨rfl, rfl⟩, ⟨rfl, rfl, rfl, rfl⟩,
      Or.inr ⟨rfl, rfl, rfl, rfl, rfl, rfl⟩⟩
    intro i h1 h2
    omega
  | succ m ih =>
    intro iter q s s' r r' hA hB hr hr'
    rw [falsePosition_loop_succ] at hr hr'
    rw [← hA, ← hB] at hr'
    by_cases hc : |f exp (specX2 q) s.coefA s.coefB| < TOLERANCE
    · rw [if_pos hc] at hr hr'
      subst hr hr'
      refine ⟨1, Nat.succ_le_succ (Nat.zero_le m), rfl, rfl, ?_, ?_, ⟨rfl, rfl, hA, hB⟩,
        Or.inl ⟨rfl, rfl, rfl, rfl⟩⟩
      · intro i h1 h2
        have hi : i = iter := by omega
        subst hi
        simp only [Function.update_same]
        exact ⟨trivial, rfl⟩
      · intro i hi
        have hne : i ≠ iter := by omega
        exact ⟨Function.update_noteq hne _ _, Function.update_noteq hne _ _⟩
    · rw [if_neg hc] at hr hr'
      obtain ⟨n, hn, ht, ht', hrows, hframe, ⟨hcA, hcB, hcA', hcB'⟩, hout⟩ :=
        ih (iter + 1) (specStep exp s.coefA s.coefB q)
          { s with
            iterations := Function.update s.iterations iter (rowOf exp s.coefA s.coefB iter q),
            totalIterations := s.totalIterations + 1 }
          { s' with
            coefA := s.coefA, coefB := s.coefB,
            iterations := Function.update s'.iterations iter (rowOf exp s.coefA s.coefB iter q),
            totalIterations := s'.totalIterations + 1 } r r' rfl rfl hr hr'
      have hrow0 := hframe iter (Or.inl (Nat.lt_succ_self iter))
      simp only [Function.update_same] at hrow0
      refine ⟨n + 1, Nat.succ_le_succ hn, ?_, ?_, ?_, ?_,
        ⟨hcA, hcB, hcA'.trans hA, hcB'.trans hB⟩, ?_⟩
      · rw [ht]; simp only; omega
      · rw [ht']; simp only; omega
      · intro i h1 h2
        by_cases hi : i = iter
        · subst hi
          rw [hrow0.1, hrow0.2]
          exact ⟨rfl, rfl⟩
        · exact hrows i (by omega) (by omega)
      · intro i hi
        have hne : i ≠ iter := by omega
        obtain ⟨e1, e2⟩ := hframe i (by omega)
        rw [e1, e2]
        exact ⟨Function.update_noteq hne _ _, Function.update_noteq hne _ _⟩
      · rcases hout with h | h
        · exact Or.inl h
        · exact Or.inr h

/-- The handler in terms of the loop when the pair brackets. -/
theorem compute_of_bracket (exp : K → K) (s : State K) (a b x0 x1 : K)
    (hb : f exp x0 a b * f exp x1 a b < 0) :
    compute exp s a b x0 x1 =
      if (loop exp MAX_ITER 0 x0 x1 (f exp x0 a b) (f exp x1 a b)
          { s with coefA := a, coefB := b, totalIterations := 0, hasValidRoot := 0 }).hasValidRoot
            = 0 then
        { loop exp MAX_ITER 0 x0 x1 (f exp x0 a b) (f exp x1 a b)
            { s with coefA := a, coefB := b, totalIterations := 0, hasValidRoot := 0 } with
          resultText := .failedDidNotConverge }
      else
        loop exp MAX_ITER 0 x0 x1 (f exp x0 a b) (f exp x1 a b)
          { s with coefA := a, coefB := b, totalIterations := 0, hasValidRoot := 0 } := by
  have hnb : ¬ f exp x0 a b * f exp x1 a b ≥ 0 := not_le.mpr hb
  simp only [compute, hnb, if_false]

/-- The number of rows, the rows beyond the array and the iteration numbers of a run of the
handler: at most 50 rows, no row at an index of 50 or more is written, and row `i` of the
table carries the iteration number `i + 1`. -/
theorem falsePosition_compute_shape (exp : K → K) (s : State K) (a b x0 x1 : K) :
    (compute exp s a b x0 x1).totalIterations ≤ 50
    ∧ (∀ i, (compute exp s a b x0 x1).totalIterations ≤ i →
        (compute exp s a b x0 x1).iterations i = s.iterations i)
    ∧ (∀ i, i < (compute exp s a b x0 x1).totalIterations →
        ((compute exp s a b x0 x1).iterations i).iteration = i + 1) := by
  by_cases hb : f exp x0 a b * f exp x1 a b < 0
  · obtain ⟨n, hn, ht, -, hrows, hframe, -, -⟩ :=
      falsePosition_loop_rel exp MAX_ITER 0 ⟨x0, x1, f exp x0 a b, f exp x1 a b⟩
        { s with coefA := a, coefB := b, totalIterations := 0, hasValidRoot := 0 }
        { s with coefA := a, coefB := b, totalIterations := 0, hasValidRoot := 0 } _ _
        rfl rfl rfl rfl
    simp only [zero_add] at ht hrows hframe
    have hshape : ∀ r : State K,
        r.totalIterations = (loop exp MAX_ITER 0 x0 x1 (f exp x0 a b) (f exp x1 a b)
          { s with coefA := a, coefB := b, totalIterations := 0,
                   hasValidRoot := 0 }).totalIterations →
        r.iterations = (loop exp MAX_ITER 0 x0 x1 (f exp x0 a b) (f exp x1 a b)
          { s with coefA := a, coefB := b, totalIterations := 0,
                   hasValidRoot := 0 }).iterations →
        r.totalIterations ≤ 50
        ∧ (∀ i, r.totalIterations ≤ i → r.iterations i = s.iterations i)
        ∧ (∀ i, i < r.totalIterations → (r.iterations i).iteration = i + 1) := by
      intro r h1 h2
      rw [h1, h2, ht]
      refine ⟨hn, fun i hi => (hframe i (Or.inr hi)).1, fun i hi => ?_⟩
      exact (hrows i (Nat.zero_le i) hi).2
    rw [compute_of_bracket exp s a b x0 x1 hb]
    split_ifs
    · exact hshape _ rfl rfl
    · exact hshape _ rfl rfl
  · rw [compute_not_bracketed exp s a b x0 x1 (not_lt.mp hb)]
    refine ⟨Nat.zero_le 50, fun _ _ => rfl, fun i hi => absurd hi (Nat.not_lt_zero i)⟩

/-- A second COMPUTE click with the same inputs leaves the state as the first one did. -/
theorem falsePosition_compute_twice (exp : K → K) (s : State K) (a b x0 x1 : K) :
    compute exp (compute exp s a b x0 x1) a b x0 x1 = compute exp s a b x0 x1 := by
  by_cases hb : f exp x0 a b * f exp x1 a b < 0
  · have hfirst := compute_of_bracket exp s a b x0 x1 hb
    have hsecond := compute_of_bracket exp (compute exp s a b x0 x1) a b x0 x1 hb
    generalize compute exp (compute exp s a b x0 x1) a b x0 x1 = c2 at hsecond ⊢
    generalize compute exp s a b x0 x1 = c1 at hfirst hsecond ⊢
    generalize hr : loop exp MAX_ITER 0 x0 x1 (f exp x0 a b) (f exp x1 a b)
      { s with coefA := a, coefB := b, totalIterations := 0, hasValidRoot := 0 } = r at hfirst
    generalize hr' : loop exp MAX_ITER 0 x0 x1 (f exp x0 a b) (f exp x1 a b)
      { c1 with coefA := a, coefB := b, totalIterations := 0, hasValidRoot := 0 } = r'
      at hsecond
    obtain ⟨n, -, ht, ht', hrows, hframe, ⟨hcA, hcB, hcA', hcB'⟩, hout⟩ :=
      falsePosition_loop_rel exp MAX_ITER 0 ⟨x0, x1, f exp x0 a b, f exp x1 a b⟩
        { s with coefA := a, coefB := b, totalIterations := 0, hasValidRoot := 0 }
        { c1 with coefA := a, coefB := b, totalIterations := 0, hasValidRoot := 0 } r r'
        rfl rfl hr.symm hr'.symm
    simp only [zero_add] at ht ht' hrows hframe hcA hcB hcA' hcB' hout
    rcases hout with ⟨h1, h1', hroot, htext⟩ | ⟨h1, h1', hroot, hroot', htext, htext'⟩
    · rw [if_neg (by rw [h1]; exact Nat.one_ne_zero)] at hfirst
      rw [if_neg (by rw [h1']; exact Nat.one_ne_zero)] at hsecond
      subst hfirst hsecond
      apply falsePosition_state_ext
      · exact htext.symm
      · exact hroot.symm
      · rw [h1, h1']
      · rw [hcA, hcA']
      · rw [hcB, hcB']
      · intro i
        by_cases hi : i < n
        · exact ((hrows i (Nat.zero_le i) hi).1).symm
        · exact (hframe i (Or.inr (not_lt.mp hi))).2
      · rw [ht, ht']
    · rw [if_pos h1] at hfirst
      rw [if_pos h1'] at hsecond
      subst hfirst hsecond
      simp only at hroot' hframe
      apply falsePosition_state_ext
      · rfl
      · exact hroot'
      · show r'.hasValidRoot = r.hasValidRoot
        rw [h1, h1']
      · show r'.coefA = r.coefA
        rw [hcA, hcA']
      · show r'.coefB = r.coefB
        rw [hcB, hcB']
      · intro i
        show r'.iterations i = r.iterations i
        by_cases hi : i < n
        · exact ((hrows i (Nat.zero_le i) hi).1).symm
        · exact (hframe i (Or.inr (not_lt.mp hi))).2
      · show r'.totalIterations = r.totalIterations
        rw [ht, ht']
  · rw [compute_not_bracketed exp _ a b x0 x1 (not_lt.mp hb),
      compute_not_bracketed exp s a b x0 x1 (not_lt.mp hb)]

end FalsePosition

namespace FalsePosition

variable {K : Type} [LinearOrderedField K]

/-- On a bracketing pair the table has between 1 and 50 rows, each recorded row is the row
of the recurrence, and no row before it met the tolerance. -/
theorem falsePosition_compute_rows (exp : K → K) (s : State K) (a b x0 x1 : K)
    (hb : f exp x0 a b * f exp x1 a b < 0) :
    0 < (compute exp s a b x0 x1).totalIterations
    ∧ (compute exp s a b x0 x1).totalIterations ≤ 50
    ∧ ∀ i, i < (compute exp s a b x0 x1).totalIterations →
        (compute exp s a b x0 x1).iterations i = specRow exp a b x0 x1 i
        ∧ ∀ j, j < i → ¬ (specRow exp a b x0 x1 j).error < TOLERANCE := by
  obtain ⟨hconv, hnone⟩ := compute_bracketed exp s a b x0 x1 hb
  by_cases h : ∃ k, k < 50 ∧ (specRow exp a b x0 x1 k).error < TOLERANCE
  · have hmin : ∀ j, j < Nat.find h → ¬ (specRow exp a b x0 x1 j).error < TOLERANCE := by
      intro j hj hc
      exact Nat.find_min h hj ⟨Nat.lt_trans hj (Nat.find_spec h).1, hc⟩
    obtain ⟨-, -, -, ht, htrace⟩ :=
      hconv (Nat.find h) (Nat.find_spec h).1 (Nat.find_spec h).2 hmin
    have hk := (Nat.find_spec h).1
    unfold trace at htrace
    rw [ht] at htrace ⊢
    refine ⟨Nat.succ_pos _, hk, fun i hi => ⟨?_, fun j hj => ?_⟩⟩
    · exact List.map_inj_left.mp htrace i (List.mem_range.mpr hi)
    · exact hmin j (by omega)
  · have hn : ∀ j, j < 50 → ¬ (specRow exp a b x0 x1 j).error < TOLERANCE :=
      fun j hj hc => h ⟨j, hj, hc⟩
    obtain ⟨-, -, -, ht, htrace⟩ := hnone hn
    unfold trace at htrace
    rw [ht] at htrace ⊢
    refine ⟨by decide, Nat.le_refl 50, fun i hi => ⟨?_, fun j hj => ?_⟩⟩
    · exact List.map_inj_left.mp htrace i (List.mem_range.mpr hi)
    · exact hn j (by omega)

/-- One more step of the recurrence. -/
theorem specBracket_succ (exp : K → K) (a b x0 x1 : K) (n : Nat) :
    specBracket exp a b x0 x1 (n + 1) = specStep exp a b (specBracket exp a b x0 x1 n) := by
  simp only [specBracket, Function.iterate_succ_apply']

/-- The function values a bracket of the recurrence carries are the values of `f` at its
ends. -/
theorem specBracket_values (exp : K → K) (a b x0 x1 : K) (n : Nat) :
    (specBracket exp a b x0 x1 n).fx0 = f exp (specBracket exp a b x0 x1 n).x0 a b
    ∧ (specBracket exp a b x0 x1 n).fx1 = f exp (specBracket exp a b x0 x1 n).x1 a b := by
  induction n with
  | zero => exact ⟨rfl, rfl⟩
  | succ n ih =>
    rw [specBracket_succ]
    unfold specStep
    split_ifs
    · exact ⟨ih.1, rfl⟩
    · exact ⟨rfl, ih.2⟩

/-- The interpolated point of a bracket whose function values have opposite signs and whose
ends differ lies strictly between the ends. -/
theorem specX2_between (q : Bracket K) (hq : q.fx0 * q.fx1 < 0) (hne : q.x0 ≠ q.x1) :
    min q.x0 q.x1 < specX2 q ∧ specX2 q < max q.x0 q.x1 := by
  have hd : q.fx1 - q.fx0 ≠ 0 := by
    intro h0
    have heq : q.fx1 = q.fx0 := sub_eq_zero.mp h0
    rw [heq] at hq
    exact absurd hq (not_lt.mpr (mul_self_nonneg _))
  have ht : 0 < q.fx1 / (q.fx1 - q.fx0) ∧ q.fx1 / (q.fx1 - q.fx0) < 1 := by
    rcases mul_neg_iff.mp hq with ⟨hp, hn⟩ | ⟨hn, hp⟩
    · have hdn : q.fx1 - q.fx0 < 0 := by linarith
      refine ⟨div_pos_of_neg_of_neg hn hdn, ?_⟩
      rw [div_lt_one_of_neg hdn]
      linarith
    · have hdp : 0 < q.fx1 - q.fx0 := by linarith
      refine ⟨div_pos hp hdp, ?_⟩
      rw [div_lt_one hdp]
      linarith
  have hx2 : specX2 q = q.x1 - q.fx1 / (q.fx1 - q.fx0) * (q.x1 - q.x0) := by
    unfold specX2
    field_simp
  obtain ⟨ht0, ht1⟩ := ht
  rcases lt_or_gt_of_ne hne with hlt | hgt
  · rw [min_eq_left (le_of_lt hlt), max_eq_right (le_of_lt hlt), hx2]
    have hpos : 0 < q.x1 - q.x0 := by linarith
    constructor
    · nlinarith
    · nlinarith
  · rw [min_eq_right (le_of_lt hgt), max_eq_left (le_of_lt hgt), hx2]
    have hpos : 0 < q.x0 - q.x1 := by linarith
    constructor
    · nlinarith
    · nlinarith

/-- The ends of every bracket the loop uses are distinct and lie in the initial interval. -/
theorem specBracket_nested (exp : K → K) (a b x0 x1 : K)
    (hb : f exp x0 a b * f exp x1 a b < 0) (n : Nat)
    (hrun : ∀ j, j < n → ¬ (specRow exp a b x0 x1 j).error < TOLERANCE) :
    (specBracket exp a b x0 x1 n).x0 ≠ (specBracket exp a b x0 x1 n).x1
    ∧ min x0 x1 ≤ min (specBracket exp a b x0 x1 n).x0 (specBracket exp a b x0 x1 n).x1
    ∧ max (specBracket exp a b x0 x1 n).x0 (specBracket exp a b x0 x1 n).x1 ≤ max x0 x1 := by
  have hne : ∀ m, (∀ j, j < m → ¬ (specRow exp a b x0 x1 j).error < TOLERANCE) →
      (specBracket exp a b x0 x1 m).x0 ≠ (specBracket exp a b x0 x1 m).x1 := by
    intro m hm heq
    obtain ⟨hs, -⟩ := specBracket_opposite exp a b x0 x1 hb m hm
    obtain ⟨h0, h1⟩ := specBracket_values exp a b x0 x1 m
    rw [h0, h1, heq] at hs
    exact absurd hs (not_lt.mpr (mul_self_nonneg _))
  refine ⟨hne n hrun, ?_⟩
  induction n with
  | zero => exact ⟨le_refl _, le_refl _⟩
  | succ n ih =>
    have hrun' : ∀ j, j < n → ¬ (specRow exp a b x0 x1 j).error < TOLERANCE :=
      fun j hj => hrun j (Nat.lt_succ_of_lt hj)
    obtain ⟨hlo, hhi⟩ := ih hrun'
    obtain ⟨hs, -⟩ := specBracket_opposite exp a b x0 x1 hb n hrun'
    obtain ⟨hb1, hb2⟩ := specX2_between (specBracket exp a b x0 x1 n) hs (hne n hrun')
    rw [specBracket_succ]
    unfold specStep
    split_ifs
    · simp only
      constructor
      · exact le_trans hlo (le_min (min_le_left _ _) (le_of_lt hb1))
      · exact le_trans (max_le (le_max_left _ _) (le_of_lt hb2)) hhi
    · simp only
      constructor
      · exact le_trans hlo (le_min (le_of_lt hb1) (min_le_right _ _))
      · exact le_trans (max_le (le_of_lt hb2) (le_max_right _ _)) hhi

/-- The bracket invariant in exact arithmetic (no overflow, no rounding): for every input
that passes the bracket test and every recorded row of the table: the row's `fx0` and `fx1` are the values of `f` at its `x0` and `x1`, and they have strictly
opposite signs, `fx0 * fx1 < 0`. -/
theorem falsePosition_bracket_invariant (exp : K → K) (s : State K) (a b x0 x1 : K)
    (hb : f exp x0 a b * f exp x1 a b < 0) :
    ∀ i, i < (compute exp s a b x0 x1).totalIterations →
      ((compute exp s a b x0 x1).iterations i).fx0
          = f exp ((compute exp s a b x0 x1).iterations i).x0 a b
      ∧ ((compute exp s a b x0 x1).iterations i).fx1
          = f exp ((compute exp s a b x0 x1).iterations i).x1 a b
      ∧ ((compute exp s a b x0 x1).iterations i).fx0
          * ((compute exp s a b x0 x1).iterations i).fx1 < 0 := by
  intro i hi
  obtain ⟨hrow, hrun⟩ := (falsePosition_compute_rows exp s a b x0 x1 hb).2.2 i hi
  rw [hrow]
  obtain ⟨h0, h1⟩ := specBracket_values exp a b x0 x1 i
  exact ⟨h0, h1, (specBracket_opposite exp a b x0 x1 hb i hrun).1⟩

/-- An instance of `falsePosition_bracket_invariant`: `a = 0`, `b = 2`, `x0 = 0`, `x1 = 1`
over the reals passes the bracket test, the table has a first row, and its function values have opposite signs. -/
theorem falsePosition_bracket_invariant_witness :
    f Real.exp 0 0 2 * f Real.exp 1 0 2 < 0
    ∧ 0 < (compute Real.exp (initial (fun _ => ⟨0, 0, 0, 0, 0, 0, 0, 0⟩)) 0 2 0
        1).totalIterations
    ∧ ((compute Real.exp (initial (fun _ => ⟨0, 0, 0, 0, 0, 0, 0, 0⟩)) 0 2 0 1).iterations
          0).fx0
        * ((compute Real.exp (initial (fun _ => ⟨0, 0, 0, 0, 0, 0, 0, 0⟩)) 0 2 0
          1).iterations 0).fx1 < 0 :=
  have hpos := (falsePosition_compute_rows Real.exp (initial (fun _ => ⟨0, 0, 0, 0, 0, 0, 0, 0⟩)) 0 2 0 1
    exampleBracket).1
  ⟨exampleBracket, hpos,
    (falsePosition_bracket_invariant Real.exp (initial (fun _ => ⟨0, 0, 0, 0, 0, 0, 0, 0⟩))
      0 2 0 1 exampleBracket 0 hpos).2.2⟩

/-- The interpolated point in exact arithmetic (no overflow, no rounding): for every input
that passes the bracket test and every recorded row: the denominator `f(x1) - f(x0)` is not zero, the row's `x2` is the interpolated point
`x1 - f(x1) (x1 - x0) / (f(x1) - f(x0))`, it lies strictly between the row's `x0` and `x1`,
and strictly inside the initial interval. -/
theorem falsePosition_interpolation_inside (exp : K → K) (s : State K) (a b x0 x1 : K)
    (hb : f exp x0 a b * f exp x1 a b < 0) :
    ∀ i, i < (compute exp s a b x0 x1).totalIterations →
      f exp ((compute exp s a b x0 x1).iterations i).x1 a b
          - f exp ((compute exp s a b x0 x1).iterations i).x0 a b ≠ 0
      ∧ ((compute exp s a b x0 x1).iterations i).x2
          = ((compute exp s a b x0 x1).iterations i).x1
            - f exp ((compute exp s a b x0 x1).iterations i).x1 a b
              * (((compute exp s a b x0 x1).iterations i).x1
                  - ((compute exp s a b x0 x1).iterations i).x0)
              / (f exp ((compute exp s a b x0 x1).iterations i).x1 a b
                  - f exp ((compute exp s a b x0 x1).iterations i).x0 a b)
      ∧ min ((compute exp s a b x0 x1).iterations i).x0
            ((compute exp s a b x0 x1).iterations i).x1
          < ((compute exp s a b x0 x1).iterations i).x2
      ∧ ((compute exp s a b x0 x1).iterations i).x2
          < max ((compute exp s a b x0 x1).iterations i).x0
              ((compute exp s a b x0 x1).iterations i).x1
      ∧ min x0 x1 < ((compute exp s a b x0 x1).iterations i).x2
      ∧ ((compute exp s a b x0 x1).iterations i).x2 < max x0 x1 := by
  intro i hi
  obtain ⟨hrow, hrun⟩ := (falsePosition_compute_rows exp s a b x0 x1 hb).2.2 i hi
  rw [hrow]
  obtain ⟨h0, h1⟩ := specBracket_values exp a b x0 x1 i
  obtain ⟨hs, hd⟩ := specBracket_opposite exp a b x0 x1 hb i hrun
  obtain ⟨hne, hlo, hhi⟩ := specBracket_nested exp a b x0 x1 hb i hrun
  obtain ⟨hb1, hb2⟩ := specX2_between (specBracket exp a b x0 x1 i) hs hne
  show f exp (specBracket exp a b x0 x1 i).x1 a b
        - f exp (specBracket exp a b x0 x1 i).x0 a b ≠ 0
      ∧ specX2 (specBracket exp a b x0 x1 i)
          = (specBracket exp a b x0 x1 i).x1
            - f exp (specBracket exp a b x0 x1 i).x1 a b
              * ((specBracket exp a b x0 x1 i).x1 - (specBracket exp a b x0 x1 i).x0)
              / (f exp (specBracket exp a b x0 x1 i).x1 a b
                  - f exp (specBracket exp a b x0 x1 i).x0 a b)
      ∧ min (specBracket exp a b x0 x1 i).x0 (specBracket exp a b x0 x1 i).x1
          < specX2 (specBracket exp a b x0 x1 i)
      ∧ specX2 (specBracket exp a b x0 x1 i)
          < max (specBracket exp a b x0 x1 i).x0 (specBracket exp a b x0 x1 i).x1
      ∧ min x0 x1 < specX2 (specBracket exp a b x0 x1 i)
      ∧ specX2 (specBracket exp a b x0 x1 i) < max x0 x1
  rw [← h0, ← h1]
  exact ⟨hd, rfl, hb1, hb2, lt_of_le_of_lt hlo hb1, lt_of_lt_of_le hb2 hhi⟩

/-- An instance of `falsePosition_interpolation_inside`: `a = 0`, `b = 2`, `x0 = 0`,
`x1 = 1` over the reals passes the bracket test, and the `x2` of the first row lies strictly between 0 and 1. -/
theorem falsePosition_interpolation_inside_witness :
    f Real.exp 0 0 2 * f Real.exp 1 0 2 < 0
    ∧ 0 < (compute Real.exp (initial (fun _ => ⟨0, 0, 0, 0, 0, 0, 0, 0⟩)) 0 2 0
        1).totalIterations
    ∧ min (0 : ℝ) 1
        < ((compute Real.exp (initial (fun _ => ⟨0, 0, 0, 0, 0, 0, 0, 0⟩)) 0 2 0
          1).iterations 0).x2
    ∧ ((compute Real.exp (initial (fun _ => ⟨0, 0, 0, 0, 0, 0, 0, 0⟩)) 0 2 0
          1).iterations 0).x2 < max (0 : ℝ) 1 :=
  have hpos := (falsePosition_compute_rows Real.exp (initial (fun _ => ⟨0, 0, 0, 0, 0, 0, 0, 0⟩)) 0 2 0 1
    exampleBracket).1
  have h := falsePosition_interpolation_inside Real.exp
    (initial (fun _ => ⟨0, 0, 0, 0, 0, 0, 0, 0⟩)) 0 2 0 1 exampleBracket 0 hpos
  ⟨exampleBracket, hpos, h.2.2.2.2.1, h.2.2.2.2.2⟩

end FalsePosition

namespace FalsePosition

variable {K : Type} [LinearOrderedField K]

/-- The bracket update in exact arithmetic (no overflow, no rounding): for every input that
passes the bracket test and every recorded row that did not meet the tolerance (the rows after which the bracket is updated): the row's `fx0` and `fx2`
are the values of `f` at its `x0` and `x2`, their product is not zero, so the else branch of
the test `fx0 * fx2 < 0` is taken only with `fx0 * fx2 > 0`; and the next recorded row starts
from the bracket that test selects. -/
theorem falsePosition_update_no_tie (exp : K → K) (s : State K) (a b x0 x1 : K)
    (hb : f exp x0 a b * f exp x1 a b < 0) :
    ∀ i, i < (compute exp s a b x0 x1).totalIterations →
      ¬ ((compute exp s a b x0 x1).iterations i).error < TOLERANCE →
      ((compute exp s a b x0 x1).iterations i).fx0
          = f exp ((compute exp s a b x0 x1).iterations i).x0 a b
      ∧ ((compute exp s a b x0 x1).iterations i).fx2
          = f exp ((compute exp s a b x0 x1).iterations i).x2 a b
      ∧ ((compute exp s a b x0 x1).iterations i).fx0
          * ((compute exp s a b x0 x1).iterations i).fx2 ≠ 0
      ∧ (¬ ((compute exp s a b x0 x1).iterations i).fx0
            * ((compute exp s a b x0 x1).iterations i).fx2 < 0 →
          0 < ((compute exp s a b x0 x1).iterations i).fx0
            * ((compute exp s a b x0 x1).iterations i).fx2)
      ∧ (i + 1 < (compute exp s a b x0 x1).totalIterations →
          if ((compute exp s a b x0 x1).iterations i).fx0
              * ((compute exp s a b x0 x1).iterations i).fx2 < 0 then
            ((compute exp s a b x0 x1).iterations (i + 1)).x0
                = ((compute exp s a b x0 x1).iterations i).x0
            ∧ ((compute exp s a b x0 x1).iterations (i + 1)).x1
                = ((compute exp s a b x0 x1).iterations i).x2
          else
            ((compute exp s a b x0 x1).iterations (i + 1)).x0
                = ((compute exp s a b x0 x1).iterations i).x2
            ∧ ((compute exp s a b x0 x1).iterations (i + 1)).x1
                = ((compute exp s a b x0 x1).iterations i).x1) := by
  intro i hi
  obtain ⟨hrow, hrun⟩ := (falsePosition_compute_rows exp s a b x0 x1 hb).2.2 i hi
  rw [hrow]
  intro herr
  obtain ⟨h0, -⟩ := specBracket_values exp a b x0 x1 i
  obtain ⟨hs, -⟩ := specBracket_opposite exp a b x0 x1 hb i hrun
  have htol : (0 : K) < TOLERANCE := by unfold TOLERANCE; positivity
  have hfx2 : f exp (specX2 (specBracket exp a b x0 x1 i)) a b ≠ 0 := by
    intro hz
    apply herr
    show |f exp (specX2 (specBracket exp a b x0 x1 i)) a b| < TOLERANCE
    rw [hz, abs_zero]
    exact htol
  have hfx0 : (specBracket exp a b x0 x1 i).fx0 ≠ 0 := by
    intro hz
    rw [hz, zero_mul] at hs
    exact lt_irrefl _ hs
  have hprod : (specBracket exp a b x0 x1 i).fx0
      * f exp (specX2 (specBracket exp a b x0 x1 i)) a b ≠ 0 := mul_ne_zero hfx0 hfx2
  refine ⟨h0, rfl, hprod, fun hn => lt_of_le_of_ne (not_lt.mp hn) (Ne.symm hprod), ?_⟩
  intro hnext
  rw [((falsePosition_compute_rows exp s a b x0 x1 hb).2.2 (i + 1) hnext).1]
  show if (specBracket exp a b x0 x1 i).fx0
        * f exp (specX2 (specBracket exp a b x0 x1 i)) a b < 0 then
      (specBracket exp a b x0 x1 (i + 1)).x0 = (specBracket exp a b x0 x1 i).x0
      ∧ (specBracket exp a b x0 x1 (i + 1)).x1 = specX2 (specBracket exp a b x0 x1 i)
    else
      (specBracket exp a b x0 x1 (i + 1)).x0 = specX2 (specBracket exp a b x0 x1 i)
      ∧ (specBracket exp a b x0 x1 (i + 1)).x1 = (specBracket exp a b x0 x1 i).x1
  rw [specBracket_succ]
  unfold specStep
  split_ifs
  · exact ⟨rfl, rfl⟩
  · exact ⟨rfl, rfl⟩

/-- The pair `x0 = -1`, `x1 = 1` brackets a root of `e^x - cosh 1`, the first interpolated
point is `0`, and `f(0) = 1 - cosh 1` misses the tolerance. -/
theorem exampleUpdate :
    f Real.exp (-1) 0 ((Real.exp 1 + Real.exp (-1)) / 2)
        * f Real.exp 1 0 ((Real.exp 1 + Real.exp (-1)) / 2) < 0
    ∧ ¬ (specRow Real.exp 0 ((Real.exp 1 + Real.exp (-1)) / 2) (-1) 1 0).error < TOLERANCE := by
  have hlt : Real.exp (-1) < Real.exp 1 := Real.exp_lt_exp.mpr (by norm_num)
  have hpos : 0 < Real.exp (-1) := Real.exp_pos (-1)
  have he : (2.7182818283 : ℝ) < Real.exp 1 := Real.exp_one_gt_d9
  have hx2 : specX2 (specBracket Real.exp 0 ((Real.exp 1 + Real.exp (-1)) / 2) (-1) 1 0)
      = 0 := by
    have hd : Real.exp 1 - Real.exp (-1) ≠ 0 := ne_of_gt (by linarith)
    have hden : Real.exp 1 - (Real.exp 1 + Real.exp (-1)) / 2
        - (Real.exp (-1) - (Real.exp 1 + Real.exp (-1)) / 2)
        = Real.exp 1 - Real.exp (-1) := by ring
    have hnum : (Real.exp 1 - (Real.exp 1 + Real.exp (-1)) / 2) * (1 - -1)
        = Real.exp 1 - Real.exp (-1) := by ring
    simp only [specBracket, Function.iterate_zero, id_eq, specX2, f, zero_mul, sub_zero]
    rw [hden, hnum, div_self hd, sub_self]
  constructor
  · simp only [f, zero_mul, sub_zero]
    nlinarith
  · show ¬ |f Real.exp
        (specX2 (specBracket Real.exp 0 ((Real.exp 1 + Real.exp (-1)) / 2) (-1) 1 0)) 0
        ((Real.exp 1 + Real.exp (-1)) / 2)| < TOLERANCE
    rw [hx2]
    simp only [f, Real.exp_zero, zero_mul, sub_zero, TOLERANCE]
    rw [abs_lt]
    intro h
    norm_num at he
    linarith [h.1]

/-- An instance of `falsePosition_update_no_tie`: `a = 0`, `b = cosh 1`, `x0 = -1`,
`x1 = 1` over the reals passes the bracket test; the first row does not meet the tolerance, and its `fx0 * fx2` is not zero. -/
theorem falsePosition_update_no_tie_witness :
    f Real.exp (-1) 0 ((Real.exp 1 + Real.exp (-1)) / 2)
        * f Real.exp 1 0 ((Real.exp 1 + Real.exp (-1)) / 2) < 0
    ∧ 0 < (compute Real.exp (initial (fun _ => ⟨0, 0, 0, 0, 0, 0, 0, 0⟩)) 0
        ((Real.exp 1 + Real.exp (-1)) / 2) (-1) 1).totalIterations
    ∧ ¬ ((compute Real.exp (initial (fun _ => ⟨0, 0, 0, 0, 0, 0, 0, 0⟩)) 0
        ((Real.exp 1 + Real.exp (-1)) / 2) (-1) 1).iterations 0).error < TOLERANCE
    ∧ ((compute Real.exp (initial (fun _ => ⟨0, 0, 0, 0, 0, 0, 0, 0⟩)) 0
        ((Real.exp 1 + Real.exp (-1)) / 2) (-1) 1).iterations 0).fx0
      * ((compute Real.exp (initial (fun _ => ⟨0, 0, 0, 0, 0, 0, 0, 0⟩)) 0
        ((Real.exp 1 + Real.exp (-1)) / 2) (-1) 1).iterations 0).fx2 ≠ 0 :=
  have hrows := falsePosition_compute_rows Real.exp (initial (fun _ => ⟨0, 0, 0, 0, 0, 0, 0, 0⟩)) 0
    ((Real.exp 1 + Real.exp (-1)) / 2) (-1) 1 exampleUpdate.1
  have herr : ¬ ((compute Real.exp (initial (fun _ => ⟨0, 0, 0, 0, 0, 0, 0, 0⟩)) 0
      ((Real.exp 1 + Real.exp (-1)) / 2) (-1) 1).iterations 0).error < TOLERANCE := by
    rw [(hrows.2.2 0 hrows.1).1]
    exact exampleUpdate.2
  ⟨exampleUpdate.1, hrows.1, herr,
    (falsePosition_update_no_tie Real.exp (initial (fun _ => ⟨0, 0, 0, 0, 0, 0, 0, 0⟩)) 0
      ((Real.exp 1 + Real.exp (-1)) / 2) (-1) 1 exampleUpdate.1 0 hrows.1 herr).2.2.1⟩

end FalsePosition


namespace FixedPoint

variable {K : Type} [LinearOrderedField K]

/-- Two runs with the same five fields are the same run. -/
theorem fixedPoint_run_ext (s t : Run K) (h1 : s.resultText = t.resultText)
    (h2 : s.finalRoot = t.finalRoot) (h3 : s.hasValidRoot = t.hasValidRoot)
    (h4 : ∀ i, s.iterations i = t.iterations i)
    (h5 : s.totalIterations = t.totalIterations) : s = t := by
  have h4' : s.iterations = t.iterations := funext h4
  cases s
  cases t
  simp only at h1 h2 h3 h4' h5
  subst h1 h2 h3 h4' h5
  rfl

/-- The loop run from two states: both runs leave with the same `x_current` and the same
flag, execute the same number `n ≤ fuel` of iterations, write the same rows at the indices
`iter .. iter + n - 1` and leave every other row alone. -/
theorem fixedPoint_loop_rel (g : K → Dbl K) (fuel : Nat) :
    ∀ (iter : Nat) (x : K) (s s' : Run K) (out out' : LoopExit K),
      out = loop g fuel iter x s → out' = loop g fuel iter x s' →
      out.x_current = out'.x_current ∧ out.diverged = out'.diverged
      ∧ ∃ n, n ≤ fuel
        ∧ out.run.totalIterations = s.totalIterations + n
        ∧ out'.run.totalIterations = s'.totalIterations + n
        ∧ (∀ i, iter ≤ i → i < iter + n → out.run.iterations i = out'.run.iterations i)
        ∧ (∀ i, (i < iter ∨ iter + n ≤ i) →
            out.run.iterations i = s.iterations i ∧ out'.run.iterations i = s'.iterations i)
        := by
  induction fuel with
  | zero =>
    intro iter x s s' out out' ho ho'
    subst ho ho'
    refine ⟨rfl, rfl, 0, Nat.le_refl 0, rfl, rfl, ?_, fun _ _ => ⟨rfl, rfl⟩⟩
    intro i h1 h2
    omega
  | succ m ih =>
    intro iter x s s' out out' ho ho'
    have hone : ∀ (t t' : Run K) (o o' : LoopExit K) (y : K) (d : Nat),
        o = ⟨y, d, { t with
          iterations := Function.update t.iterations iter ⟨x, g x, (g x).fabsSub x⟩,
          totalIterations := t.totalIterations + 1 }⟩ →
        o' = ⟨y, d, { t' with
          iterations := Function.update t'.iterations iter ⟨x, g x, (g x).fabsSub x⟩,
          totalIterations := t'.totalIterations + 1 }⟩ →
        o.x_current = o'.x_current ∧ o.diverged = o'.diverged
        ∧ ∃ n, n ≤ m + 1
          ∧ o.run.totalIterations = t.totalIterations + n
          ∧ o'.run.totalIterations = t'.totalIterations + n
          ∧ (∀ i, iter ≤ i → i < iter + n → o.run.iterations i = o'.run.iterations i)
          ∧ (∀ i, (i < iter ∨ iter + n ≤ i) →
              o.run.iterations i = t.iterations i ∧ o'.run.iterations i = t'.iterations i) := by
      intro t t' o o' y d h h'
      subst h h'
      refine ⟨rfl, rfl, 1, Nat.succ_le_succ (Nat.zero_le m), rfl, rfl, ?_, ?_⟩
      · intro i h1 h2
        have hi : i = iter := by omega
        subst hi
        simp only [Function.update_same]
      · intro i hi
        have hne : i ≠ iter := by omega
        exact ⟨Function.update_noteq hne _ _, Function.update_noteq hne _ _⟩
    rcases divergent_or_fin (g x) with hd | ⟨v, hg, hv⟩
    · rw [loop_succ_divergent g m iter x _ hd] at ho ho'
      exact hone s s' out out' x 1 ho ho'
    · rw [loop_succ_fin g m iter x v _ hg hv] at ho ho'
      by_cases ht : |v - x| < TOLERANCE
      · rw [if_pos ht] at ho ho'
        exact hone s s' out out' v 0 ho ho'
      · rw [if_neg ht] at ho ho'
        obtain ⟨hx, hdv, n, hn, hc, hc', hrows, hframe⟩ :=
          ih (iter + 1) v
            { s with
              iterations := Function.update s.iterations iter ⟨x, g x, (g x).fabsSub x⟩,
              totalIterations := s.totalIterations + 1 }
            { s' with
              iterations := Function.update s'.iterations iter ⟨x, g x, (g x).fabsSub x⟩,
              totalIterations := s'.totalIterations + 1 } out out' ho ho'
        have hrow0 := hframe iter (Or.inl (Nat.lt_succ_self iter))
        simp only [Function.update_same] at hrow0
        refine ⟨hx, hdv, n + 1, Nat.succ_le_succ hn, ?_, ?_, ?_, ?_⟩
        · rw [hc]; simp only; omega
        · rw [hc']; simp only; omega
        · intro i h1 h2
          by_cases hi : i = iter
          · subst hi
            rw [hrow0.1, hrow0.2]
          · exact hrows i (by omega) (by omega)
        · intro i hi
          have hne : i ≠ iter := by omega
          obtain ⟨e1, e2⟩ := hframe i (by omega)
          rw [e1, e2]
          exact ⟨Function.update_noteq hne _ _, Function.update_noteq hne _ _⟩

/-- The solver block in terms of the exit of its loop. -/
theorem solve_of_loop (g : K → Dbl K) (f : K → K) (x0 : K) (s : Run K) (out : LoopExit K)
    (ho : out = loop g MAX_ITER 0 x0 (resetCount s)) :
    solve g f x0 s =
      if out.diverged ≠ 0 ∨ |f out.x_current| > 1 / 10 then
        { out.run with finalRoot := out.x_current,
                       resultText := .failed (decide (out.diverged ≠ 0)),
                       hasValidRoot := 0 }
      else
        { out.run with finalRoot := out.x_current,
                       resultText := .success out.x_current out.run.totalIterations,
                       hasValidRoot := 1 } := by
  subst ho
  rfl

/-- The number of rows of a run of the solver block is at most 50, and no row at an index
beyond the rows of the table is written. -/
theorem fixedPoint_solve_shape (g : K → Dbl K) (f : K → K) (x0 : K) (s : Run K) :
    (solve g f x0 s).totalIterations ≤ 50
    ∧ ∀ i, (solve g f x0 s).totalIterations ≤ i →
        (solve g f x0 s).iterations i = s.iterations i := by
  generalize ho : loop g MAX_ITER 0 x0 (resetCount s) = out
  obtain ⟨-, -, n, hn, hc, -, -, hframe⟩ :=
    fixedPoint_loop_rel g MAX_ITER 0 x0 (resetCount s) (resetCount s) out out ho.symm ho.symm
  have hc0 : out.run.totalIterations = n := by
    rw [hc]; show 0 + n = n; omega
  rw [solve_of_loop g f x0 s out ho.symm]
  split_ifs
  · refine ⟨?_, fun i hi => ?_⟩
    · show out.run.totalIterations ≤ 50
      rw [hc0]; exact hn
    · have hi' : out.run.totalIterations ≤ i := hi
      rw [hc0] at hi'
      exact (hframe i (Or.inr (by omega))).1
  · refine ⟨?_, fun i hi => ?_⟩
    · show out.run.totalIterations ≤ 50
      rw [hc0]; exact hn
    · have hi' : out.run.totalIterations ≤ i := hi
      rw [hc0] at hi'
      exact (hframe i (Or.inr (by omega))).1

/-- Running the solver block a second time with the same `g`, `f` and `x0` leaves the
variables as the first run did. -/
theorem fixedPoint_solve_twice (g : K → Dbl K) (f : K → K) (x0 : K) (s : Run K) :
    solve g f x0 (solve g f x0 s) = solve g f x0 s := by
  generalize ho : loop g MAX_ITER 0 x0 (resetCount s) = out
  have hfirst := solve_of_loop g f x0 s out ho.symm
  generalize solve g f x0 s = t at hfirst ⊢
  generalize ho' : loop g MAX_ITER 0 x0 (resetCount t) = out'
  rw [solve_of_loop g f x0 t out' ho'.symm]
  obtain ⟨hx, hd, n, -, hc, hc', hrows, hframe⟩ :=
    fixedPoint_loop_rel g MAX_ITER 0 x0 (resetCount s) (resetCount t) out out' ho.symm ho'.symm
  have hc0 : out.run.totalIterations = n := by
    rw [hc]; show 0 + n = n; omega
  have hc0' : out'.run.totalIterations = n := by
    rw [hc']; show 0 + n = n; omega
  have hits : ∀ i, out'.run.iterations i = if i < n then out.run.iterations i
      else t.iterations i := by
    intro i
    by_cases hi : i < n
    · rw [if_pos hi]; exact (hrows i (Nat.zero_le i) (by omega)).symm
    · rw [if_neg hi]; exact (hframe i (Or.inr (by omega))).2
  rw [← hx, ← hd, hc0', ← hc0]
  by_cases hcond : out.diverged ≠ 0 ∨ |f out.x_current| > 1 / 10
  · rw [if_pos hcond] at hfirst ⊢
    subst hfirst
    apply fixedPoint_run_ext
    · rfl
    · rfl
    · rfl
    · intro i
      show out'.run.iterations i = out.run.iterations i
      rw [hits i]
      split_ifs <;> rfl
    · show out'.run.totalIterations = out.run.totalIterations
      rw [hc0, hc0']
  · rw [if_neg hcond] at hfirst ⊢
    subst hfirst
    apply fixedPoint_run_ext
    · rfl
    · rfl
    · rfl
    · intro i
      show out'.run.iterations i = out.run.iterations i
      rw [hits i]
      split_ifs <;> rfl
    · show out'.run.totalIterations = out.run.totalIterations
      rw [hc0, hc0']

end FixedPoint

namespace Secant

variable {K : Type} [LinearOrderedField K]

/-- Two states with the same eight fields are the same state. -/
theorem secant_state_ext (s t : State K) (h1 : ∀ i, s.iterations i = t.iterations i)
    (h2 : s.iterationCount = t.iterationCount) (h3 : s.hasResult = t.hasResult)
    (h4 : s.root = t.root) (h5 : s.a_val = t.a_val) (h6 : s.b_val = t.b_val)
    (h7 : s.statusMsg = t.statusMsg) (h8 : s.statusSuccess = t.statusSuccess) : s = t := by
  have h1' : s.iterations = t.iterations := funext h1
  cases s
  cases t
  simp only at h1' h2 h3 h4 h5 h6 h7 h8
  subst h1' h2 h3 h4 h5 h6 h7 h8
  rfl

/-- The loop run from two states with the same coefficients and the same row count: both
runs leave with the same flag, record the same number `n ≤ fuel` of rows, write the same
rows at the indices `iterationCount .. iterationCount + n - 1` (the `j`-th of them carrying
the iteration number `iter + j + 1`), leave every other row and the coefficients alone, and
either converge with the same root, flags and status or leave `root`, `hasResult` and
`statusSuccess` untouched, with the same status or the status untouched. -/
theorem secant_loop_rel (exp : K → K) (fuel : Nat) :
    ∀ (iter : Nat) (w : Window K) (s s' : State K) (out out' : LoopExit K),
      s.a_val = s'.a_val → s.b_val = s'.b_val → s.iterationCount = s'.iterationCount →
      out = loop exp fuel iter w.x_prev w.x_curr w.f_prev w.f_curr s →
      out' = loop exp fuel iter w.x_prev w.x_curr w.f_prev w.f_curr s' →
      out.converged = out'.converged
      ∧ ∃ n, n ≤ fuel
        ∧ out.st.iterationCount = s.iterationCount + n
        ∧ out'.st.iterationCount = s.iterationCount + n
        ∧ (∀ j, j < n →
            out.st.iterations (s.iterationCount + j) = out'.st.iterations (s.iterationCount + j)
            ∧ (out.st.iterations (s.iterationCount + j)).n = iter + j + 1)
        ∧ (∀ i, (i < s.iterationCount ∨ s.iterationCount + n ≤ i) →
            out.st.iterations i = s.iterations i ∧ out'.st.iterations i = s'.iterations i)
        ∧ (out.st.a_val = s.a_val ∧ out.st.b_val = s.b_val
            ∧ out'.st.a_val = s'.a_val ∧ out'.st.b_val = s'.b_val)
        ∧ ((out.converged = 1 ∧ out.st.root = out'.st.root
              ∧ out.st.hasResult = out'.st.hasResult
              ∧ out.st.statusSuccess = out'.st.statusSuccess
              ∧ out.st.statusMsg = out'.st.statusMsg)
          ∨ (out.converged = 0
              ∧ out.st.root = s.root ∧ out'.st.root = s'.root
              ∧ out.st.hasResult = s.hasResult ∧ out'.st.hasResult = s'.hasResult
              ∧ out.st.statusSuccess = s.statusSuccess
              ∧ out'.st.statusSuccess = s'.statusSuccess
              ∧ (out.st.statusMsg = out'.st.statusMsg
                ∨ (out.st.statusMsg = s.statusMsg ∧ out'.st.statusMsg = s'.statusMsg)))) := by
  induction fuel with
  | zero =>
    intro iter w s s' out out' _ _ _ ho ho'
    subst ho ho'
    refine ⟨rfl, 0, Nat.le_refl 0, rfl, ?_, ?_, fun _ _ => ⟨rfl, rfl⟩, ⟨rfl, rfl, rfl, rfl⟩,
      Or.inr ⟨rfl, rfl, rfl, rfl, rfl, rfl, rfl, Or.inr ⟨rfl, rfl⟩⟩⟩
    · show s'.iterationCount = s.iterationCount + 0
      omega
    · intro j hj
      omega
  | succ m ih =>
    intro iter w s s' out out' hA hB hC ho ho'
    rw [secant_loop_succ] at ho ho'
    rw [← hA, ← hB, ← hC] at ho'
    by_cases hg : guardTrips w
    · rw [if_pos hg] at ho ho'
      subst ho ho'
      refine ⟨rfl, 0, Nat.zero_le _, rfl, rfl, ?_, fun _ _ => ⟨rfl, rfl⟩, ⟨rfl, rfl, hA, hB⟩,
        Or.inr ⟨rfl, rfl, rfl, rfl, rfl, rfl, rfl, Or.inl rfl⟩⟩
      intro j hj
      omega
    · rw [if_neg hg] at ho ho'
      by_cases hc : converges exp s.a_val s.b_val w
      · rw [if_pos hc] at ho ho'
        subst ho ho'
        refine ⟨rfl, 1, Nat.succ_le_succ (Nat.zero_le m), rfl, rfl, ?_, ?_,
          ⟨rfl, rfl, hA, hB⟩, Or.inl ⟨rfl, rfl, rfl, rfl, rfl⟩⟩
        · intro j hj
          have hj0 : j = 0 := by omega
          subst hj0
          simp only [Nat.add_zero, Function.update_same]
          exact ⟨trivial, rfl⟩
        · intro i hi
          have hne : i ≠ s.iterationCount := by omega
          exact ⟨Function.update_noteq hne _ _, Function.update_noteq hne _ _⟩
      · rw [if_neg hc] at ho ho'
        obtain ⟨hcv, n, hn, hcnt, hcnt', hrows, hframe, ⟨hcA, hcB, hcA', hcB'⟩, hout⟩ :=
          ih (iter + 1) (specShift exp s.a_val s.b_val w)
            { s with
              iterations := Function.update s.iterations s.iterationCount (rowOf iter w),
              iterationCount := s.iterationCount + 1 }
            { s' with
              a_val := s.a_val, b_val := s.b_val,
              iterations := Function.update s'.iterations s.iterationCount (rowOf iter w),
              iterationCount := s.iterationCount + 1 } out out' rfl rfl rfl ho ho'
        simp only at hcnt hcnt' hrows hframe
        have hrow0 := hframe s.iterationCount (Or.inl (Nat.lt_succ_self _))
        simp only [Function.update_same] at hrow0
        refine ⟨hcv, n + 1, Nat.succ_le_succ hn, ?_, ?_, ?_, ?_,
          ⟨hcA, hcB, hcA'.trans hA, hcB'.trans hB⟩, ?_⟩
        · rw [hcnt]; omega
        · rw [hcnt']; omega
        · intro j hj
          cases j with
          | zero =>
            simp only [Nat.add_zero]
            rw [hrow0.1, hrow0.2]
            exact ⟨rfl, rfl⟩
          | succ j =>
            have := hrows j (by omega)
            rw [show s.iterationCount + (j + 1) = s.iterationCount + 1 + j by omega,
              show iter + (j + 1) + 1 = iter + 1 + j + 1 by omega]
            exact this
        · intro i hi
          have hne : i ≠ s.iterationCount := by omega
          obtain ⟨e1, e2⟩ := hframe i (by omega)
          rw [e1, e2]
          exact ⟨Function.update_noteq hne _ _, Function.update_noteq hne _ _⟩
        · rcases hout with h | h
          · exact Or.inl h
          · exact Or.inr h

/-- The handler in terms of the exit of its loop, on two distinct guesses. -/
theorem compute_of_loop (exp : K → K) (s : State K) (a b x0 x1 : K)
    (h01 : ¬ |x1 - x0| < tiny) (out : LoopExit K)
    (ho : out = loop exp MAX_ITERATIONS 0 x0 x1 (function exp x0 a b) (function exp x1 a b)
            { s with a_val := a, b_val := b, hasResult := 0, iterationCount := 0,
                     statusSuccess := 0 }) :
    compute exp s a b x0 x1 =
      if out.converged = 0 ∧ out.st.iterationCount > 0 then
        { out.st with statusMsg := .didNotConverge MAX_ITERATIONS }
      else out.st := by
  subst ho
  exact compute_distinct exp s a b x0 x1 h01

/-- The handler on two guesses that the first test rejects. -/
theorem compute_identical (exp : K → K) (s : State K) (a b x0 x1 : K)
    (h : |x1 - x0| < tiny) :
    compute exp s a b x0 x1 =
      { s with a_val := a, b_val := b, hasResult := 0, iterationCount := 0,
               statusSuccess := 0, statusMsg := .errorIdenticalGuesses } := by
  simp only [compute, h, if_true]

/-- The number of rows, the rows beyond the table and the iteration numbers of a run of the
handler: at most 100 rows, no row at an index beyond the rows of the table is written, and
row `i` of the table carries the iteration number `i + 1`. -/
theorem secant_compute_shape (exp : K → K) (s : State K) (a b x0 x1 : K) :
    (compute exp s a b x0 x1).iterationCount ≤ 100
    ∧ (∀ i, (compute exp s a b x0 x1).iterationCount ≤ i →
        (compute exp s a b x0 x1).iterations i = s.iterations i)
    ∧ (∀ i, i < (compute exp s a b x0 x1).iterationCount →
        ((compute exp s a b x0 x1).iterations i).n = i + 1) := by
  by_cases h01 : |x1 - x0| < tiny
  · rw [compute_identical exp s a b x0 x1 h01]
    exact ⟨Nat.zero_le 100, fun _ _ => rfl, fun i hi => absurd hi (Nat.not_lt_zero i)⟩
  · generalize ho : loop exp MAX_ITERATIONS 0 x0 x1 (function exp x0 a b)
      (function exp x1 a b)
      { s with a_val := a, b_val := b, hasResult := 0, iterationCount := 0,
               statusSuccess := 0 } = out
    obtain ⟨-, n, hn, hcnt, -, hrows, hframe, -, -⟩ :=
      secant_loop_rel exp MAX_ITERATIONS 0 ⟨x0, x1, function exp x0 a b, function exp x1 a b⟩
        { s with a_val := a, b_val := b, hasResult := 0, iterationCount := 0,
                 statusSuccess := 0 }
        { s with a_val := a, b_val := b, hasResult := 0, iterationCount := 0,
                 statusSuccess := 0 } out out rfl rfl rfl ho.symm ho.symm
    simp only [zero_add] at hcnt hrows hframe
    have hshape : ∀ r : State K, r.iterationCount = out.st.iterationCount →
        r.iterations = out.st.iterations →
        r.iterationCount ≤ 100
        ∧ (∀ i, r.iterationCount ≤ i → r.iterations i = s.iterations i)
        ∧ (∀ i, i < r.iterationCount → (r.iterations i).n = i + 1) := by
      intro r h1 h2
      rw [h1, h2, hcnt]
      exact ⟨hn, fun i hi => (hframe i (Or.inr hi)).1, fun i hi => (hrows i hi).2⟩
    rw [compute_of_loop exp s a b x0 x1 h01 out ho.symm]
    split_ifs
    · exact hshape _ rfl rfl
    · exact hshape _ rfl rfl

/-- A second COMPUTE click with the same inputs leaves the state as the first one did. -/
theorem secant_compute_twice (exp : K → K) (s : State K) (a b x0 x1 : K) :
    compute exp (compute exp s a b x0 x1) a b x0 x1 = compute exp s a b x0 x1 := by
  by_cases h01 : |x1 - x0| < tiny
  · rw [compute_identical exp _ a b x0 x1 h01, compute_identical exp s a b x0 x1 h01]
  · generalize ho : loop exp MAX_ITERATIONS 0 x0 x1 (function exp x0 a b)
      (function exp x1 a b)
      { s with a_val := a, b_val := b, hasResult := 0, iterationCount := 0,
               statusSuccess := 0 } = out
    have hfirst := compute_of_loop exp s a b x0 x1 h01 out ho.symm
    generalize compute exp s a b x0 x1 = t at hfirst ⊢
    generalize ho' : loop exp MAX_ITERATIONS 0 x0 x1 (function exp x0 a b)
      (function exp x1 a b)
      { t with a_val := a, b_val := b, hasResult := 0, iterationCount := 0,
               statusSuccess := 0 } = out'
    rw [compute_of_loop exp t a b x0 x1 h01 out' ho'.symm]
    obtain ⟨hcv, n, -, hcnt, hcnt', hrows, hframe, ⟨hcA, hcB, hcA', hcB'⟩, hout⟩ :=
      secant_loop_rel exp MAX_ITERATIONS 0 ⟨x0, x1, function exp x0 a b, function exp x1 a b⟩
        { s with a_val := a, b_val := b, hasResult := 0, iterationCount := 0,
                 statusSuccess := 0 }
        { t with a_val := a, b_val := b, hasResult := 0, iterationCount := 0,
                 statusSuccess := 0 } out out' rfl rfl rfl ho.symm ho'.symm
    simp only [zero_add] at hcnt hcnt' hrows hframe hcA hcB hcA' hcB' hout
    have hits : ∀ i, out'.st.iterations i = if i < n then out.st.iterations i
        else t.iterations i := by
      intro i
      by_cases hi : i < n
      · rw [if_pos hi]; exact ((hrows i hi).1).symm
      · rw [if_neg hi]; exact (hframe i (Or.inr (by omega))).2
    rw [← hcv, hcnt', ← hcnt]
    by_cases hcond : out.converged = 0 ∧ out.st.iterationCount > 0
    · rw [if_pos hcond] at hfirst ⊢
      have hnc : ¬ out.converged = 1 := by rw [hcond.1]; exact Nat.zero_ne_one
      rcases hout with ⟨h1, -⟩ | ⟨-, hroot, hroot', hres, hres', hsuc, hsuc', -⟩
      · exact absurd h1 hnc
      · subst hfirst
        simp only at hroot' hits
        apply secant_state_ext
        · intro i
          show out'.st.iterations i = out.st.iterations i
          rw [hits i]
          split_ifs <;> rfl
        · show out'.st.iterationCount = out.st.iterationCount
          rw [hcnt, hcnt']
        · show out'.st.hasResult = out.st.hasResult
          rw [hres, hres']
        · exact hroot'
        · show out'.st.a_val = out.st.a_val
          rw [hcA, hcA']
        · show out'.st.b_val = out.st.b_val
          rw [hcB, hcB']
        · rfl
        · show out'.st.statusSuccess = out.st.statusSuccess
          rw [hsuc, hsuc']
    · rw [if_neg hcond] at hfirst ⊢
      subst hfirst
      have hcommon : (∀ i, out'.st.iterations i = out.st.iterations i)
          ∧ out'.st.iterationCount = out.st.iterationCount
          ∧ out'.st.a_val = out.st.a_val ∧ out'.st.b_val = out.st.b_val := by
        refine ⟨fun i => ?_, ?_, ?_, ?_⟩
        · rw [hits i]
          split_ifs <;> rfl
        · rw [hcnt, hcnt']
        · rw [hcA, hcA']
        · rw [hcB, hcB']
      obtain ⟨c1, c2, c3, c4⟩ := hcommon
      rcases hout with ⟨-, hroot, hres, hsuc, hmsg⟩
          | ⟨-, hroot, hroot', hres, hres', hsuc, hsuc', hmsg⟩
      · exact secant_state_ext _ _ c1 c2 hres.symm hroot.symm c3 c4 hmsg.symm hsuc.symm
      · apply secant_state_ext _ _ c1 c2 _ hroot' c3 c4 _ _
        · rw [hres, hres']
        · rcases hmsg with h | ⟨-, h⟩
          · exact h.symm
          · exact h
        · rw [hsuc, hsuc']

end Secant

namespace Console

variable {K : Type} [LinearOrderedField K]

/-- One pass of the loop body when the divergence test fires: the row is written and the
loop is left with `totalIter` unchanged. -/
theorem console_loop_succ_divergent (g : K → Dbl K) (fuel : Nat) (x : K) (t : Nat)
    (its : Nat → FixedPoint.IterationRow K) (hd : FixedPoint.divergent (g x) = true) :
    loop g (fuel + 1) x t its =
      some ⟨x, 1, Function.update its t ⟨x, g x, (g x).fabsSub x⟩, t⟩ := by
  rw [loop]
  cases hg : g x with
  | nan => rfl
  | inf => rfl
  | fin v =>
    rw [hg] at hd
    have hv : |v| > FixedPoint.huge := by simpa [FixedPoint.divergent] using hd
    simp only [hv, if_true]

/-- One pass of the loop body when `g` returns a finite value within the bound. -/
theorem console_loop_succ_fin (g : K → Dbl K) (fuel : Nat) (x v : K) (t : Nat)
    (its : Nat → FixedPoint.IterationRow K) (hg : g x = .fin v)
    (hv : ¬ |v| > FixedPoint.huge) :
    loop g (fuel + 1) x t its =
      if t + 1 ≥ MAX_ITER then
        some ⟨v, 0, Function.update its t ⟨x, g x, (g x).fabsSub x⟩, t + 1⟩
      else if |(|v - x|)| > TOLERANCE then
        loop g fuel v (t + 1) (Function.update its t ⟨x, g x, (g x).fabsSub x⟩)
      else some ⟨v, 0, Function.update its t ⟨x, g x, (g x).fabsSub x⟩, t + 1⟩ := by
  rw [loop]
  simp only [hg, hv, if_false]

/-- The `do ... while` loop terminates: started with `totalIter < 50` and at least
`50 - totalIter` units of fuel it returns, the result does not depend on the amount of fuel,
`totalIter` ends at most at 50 (below 50 when the run diverged, so the row of the diverging
iteration is inside the array too), and only rows at indices `totalIter .. 49` are written. -/
theorem console_loop_terminates (g : K → Dbl K) (fuel : Nat) :
    ∀ (x : K) (t : Nat) (its : Nat → FixedPoint.IterationRow K),
      t < MAX_ITER → MAX_ITER - t ≤ fuel →
      ∃ out, loop g fuel x t its = some out
        ∧ loop g (MAX_ITER - t) x t its = some out
        ∧ t ≤ out.totalIter ∧ out.totalIter ≤ MAX_ITER
        ∧ (out.diverged = 0 ∨ out.diverged = 1)
        ∧ (out.diverged = 1 → out.totalIter < MAX_ITER)
        ∧ (out.diverged = 0 → t < out.totalIter)
        ∧ ∀ i, (i < t ∨ MAX_ITER ≤ i) → out.iterations i = its i := by
  induction fuel with
  | zero =>
    intro x t its ht hf
    omega
  | succ m ih =>
    intro x t its ht hf
    obtain ⟨m', hm'⟩ : ∃ m', MAX_ITER - t = m' + 1 := ⟨MAX_ITER - t - 1, by omega⟩
    rw [hm']
    have hframe : ∀ (r : FixedPoint.IterationRow K) (i : Nat), (i < t ∨ MAX_ITER ≤ i) →
        Function.update its t r i = its i := by
      intro r i hi
      have hne : i ≠ t := by omega
      exact Function.update_noteq hne _ _
    rcases FixedPoint.divergent_or_fin (g x) with hd | ⟨v, hg, hv⟩
    · rw [console_loop_succ_divergent g m x t its hd,
        console_loop_succ_divergent g m' x t its hd]
      exact ⟨_, rfl, rfl, Nat.le_refl t, Nat.le_of_lt ht, Or.inr rfl, fun _ => ht,
        fun h => absurd h Nat.one_ne_zero, hframe _⟩
    · rw [console_loop_succ_fin g m x v t its hg hv,
        console_loop_succ_fin g m' x v t its hg hv]
      by_cases hmax : t + 1 ≥ MAX_ITER
      · rw [if_pos hmax, if_pos hmax]
        refine ⟨_, rfl, rfl, Nat.le_succ t, ht, Or.inl rfl,
          fun h => absurd h Nat.zero_ne_one, fun _ => Nat.lt_succ_self t, hframe _⟩
      · rw [if_neg hmax, if_neg hmax]
        by_cases herr : |(|v - x|)| > TOLERANCE
        · rw [if_pos herr, if_pos herr]
          have ht1 : t + 1 < MAX_ITER := not_le.mp hmax
          obtain ⟨out, h1, h2, h3, h4, h5, h6, h7, h8⟩ :=
            ih v (t + 1) (Function.update its t ⟨x, g x, (g x).fabsSub x⟩) ht1 (by omega)
          have hm1 : MAX_ITER - (t + 1) = m' := by omega
          rw [hm1] at h2
          refine ⟨out, h1, h2, by omega, h4, h5, h6, fun h => by have := h7 h; omega, ?_⟩
          intro i hi
          rw [h8 i (by omega)]
          exact hframe _ i hi
        · rw [if_neg herr, if_neg herr]
          refine ⟨_, rfl, rfl, Nat.le_succ t, ht, Or.inl rfl,
            fun h => absurd h Nat.zero_ne_one, fun _ => Nat.lt_succ_self t, hframe _⟩

/-- The solver block in terms of the exit of its loop. -/
theorem console_solve_of_loop (g : K → Dbl K) (f : K → K) (x0 : K)
    (its : Nat → FixedPoint.IterationRow K) (fuel : Nat) (out : LoopExit K)
    (ho : loop g fuel x0 0 its = some out) :
    solve g f x0 its fuel =
      some ⟨if out.diverged ≠ 0 then .diverged
            else if |f out.x_current| < 1 / 10 then .success else .didNotConverge,
        out.x_current, out.iterations, out.totalIter⟩ := by
  unfold solve
  rw [ho]
  by_cases hd : out.diverged ≠ 0
  · simp only [hd, ne_eq, not_false_eq_true, true_or, if_true]
  · by_cases hv : |f out.x_current| < 1 / 10
    · simp only [hd, hv, if_true, if_false, Nat.one_ne_zero, or_self]
    · simp only [hd, hv, if_true, if_false, or_true]

/-- The solver block returns: with 50 units of fuel or more it gives one and the same
result, with `totalIter ≤ 50` and no row written at an index of 50 or more. -/
theorem console_solve_terminates (g : K → Dbl K) (f : K → K) (x0 : K)
    (its : Nat → FixedPoint.IterationRow K) :
    ∃ r, (∀ fuel, 50 ≤ fuel → solve g f x0 its fuel = some r)
      ∧ r.totalIter ≤ 50
      ∧ ∀ i, 50 ≤ i → r.iterations i = its i := by
  obtain ⟨out, -, h2, -, h4, -, -, -, h8⟩ :=
    console_loop_terminates g MAX_ITER x0 0 its (by decide) (Nat.le_refl _)
  refine ⟨⟨if out.diverged ≠ 0 then .diverged
            else if |f out.x_current| < 1 / 10 then .success else .didNotConverge,
        out.x_current, out.iterations, out.totalIter⟩,
    fun fuel hfuel => ?_, h4, fun i hi => h8 i (Or.inr hi)⟩
  obtain ⟨out', h1', h2', -⟩ :=
    console_loop_terminates g fuel x0 0 its (by decide) hfuel
  have heq : out' = out := Option.some.inj (h2'.symm.trans h2)
  rw [heq] at h1'
  exact console_solve_of_loop g f x0 its fuel out h1'

end Console

namespace Console

variable {K : Type} [LinearOrderedField K]

/-- The loop run on two contents of the array: when the first run returns, the second
returns with the same `x_current`, flag and `totalIter`, and at every index either both
runs hold the same row or both left the index as it was. -/
theorem console_loop_rel (g : K → Dbl K) (fuel : Nat) :
    ∀ (x : K) (t : Nat) (its its' : Nat → FixedPoint.IterationRow K) (out : LoopExit K),
      loop g fuel x t its = some out →
      ∃ out', loop g fuel x t its' = some out'
        ∧ out'.x_current = out.x_current ∧ out'.diverged = out.diverged
        ∧ out'.totalIter = out.totalIter
        ∧ ∀ i, out'.iterations i = out.iterations i
            ∨ (out'.iterations i = its' i ∧ out.iterations i = its i) := by
  induction fuel with
  | zero =>
    intro x t its its' out h
    exact Option.noConfusion h
  | succ m ih =>
    intro x t its its' out h
    have hone : ∀ (y : K) (d n : Nat) (o : LoopExit K),
        some (⟨y, d, Function.update its t ⟨x, g x, (g x).fabsSub x⟩, n⟩ : LoopExit K) = some o →
        ∃ out', some (⟨y, d, Function.update its' t ⟨x, g x, (g x).fabsSub x⟩, n⟩ : LoopExit K)
            = some out'
          ∧ out'.x_current = o.x_current ∧ out'.diverged = o.diverged
          ∧ out'.totalIter = o.totalIter
          ∧ ∀ i, out'.iterations i = o.iterations i
              ∨ (out'.iterations i = its' i ∧ o.iterations i = its i) := by
      intro y d n o ho
      have ho' := Option.some.inj ho
      subst ho'
      refine ⟨_, rfl, rfl, rfl, rfl, fun i => ?_⟩
      by_cases hi : i = t
      · left
        subst hi
        simp only [Function.update_same]
      · right
        exact ⟨Function.update_noteq hi _ _, Function.update_noteq hi _ _⟩
    rcases FixedPoint.divergent_or_fin (g x) with hd | ⟨v, hg, hv⟩
    · rw [console_loop_succ_divergent g m x t _ hd] at h ⊢
      exact hone x 1 t out h
    · rw [console_loop_succ_fin g m x v t _ hg hv] at h ⊢
      by_cases hmax : t + 1 ≥ MAX_ITER
      · rw [if_pos hmax] at h ⊢
        exact hone v 0 (t + 1) out h
      · rw [if_neg hmax] at h ⊢
        by_cases herr : |(|v - x|)| > TOLERANCE
        · rw [if_pos herr] at h ⊢
          obtain ⟨out', h1, h2, h3, h4, h5⟩ :=
            ih v (t + 1) (Function.update its t ⟨x, g x, (g x).fabsSub x⟩)
              (Function.update its' t ⟨x, g x, (g x).fabsSub x⟩) out h
          refine ⟨out', h1, h2, h3, h4, fun i => ?_⟩
          rcases h5 i with h | ⟨ha, hb⟩
          · exact Or.inl h
          · by_cases hi : i = t
            · left
              rw [ha, hb, hi]
              simp only [Function.update_same]
            · right
              rw [ha, hb]
              exact ⟨Function.update_noteq hi _ _, Function.update_noteq hi _ _⟩
        · rw [if_neg herr] at h ⊢
          exact hone v 0 (t + 1) out h

/-- A second pass of the console solver block on the same inputs, started from the array
the first pass left, gives the result of the first pass. -/
theorem console_solve_twice (g : K → Dbl K) (f : K → K) (x0 : K)
    (its : Nat → FixedPoint.IterationRow K) (fuel : Nat) (r : Run K)
    (h : solve g f x0 its fuel = some r) :
    solve g f x0 r.iterations fuel = some r := by
  cases hl : loop g fuel x0 0 its with
  | none =>
    unfold solve at h
    rw [hl] at h
    exact Option.noConfusion h
  | some out =>
    rw [console_solve_of_loop g f x0 its fuel out hl] at h
    have hr := Option.some.inj h
    obtain ⟨out', h1, h2, h3, h4, h5⟩ := console_loop_rel g fuel x0 0 its out.iterations out hl
    have hits : out'.iterations = out.iterations := by
      funext i
      rcases h5 i with h | ⟨h, -⟩
      · exact h
      · exact h
    have hri : r.iterations = out.iterations := by rw [← hr]
    rw [hri, console_solve_of_loop g f x0 out.iterations fuel out' h1, h2, h3, h4, hits]
    exact h

end Console

namespace Console

variable {K : Type} [LinearOrderedField K]

/-- The console loop and the GUI loop leave with the same `x_current` and the same flag when
no iteration the GUI loop executes has a step error exactly equal to the tolerance; the
console loop has `totalIter + fuel = 50`. -/
theorem console_loop_matches_gui (g : K → Dbl K) (m : Nat) :
    ∀ (x : K) (t : Nat) (its : Nat → FixedPoint.IterationRow K) (iter : Nat)
      (s : FixedPoint.Run K),
      t + (m + 1) = MAX_ITER →
      (∀ k z v, k < m + 1 → FixedPoint.reach g x k = some z → g z = .fin v →
        |v - z| ≠ 1 / 100) →
      ∃ out, loop g (m + 1) x t its = some out
        ∧ out.x_current = (FixedPoint.loop g (m + 1) iter x s).x_current
        ∧ out.diverged = (FixedPoint.loop g (m + 1) iter x s).diverged := by
  induction m with
  | zero =>
    intro x t its iter s ht _
    rcases FixedPoint.divergent_or_fin (g x) with hd | ⟨v, hg, hv⟩
    · rw [console_loop_succ_divergent g 0 x t its hd,
        FixedPoint.loop_succ_divergent g 0 iter x s hd]
      exact ⟨_, rfl, rfl, rfl⟩
    · rw [console_loop_succ_fin g 0 x v t its hg hv,
        FixedPoint.loop_succ_fin g 0 iter x v s hg hv]
      have hmax : t + 1 ≥ MAX_ITER := by omega
      rw [if_pos hmax]
      refine ⟨_, rfl, ?_, ?_⟩
      · split_ifs <;> rfl
      · split_ifs <;> rfl
  | succ m ih =>
    intro x t its iter s ht hstep
    rcases FixedPoint.divergent_or_fin (g x) with hd | ⟨v, hg, hv⟩
    · rw [console_loop_succ_divergent g (m + 1) x t its hd,
        FixedPoint.loop_succ_divergent g (m + 1) iter x s hd]
      exact ⟨_, rfl, rfl, rfl⟩
    · rw [console_loop_succ_fin g (m + 1) x v t its hg hv,
        FixedPoint.loop_succ_fin g (m + 1) iter x v s hg hv]
      have hmax : ¬ t + 1 ≥ MAX_ITER := by omega
      rw [if_neg hmax]
      have hne : |v - x| ≠ 1 / 100 := hstep 0 x v (Nat.succ_pos _) rfl hg
      by_cases hlt : |v - x| < FixedPoint.TOLERANCE
      · have hngt : ¬ |(|v - x|)| > TOLERANCE := by
          rw [abs_abs]
          exact not_lt.mpr (le_of_lt hlt)
        rw [if_neg hngt, if_pos hlt]
        exact ⟨_, rfl, rfl, rfl⟩
      · have hgt : |(|v - x|)| > TOLERANCE := by
          rw [abs_abs]
          exact lt_of_le_of_ne (not_lt.mp hlt) (Ne.symm hne)
        rw [if_pos hgt, if_neg hlt]
        apply ih v (t + 1) _ (iter + 1) _ (by omega)
        intro k z w hk hr hw
        have hr' : FixedPoint.reach g x (k + 1) = some z := by
          rw [FixedPoint.reach_succ_of_continue g x v k hg hv hlt]
          exact hr
        exact hstep (k + 1) z w (by omega) hr' hw

/-- The console solver block and the GUI solver block on the same `g`, `f` and `x0`: when
no executed iteration has a step error exactly equal to 0.01 and the final residual is not
exactly 0.1, both end with the same root and the same report. -/
theorem console_solve_matches_gui (g : K → Dbl K) (f : K → K) (x0 : K)
    (its : Nat → FixedPoint.IterationRow K) (s : FixedPoint.Run K)
    (hstep : ∀ k z v, k < 50 → FixedPoint.reach g x0 k = some z → g z = .fin v →
      |v - z| ≠ 1 / 100)
    (hres : |f (FixedPoint.solve g f x0 s).finalRoot| ≠ 1 / 10) :
    ∃ r, (∀ fuel, 50 ≤ fuel → solve g f x0 its fuel = some r)
      ∧ r.finalRoot = (FixedPoint.solve g f x0 s).finalRoot
      ∧ ((r.outcome = .diverged ∧ (FixedPoint.solve g f x0 s).resultText = .failed true)
        ∨ (r.outcome = .didNotConverge
            ∧ (FixedPoint.solve g f x0 s).resultText = .failed false)
        ∨ (r.outcome = .success
            ∧ (FixedPoint.solve g f x0 s).resultText
                = .success r.finalRoot (FixedPoint.solve g f x0 s).totalIterations)) := by
  obtain ⟨out, hloop, hx, hd⟩ :=
    console_loop_matches_gui g 49 x0 0 its 0 (FixedPoint.resetCount s) rfl hstep
  generalize ho : FixedPoint.loop g FixedPoint.MAX_ITER 0 x0 (FixedPoint.resetCount s) = outg
  have hog : FixedPoint.loop g (49 + 1) 0 x0 (FixedPoint.resetCount s) = outg := ho
  rw [hog] at hx hd
  have hsolve := FixedPoint.solve_of_loop g f x0 s outg ho.symm
  have hfuel : ∀ fuel, 50 ≤ fuel → solve g f x0 its fuel =
      some ⟨if out.diverged ≠ 0 then .diverged
            else if |f out.x_current| < 1 / 10 then .success else .didNotConverge,
        out.x_current, out.iterations, out.totalIter⟩ := by
    intro fuel hfuel
    obtain ⟨out', h1', h2', -⟩ :=
      console_loop_terminates g fuel x0 0 its (by decide) hfuel
    have h2b : loop g (49 + 1) x0 0 its = some out' := h2'
    have heq : out' = out := Option.some.inj (h2b.symm.trans hloop)
    rw [heq] at h1'
    exact console_solve_of_loop g f x0 its fuel out h1'
  refine ⟨_, hfuel, ?_, ?_⟩
  · show out.x_current = _
    rw [hsolve, hx]
    split_ifs <;> rfl
  · rw [hsolve] at hres ⊢
    rw [hx, hd]
    by_cases hdv : outg.diverged ≠ 0
    · left
      rw [if_pos hdv, if_pos (Or.inl hdv)]
      refine ⟨rfl, ?_⟩
      show FixedPoint.ResultText.failed (decide (outg.diverged ≠ 0)) = .failed true
      rw [decide_eq_true hdv]
    · right
      rw [if_neg hdv]
      by_cases hv : |f outg.x_current| > 1 / 10
      · left
        rw [if_pos (Or.inr hv), if_neg (not_lt.mpr (le_of_lt hv))]
        refine ⟨rfl, ?_⟩
        show FixedPoint.ResultText.failed (decide (outg.diverged ≠ 0)) = .failed false
        rw [decide_eq_false hdv]
      · right
        have hcond : ¬ (outg.diverged ≠ 0 ∨ |f outg.x_current| > 1 / 10) := by
          rintro (h | h)
          · exact hdv h
          · exact hv h
        rw [if_neg hcond] at hres ⊢
        have hlt : |f outg.x_current| < 1 / 10 :=
          lt_of_le_of_ne (not_lt.mp hv) hres
        rw [if_pos hlt]
        exact ⟨rfl, rfl⟩

end Console

namespace Console

/-- With `a = 0`, `b = 1`, `c = -1` method 2 is the constant function `1`. -/
theorem exampleAgree_g (z : ℝ) : Quadratic.g Real.sqrt z 0 1 (-1) 2 = .fin 1 := by
  rw [Quadratic.quadratic_g_method2, if_neg (by norm_num [tiny]), Dbl.div_eq_fin_iff]
  norm_num

/-- The run of that example from `x0 = 1` stops in its first iteration with step error 0. -/
theorem exampleAgree_steps (k : Nat) (z v : ℝ) (_ : k < 50)
    (hr : FixedPoint.reach (fun x => Quadratic.g Real.sqrt x 0 1 (-1) 2) 1 k = some z)
    (hg : Quadratic.g Real.sqrt z 0 1 (-1) 2 = .fin v) : |v - z| ≠ 1 / 100 := by
  rw [exampleAgree_g z] at hg
  have hv : v = 1 := (Dbl.fin.inj hg).symm
  cases k with
  | zero =>
    have hz : z = 1 := (Option.some.inj hr).symm
    rw [hv, hz]
    norm_num
  | succ k =>
    exfalso
    simp only [FixedPoint.reach, exampleAgree_g] at hr
    norm_num [FixedPoint.huge, FixedPoint.TOLERANCE] at hr
    exact Option.noConfusion hr

/-- The GUI handler on that example ends with the root `1`. -/
theorem exampleAgree_root :
    (GuiApp.compute Real.sqrt (GuiApp.initial (fun _ => ⟨0, .fin 0, .fin 0⟩)) 0 1 (-1) 1
      2).run.finalRoot = 1 := by
  rw [FixedPoint.guiApp_compute_run Real.sqrt _ 0 1 (-1) 1 2 (by decide) (by decide)]
  exact (FixedPoint.solve_stops_at (fun x => Quadratic.g Real.sqrt x 0 1 (-1) 2)
    (fun x => Quadratic.f x 0 1 (-1)) 1 _ 0 1 1 (by decide) rfl (exampleAgree_g 1)
    (by norm_num [FixedPoint.huge]) (by norm_num [FixedPoint.TOLERANCE])).2.1

/-- With `a = 1/10`, `b = -1/20`, `c = 1/20` the point `1` is a fixed point of method 5:
`c / a = 1/2`, `-b / a = 1/2` and `(1 - 1/2) / (1/2) = 1`. -/
theorem exampleDiffer_g : Quadratic.g Real.sqrt 1 (1 / 10) (-1 / 20) (1 / 20) 5 = .fin 1 := by
  rw [Quadratic.quadratic_g_method5, if_neg (by norm_num), if_neg (by norm_num),
    Dbl.div_eq_fin_iff]
  norm_num

end Console

variable {K : Type} [LinearOrderedField K]

/-- C22. For every input and every earlier content of the variables: the false-position
handler leaves at most 50 rows, each of the three GUI fixed-point handlers leaves at most 50
rows (gui_app.c keeps the count of the earlier run when it rejects the method number), the
console driver of main.c returns with `totalIter ≤ 50` for every amount of fuel of 50 or
more (its `do ... while` loop terminates), and the secant handler leaves at most 100 rows;
no solver changes a row at an index of 50 (100 for secant) or more, so every write
`iterations[i]` is inside the array. The `for` loops of the handlers are recursions on the
remaining number of iterations and terminate by construction. -/
theorem trace_length_bound :
    (∀ (exp : K → K) (s : FalsePosition.State K) (a b x0 x1 : K),
        (FalsePosition.compute exp s a b x0 x1).totalIterations ≤ 50
        ∧ ∀ i, 50 ≤ i →
            (FalsePosition.compute exp s a b x0 x1).iterations i = s.iterations i)
    ∧ (∀ (sqrt : K → K) (s : FixedPointQuadratic.State K) (a b c x0 : K) (method : Int),
        (FixedPointQuadratic.compute sqrt s a b c x0 method).run.totalIterations ≤ 50
        ∧ ∀ i, 50 ≤ i →
            (FixedPointQuadratic.compute sqrt s a b c x0 method).run.iterations i
              = s.run.iterations i)
    ∧ (∀ (exp log : K → K) (s : FixedPointExponential.State K) (a b x0 : K) (method : Int),
        (FixedPointExponential.compute exp log s a b x0 method).run.totalIterations ≤ 50
        ∧ ∀ i, 50 ≤ i →
            (FixedPointExponential.compute exp log s a b x0 method).run.iterations i
              = s.run.iterations i)
    ∧ (∀ (sqrt : K → K) (s : GuiApp.State K) (a b c x0 : K) (method : Int),
        s.run.totalIterations ≤ 50 →
        (GuiApp.compute sqrt s a b c x0 method).run.totalIterations ≤ 50
        ∧ ∀ i, 50 ≤ i →
            (GuiApp.compute sqrt s a b c x0 method).run.iterations i = s.run.iterations i)
    ∧ (∀ (sqrt : K → K) (a b c x0 : K) (method : Int)
        (its : Nat → FixedPoint.IterationRow K),
        ∃ r, (∀ fuel, 50 ≤ fuel → Console.compute sqrt a b c x0 method its fuel = some r)
          ∧ r.totalIter ≤ 50
          ∧ ∀ i, 50 ≤ i → r.iterations i = its i)
    ∧ (∀ (exp : K → K) (s : Secant.State K) (a b x0 x1 : K),
        (Secant.compute exp s a b x0 x1).iterationCount ≤ 100
        ∧ ∀ i, 100 ≤ i → (Secant.compute exp s a b x0 x1).iterations i = s.iterations i) := by
  refine ⟨?_, ?_, ?_, ?_, ?_, ?_⟩
  · intro exp s a b x0 x1
    obtain ⟨h1, h2, -⟩ := FalsePosition.falsePosition_compute_shape exp s a b x0 x1
    exact ⟨h1, fun i hi => h2 i (Nat.le_trans h1 hi)⟩
  · intro sqrt s a b c x0 method
    rw [FixedPoint.quadratic_compute_run]
    obtain ⟨h1, h2⟩ := FixedPoint.fixedPoint_solve_shape
      (fun x => Quadratic.g sqrt x a b c method) (fun x => Quadratic.f x a b c) x0 s.run
    exact ⟨h1, fun i hi => h2 i (Nat.le_trans h1 hi)⟩
  · intro exp log s a b x0 method
    rw [FixedPoint.exponential_compute_run]
    obtain ⟨h1, h2⟩ := FixedPoint.fixedPoint_solve_shape
      (fun x => Exponential.g exp log x a b method) (fun x => Exponential.f exp x a b) x0
      s.run
    exact ⟨h1, fun i hi => h2 i (Nat.le_trans h1 hi)⟩
  · intro sqrt s a b c x0 method hs
    by_cases hm : method < 1 ∨ method > 5
    · obtain ⟨-, -, h3, h4, -⟩ := FixedPoint.guiApp_invalid_method sqrt s a b c x0 method hm
      rw [h3, h4]
      exact ⟨hs, fun _ _ => rfl⟩
    · have h1 : 1 ≤ method := not_lt.mp (fun h => hm (Or.inl h))
      have h5 : method ≤ 5 := not_lt.mp (fun h => hm (Or.inr h))
      rw [FixedPoint.guiApp_compute_run sqrt s a b c x0 method h1 h5]
      obtain ⟨h1, h2⟩ := FixedPoint.fixedPoint_solve_shape
        (fun x => Quadratic.g sqrt x a b c method) (fun x => Quadratic.f x a b c) x0 s.run
      exact ⟨h1, fun i hi => h2 i (Nat.le_trans h1 hi)⟩
  · intro sqrt a b c x0 method its
    exact Console.console_solve_terminates (fun x => Quadratic.g sqrt x a b c method)
      (fun x => Quadratic.f x a b c) x0 its
  · intro exp s a b x0 x1
    obtain ⟨h1, h2, -⟩ := Secant.secant_compute_shape exp s a b x0 x1
    exact ⟨h1, fun i hi => h2 i (Nat.le_trans h1 hi)⟩

/-- Witness for C22: the start state of gui_app.c has no rows, so the bound holds after a
COMPUTE click with `a = 1`, `b = -3`, `c = 2`, `x0 = 0` and the method number 7, which the
handler rejects, and equally with the method number 1. -/
theorem trace_length_bound_witness :
    (GuiApp.initial (fun _ => ⟨(0 : ℚ), .fin 0, .fin 0⟩)).run.totalIterations ≤ 50
    ∧ (GuiApp.compute (fun _ => 0) (GuiApp.initial (fun _ => ⟨(0 : ℚ), .fin 0, .fin 0⟩))
        1 (-3) 2 0 7).run.totalIterations ≤ 50
    ∧ (GuiApp.compute (fun _ => 0) (GuiApp.initial (fun _ => ⟨(0 : ℚ), .fin 0, .fin 0⟩))
        1 (-3) 2 0 1).run.totalIterations ≤ 50 :=
  ⟨Nat.zero_le 50,
    ((@trace_length_bound ℚ _).2.2.2.1 (fun _ => 0)
      (GuiApp.initial (fun _ => ⟨(0 : ℚ), .fin 0, .fin 0⟩)) 1 (-3) 2 0 7 (Nat.zero_le 50)).1,
    ((@trace_length_bound ℚ _).2.2.2.1 (fun _ => 0)
      (GuiApp.initial (fun _ => ⟨(0 : ℚ), .fin 0, .fin 0⟩)) 1 (-3) 2 0 1 (Nat.zero_le 50)).1⟩

/-- C23. For every input: row `i` (0-based) of the false-position table has `iteration`
field `i + 1`, and row `i` of the secant table has `n` field `i + 1`; so the iteration
numbers start at 1 and increase by exactly 1 from row to row. -/
theorem iteration_indices :
    (∀ (exp : K → K) (s : FalsePosition.State K) (a b x0 x1 : K) (i : Nat),
        i < (FalsePosition.compute exp s a b x0 x1).totalIterations →
        ((FalsePosition.compute exp s a b x0 x1).iterations i).iteration = i + 1)
    ∧ (∀ (exp : K → K) (s : Secant.State K) (a b x0 x1 : K) (i : Nat),
        i < (Secant.compute exp s a b x0 x1).iterationCount →
        ((Secant.compute exp s a b x0 x1).iterations i).n = i + 1) :=
  ⟨fun exp s a b x0 x1 => (FalsePosition.falsePosition_compute_shape exp s a b x0 x1).2.2,
    fun exp s a b x0 x1 => (Secant.secant_compute_shape exp s a b x0 x1).2.2⟩

/-- Witness for C23: the false-position run `a = 0`, `b = 2`, `x0 = 0`, `x1 = 1` over the
reals has a first row, and its `iteration` field is 1. -/
theorem iteration_indices_witness :
    0 < (FalsePosition.compute Real.exp
        (FalsePosition.initial (fun _ => ⟨0, 0, 0, 0, 0, 0, 0, 0⟩)) 0 2 0 1).totalIterations
    ∧ ((FalsePosition.compute Real.exp
        (FalsePosition.initial (fun _ => ⟨0, 0, 0, 0, 0, 0, 0, 0⟩)) 0 2 0 1).iterations
          0).iteration = 0 + 1 :=
  have hpos := (FalsePosition.falsePosition_compute_rows Real.exp
    (FalsePosition.initial (fun _ => ⟨0, 0, 0, 0, 0, 0, 0, 0⟩)) 0 2 0 1
    FalsePosition.exampleBracket).1
  ⟨hpos, (@iteration_indices ℝ _).1 Real.exp
    (FalsePosition.initial (fun _ => ⟨0, 0, 0, 0, 0, 0, 0, 0⟩)) 0 2 0 1 0 hpos⟩

/-- The elimination handler run a second time with the same coefficients leaves the state
as the first run did. -/
theorem elimination_compute_twice (s : Elimination.State K) (a1 b1 c1 a2 b2 c2 : K) :
    Elimination.compute (Elimination.compute s a1 b1 c1 a2 b2 c2) a1 b1 c1 a2 b2 c2
      = Elimination.compute s a1 b1 c1 a2 b2 c2 := by
  simp only [Elimination.compute]
  split_ifs <;> rfl

/-- C24. For every solver, every input and every earlier state: a second COMPUTE click with
the same inputs leaves all the persistent variables exactly as the first click did, so the
outcome text, the reported root or solution, the row count and every row of the table are
the same. This holds for the elimination handler, the false-position handler, the three
GUI fixed-point handlers and the secant handler with its global `iterations` array and
`iterationCount`; and a second pass of the console driver of main.c, started from the array
the first pass left, returns the result of the first pass. -/
theorem compute_idempotent :
    (∀ (s : Elimination.State K) (a1 b1 c1 a2 b2 c2 : K),
        Elimination.compute (Elimination.compute s a1 b1 c1 a2 b2 c2) a1 b1 c1 a2 b2 c2
          = Elimination.compute s a1 b1 c1 a2 b2 c2)
    ∧ (∀ (exp : K → K) (s : FalsePosition.State K) (a b x0 x1 : K),
        FalsePosition.compute exp (FalsePosition.compute exp s a b x0 x1) a b x0 x1
          = FalsePosition.compute exp s a b x0 x1)
    ∧ (∀ (sqrt : K → K) (s : FixedPointQuadratic.State K) (a b c x0 : K) (method : Int),
        FixedPointQuadratic.compute sqrt (FixedPointQuadratic.compute sqrt s a b c x0 method)
            a b c x0 method
          = FixedPointQuadratic.compute sqrt s a b c x0 method)
    ∧ (∀ (exp log : K → K) (s : FixedPointExponential.State K) (a b x0 : K) (method : Int),
        FixedPointExponential.compute exp log
            (FixedPointExponential.compute exp log s a b x0 method) a b x0 method
          = FixedPointExponential.compute exp log s a b x0 method)
    ∧ (∀ (sqrt : K → K) (s : GuiApp.State K) (a b c x0 : K) (method : Int),
        GuiApp.compute sqrt (GuiApp.compute sqrt s a b c x0 method) a b c x0 method
          = GuiApp.compute sqrt s a b c x0 method)
    ∧ (∀ (exp : K → K) (s : Secant.State K) (a b x0 x1 : K),
        Secant.compute exp (Secant.compute exp s a b x0 x1) a b x0 x1
          = Secant.compute exp s a b x0 x1)
    ∧ (∀ (sqrt : K → K) (a b c x0 : K) (method : Int)
        (its : Nat → FixedPoint.IterationRow K) (fuel : Nat) (r : Console.Run K),
        Console.compute sqrt a b c x0 method its fuel = some r →
        Console.compute sqrt a b c x0 method r.iterations fuel = some r) := by
  refine ⟨elimination_compute_twice, FalsePosition.falsePosition_compute_twice, ?_, ?_, ?_,
    Secant.secant_compute_twice, ?_⟩
  · intro sqrt s a b c x0 method
    simp only [FixedPointQuadratic.compute]
    rw [FixedPoint.fixedPoint_solve_twice]
  · intro exp log s a b x0 method
    simp only [FixedPointExponential.compute]
    rw [FixedPoint.fixedPoint_solve_twice]
  · intro sqrt s a b c x0 method
    by_cases hm : method < 1 ∨ method > 5
    · simp only [GuiApp.compute, hm, if_true]
    · simp only [GuiApp.compute, hm, if_false]
      rw [FixedPoint.fixedPoint_solve_twice]
  · intro sqrt a b c x0 method its fuel r h
    exact Console.console_solve_twice (fun x => Quadratic.g sqrt x a b c method)
      (fun x => Quadratic.f x a b c) x0 its fuel r h

/-- Witness for C24: the console driver on `a = 1`, `b = -3`, `c = 2`, method 1, `x0 = 0`
over the rationals returns a result, and a second pass from the array it left returns the
same result. -/
theorem compute_idempotent_witness :
    ∃ r, Console.compute (fun _ => (0 : ℚ)) 1 (-3) 2 0 1 (fun _ => ⟨0, .fin 0, .fin 0⟩) 50
          = some r
      ∧ Console.compute (fun _ => (0 : ℚ)) 1 (-3) 2 0 1 r.iterations 50 = some r :=
  Exists.elim
    (Console.console_solve_terminates (fun x => Quadratic.g (fun _ => (0 : ℚ)) x 1 (-3) 2 1)
      (fun x => Quadratic.f x 1 (-3) 2) 0 (fun _ => ⟨0, .fin 0, .fin 0⟩))
    (fun r hr => ⟨r, hr.1 50 (Nat.le_refl 50),
      (@compute_idempotent ℚ _).2.2.2.2.2.2 (fun _ => 0) 1 (-3) 2 0 1
        (fun _ => ⟨0, .fin 0, .fin 0⟩) 50 r (hr.1 50 (Nat.le_refl 50))⟩)


namespace Fp

variable {K : Type} [LinearOrderedField K]

/-- The overflow threshold is positive. -/
theorem threshold_pos : (0 : K) < 2 ^ 1024 - 2 ^ 970 := by
  have h : (2 : K) ^ 970 < 2 ^ 1024 := pow_lt_pow_right₀ (by norm_num) (by norm_num)
  linarith

/-- A result inside the range is delivered as it is. -/
theorem overflow_of_abs_lt (v : K) (h : |v| < 2 ^ 1024 - 2 ^ 970) : overflow v = .fin v := by
  obtain ⟨h1, h2⟩ := abs_lt.mp h
  unfold overflow
  rw [if_neg (not_le.mpr h2), if_neg (not_le.mpr h1)]

/-- Zero is delivered as zero. -/
theorem range_zero : range (0 : K) = .fin 0 := by
  unfold range
  rw [if_pos (by rw [abs_zero]; positivity)]

/-- A result that neither overflows nor underflows is delivered as it is. -/
theorem range_of_abs (v : K) (h1 : 1 / 2 ^ 1075 < |v|) (h2 : |v| < 2 ^ 1024 - 2 ^ 970) :
    range v = .fin v := by
  unfold range
  rw [if_neg (not_le.mpr h1), overflow_of_abs_lt v h2]

/-- Overflow never delivers NaN. -/
theorem overflow_ne_nan (v : K) : overflow v ≠ .nan := by
  unfold overflow
  split_ifs <;> exact fun h => Fp.noConfusion h

/-- A result delivered in the range of a double is never NaN. -/
theorem range_ne_nan (v : K) : range v ≠ .nan := by
  unfold range
  split_ifs
  · exact fun h => Fp.noConfusion h
  · exact overflow_ne_nan v

/-- A finite value that overflow delivers is the exact value. -/
theorem overflow_eq_fin (v w : K) (h : overflow v = .fin w) : w = v := by
  unfold overflow at h
  split_ifs at h
  exact (Fp.fin.inj h).symm

/-- The sign of what overflow delivers is the sign of the exact value. -/
theorem overflow_le_zero (v : K) : le (overflow v) (.fin 0) ↔ v ≤ 0 := by
  have hT := @threshold_pos K _
  unfold overflow
  split_ifs with h1 h2
  · simp only [le, false_iff, not_le]
    linarith
  · simp only [le, true_iff]
    linarith
  · simp only [le]

/-- The libm exponential of a finite argument is never NaN. -/
theorem exp_fin_ne_nan (expK : K → K) (x : K) : exp expK (.fin x) ≠ .nan :=
  range_ne_nan (expK x)

/-- Subtracting a finite number keeps a value that is not NaN away from NaN. -/
theorem sub_fin_ne_nan (x : Fp K) (b : K) (hx : x ≠ .nan) : sub x (.fin b) ≠ .nan := by
  cases x with
  | fin v => exact overflow_ne_nan _
  | posInf => exact fun h => Fp.noConfusion h
  | negInf => exact fun h => Fp.noConfusion h
  | nan => exact absurd rfl hx

/-- Subtracting from a finite number a value that is not NaN does not give NaN. -/
theorem fin_sub_ne_nan (x : K) (y : Fp K) (hy : y ≠ .nan) : sub (.fin x) y ≠ .nan := by
  cases y with
  | fin v => exact overflow_ne_nan _
  | posInf => exact fun h => Fp.noConfusion h
  | negInf => exact fun h => Fp.noConfusion h
  | nan => exact absurd rfl hy

/-- Dividing a value that is not NaN by a non-zero finite number does not give NaN. -/
theorem div_fin_ne_nan (x : Fp K) (a : K) (hx : x ≠ .nan) (ha : a ≠ 0) :
    div x (.fin a) ≠ .nan := by
  cases x with
  | fin v =>
    show (if a = 0 then (if v = 0 then Fp.nan else if 0 < v then .posInf else .negInf)
      else range (v / a)) ≠ .nan
    rw [if_neg ha]
    exact range_ne_nan _
  | posInf =>
    show (if 0 ≤ a then Fp.posInf else .negInf) ≠ .nan
    split_ifs <;> exact fun h => Fp.noConfusion h
  | negInf =>
    show (if 0 ≤ a then Fp.negInf else .posInf) ≠ .nan
    split_ifs <;> exact fun h => Fp.noConfusion h
  | nan => exact absurd rfl hx

/-- Multiplying a value that is not NaN by a positive finite number does not give NaN. -/
theorem fin_mul_ne_nan (c : K) (y : Fp K) (hc : 0 < c) (hy : y ≠ .nan) :
    mul (.fin c) y ≠ .nan := by
  cases y with
  | fin v => exact range_ne_nan _
  | posInf =>
    show (if c = 0 then Fp.nan else if 0 < c then .posInf else .negInf) ≠ .nan
    rw [if_neg (ne_of_gt hc), if_pos hc]
    exact fun h => Fp.noConfusion h
  | negInf =>
    show (if c = 0 then Fp.nan else if 0 < c then .negInf else .posInf) ≠ .nan
    rw [if_neg (ne_of_gt hc), if_pos hc]
    exact fun h => Fp.noConfusion h
  | nan => exact absurd rfl hy

/-- The libm logarithm is NaN exactly on NaN and on arguments below zero. -/
theorem log_eq_nan_iff (logK : K → K) (y : Fp K) (hy : y ≠ .nan) :
    log logK y = .nan ↔ lt y (.fin 0) := by
  cases y with
  | fin v =>
    show (if v < 0 then Fp.nan else if v = 0 then .negInf else .fin (logK v)) = .nan ↔ v < 0
    by_cases h1 : v < 0
    · rw [if_pos h1]
      exact ⟨fun _ => h1, fun _ => rfl⟩
    · rw [if_neg h1]
      by_cases h2 : v = 0
      · rw [if_pos h2]
        exact ⟨fun h => Fp.noConfusion h, fun h => absurd h h1⟩
      · rw [if_neg h2]
        exact ⟨fun h => Fp.noConfusion h, fun h => absurd h h1⟩
  | posInf => exact ⟨fun h => Fp.noConfusion h, fun h => False.elim h⟩
  | negInf => exact ⟨fun _ => trivial, fun _ => rfl⟩
  | nan => exact absurd rfl hy

/-- The difference of two finite numbers. -/
theorem sub_fin_fin (a b : K) : sub (.fin a) (.fin b) = overflow (a - b) := by
  show overflow (a + -b) = overflow (a - b)
  rw [sub_eq_add_neg]

/-- Anything minus NaN is NaN. -/
theorem sub_nan (x : Fp K) : sub x .nan = .nan := by
  cases x <;> rfl

/-- The number `e^1000` is beyond the range of a double. -/
theorem real_exp_1000 : (2 : ℝ) ^ 1024 - 2 ^ 970 ≤ Real.exp 1000 := by
  have h1 : (5 / 2 : ℝ) ≤ Real.exp 1 := by
    have := Real.exp_one_gt_d9
    linarith
  have hpow : Real.exp 1000 = Real.exp 1 ^ 1000 := by
    rw [← Real.exp_nat_mul]
    norm_num
  have h1000 : (5 / 2 : ℝ) ^ 1000 ≤ Real.exp 1 ^ 1000 :=
    pow_le_pow_left₀ (by norm_num) h1 1000
  have hnum : (2 : ℝ) ^ 1024 ≤ (5 / 2) ^ 1000 := by norm_num
  have hpos : (0 : ℝ) < 2 ^ 970 := by positivity
  rw [hpow]
  linarith

/-- The libm exponential overflows at 1000. -/
theorem exp_1000 : exp Real.exp (.fin (1000 : ℝ)) = .posInf := by
  have h := real_exp_1000
  have hT := @threshold_pos ℝ _
  have hsmall : ¬ |Real.exp 1000| ≤ 1 / 2 ^ 1075 := by
    rw [abs_of_pos (Real.exp_pos _), not_le]
    have h1 : (1 : ℝ) / 2 ^ 1075 ≤ 1 := by
      rw [div_le_one (by positivity)]
      exact one_le_pow₀ (by norm_num)
    have h2 : (1 : ℝ) < 2 ^ 970 := one_lt_pow₀ (by norm_num) (by norm_num)
    have h3 : (2 : ℝ) ^ 970 + 2 ^ 970 ≤ 2 ^ 1024 := by
      have : (2 : ℝ) ^ 970 + 2 ^ 970 = 2 ^ 971 := by ring
      rw [this]
      exact pow_le_pow_right₀ (by norm_num) (by norm_num)
    linarith
  show range (Real.exp 1000) = .posInf
  unfold range overflow
  rw [if_neg hsmall, if_pos h]

/-- The libm exponential underflows to zero at -1000. -/
theorem exp_neg_1000 : exp Real.exp (.fin (-1000 : ℝ)) = .fin 0 := by
  have hinv : Real.exp (-1000) = (Real.exp 1000)⁻¹ := Real.exp_neg 1000
  have hlarge : (2 : ℝ) ^ 1075 < Real.exp 1000 := by
    have h1 : (5 / 2 : ℝ) ≤ Real.exp 1 := by
      have := Real.exp_one_gt_d9
      linarith
    have hpow : Real.exp 1000 = Real.exp 1 ^ 1000 := by
      rw [← Real.exp_nat_mul]
      norm_num
    have h1000 : (5 / 2 : ℝ) ^ 1000 ≤ Real.exp 1 ^ 1000 :=
      pow_le_pow_left₀ (by norm_num) h1 1000
    have hnum : (2 : ℝ) ^ 1075 < (5 / 2) ^ 1000 := by norm_num
    rw [hpow]
    linarith
  have hsmall : |Real.exp (-1000)| < 1 / 2 ^ 1075 := by
    rw [abs_of_pos (Real.exp_pos _), hinv, one_div]
    exact inv_strictAnti₀ (by positivity) hlarge
  show range (Real.exp (-1000)) = .fin 0
  unfold range
  rw [if_pos hsmall.le]

/-- The libm exponential at 0 is 1. -/
theorem exp_zero : exp Real.exp (.fin (0 : ℝ)) = .fin 1 := by
  show range (Real.exp 0) = .fin 1
  rw [Real.exp_zero]
  apply range_of_abs
  · rw [abs_one, div_lt_one (by positivity)]
    exact one_lt_pow₀ (by norm_num) (by norm_num)
  · rw [abs_one]
    have h2 : (1 : ℝ) < 2 ^ 970 := one_lt_pow₀ (by norm_num) (by norm_num)
    have h3 : (2 : ℝ) ^ 970 + 2 ^ 970 ≤ 2 ^ 1024 := by
      have : (2 : ℝ) ^ 970 + 2 ^ 970 = 2 ^ 971 := by ring
      rw [this]
      exact pow_le_pow_right₀ (by norm_num) (by norm_num)
    linarith

/-- A number of magnitude at most `2^970` does not overflow. -/
theorem overflow_of_abs_le (v : K) (h : |v| ≤ 2 ^ 970) : overflow v = .fin v := by
  apply overflow_of_abs_lt
  have h3 : (2 : K) ^ 970 + 2 ^ 970 < 2 ^ 1024 := by
    have : (2 : K) ^ 970 + 2 ^ 970 = 2 ^ 971 := by ring
    rw [this]
    exact pow_lt_pow_right₀ (by norm_num) (by norm_num)
  linarith

end Fp

namespace FalsePositionFp

variable {K : Type} [LinearOrderedField K]

/-- The value of `f` at NaN is NaN. -/
theorem f_nan (exp : K → K) (a b : K) : f exp .nan a b = .nan := rfl

/-- One pass of the loop body from a bracket whose left end and left value are NaN: the
interpolated point, its value and the error are NaN, both tests fail, and the else branch
stores NaN in the left end again. -/
theorem loop_succ_nan (exp : K → K) (fuel iter : Nat) (x1 fx1 : Fp K) (s : State K) :
    loop exp (fuel + 1) iter .nan x1 .nan fx1 s =
      loop exp fuel (iter + 1) .nan x1 .nan fx1
        { s with
          iterations := Function.update s.iterations iter
            { iteration := iter + 1, x0 := .nan, x1 := x1, x2 := .nan,
              fx0 := .nan, fx1 := fx1, fx2 := .nan, error := .nan },
          totalIterations := s.totalIterations + 1 } := by
  have hx2 : Fp.sub x1 (Fp.div (Fp.mul fx1 (Fp.sub x1 .nan)) (Fp.sub fx1 .nan)) = .nan := by
    rw [Fp.sub_nan, Fp.sub_nan]
    have hm : Fp.mul fx1 .nan = .nan := by cases fx1 <;> rfl
    rw [hm]
    show Fp.sub x1 .nan = .nan
    exact Fp.sub_nan x1
  rw [loop]
  simp only [hx2, f_nan]
  have h1 : ¬ Fp.lt (Fp.fabs (.nan : Fp K)) (.fin FalsePosition.TOLERANCE) := fun h => h
  have h2 : ¬ Fp.lt (Fp.mul (.nan : Fp K) .nan) (.fin 0) := fun h => h
  rw [if_neg h1, if_neg h2]
  rfl

/-- Once the left end is NaN the loop uses all its iterations: every row it writes has NaN
in `x0`, `x2`, `fx0`, `fx2` and `error`, and it leaves `hasValidRoot`, `finalRoot` and the
text alone. -/
theorem loop_nan (exp : K → K) (fuel : Nat) :
    ∀ (iter : Nat) (x1 fx1 : Fp K) (s : State K),
      (loop exp fuel iter .nan x1 .nan fx1 s).totalIterations = s.totalIterations + fuel
      ∧ (loop exp fuel iter .nan x1 .nan fx1 s).hasValidRoot = s.hasValidRoot
      ∧ (loop exp fuel iter .nan x1 .nan fx1 s).resultText = s.resultText
      ∧ (∀ i, i < iter → (loop exp fuel iter .nan x1 .nan fx1 s).iterations i = s.iterations i)
      ∧ ∀ j, j < fuel →
          (loop exp fuel iter .nan x1 .nan fx1 s).iterations (iter + j)
            = { iteration := iter + j + 1, x0 := .nan, x1 := x1, x2 := .nan,
                fx0 := .nan, fx1 := fx1, fx2 := .nan, error := .nan } := by
  induction fuel with
  | zero =>
    intro iter x1 fx1 s
    exact ⟨rfl, rfl, rfl, fun _ _ => rfl, fun j hj => absurd hj (Nat.not_lt_zero j)⟩
  | succ m ih =>
    intro iter x1 fx1 s
    rw [loop_succ_nan]
    obtain ⟨h1, h2, h3, h4, h5⟩ := ih (iter + 1) x1 fx1
      { s with
        iterations := Function.update s.iterations iter
          { iteration := iter + 1, x0 := .nan, x1 := x1, x2 := .nan,
            fx0 := .nan, fx1 := fx1, fx2 := .nan, error := .nan },
        totalIterations := s.totalIterations + 1 }
    refine ⟨?_, h2, h3, ?_, ?_⟩
    · rw [h1]; simp only; omega
    · intro i hi
      rw [h4 i (Nat.lt_succ_of_lt hi)]
      exact Function.update_noteq (Nat.ne_of_lt hi) _ _
    · intro j hj
      cases j with
      | zero =>
        have h := h4 iter (Nat.lt_succ_self iter)
        simp only [Function.update_same] at h
        exact h
      | succ j =>
        have := h5 j (Nat.lt_of_succ_lt_succ hj)
        rw [show iter + (j + 1) = iter + 1 + j by omega]
        exact this

/-- One pass of the loop body from a bracket with finite ends `x0 < x1`, a finite left
value and `+inf` as right value: the quotient is `inf / inf`, so the interpolated point is
NaN, and the else branch stores it in the left end. -/
theorem loop_succ_overflow (exp : K → K) (fuel iter : Nat) (x0 x1 fx0 : K) (s : State K)
    (hlt : 0 < x1 - x0) (hd : x1 - x0 ≤ 2 ^ 970) :
    loop exp (fuel + 1) iter (.fin x0) (.fin x1) (.fin fx0) .posInf s =
      loop exp fuel (iter + 1) .nan (.fin x1) .nan .posInf
        { s with
          iterations := Function.update s.iterations iter
            { iteration := iter + 1, x0 := .fin x0, x1 := .fin x1, x2 := .nan,
              fx0 := .fin fx0, fx1 := .posInf, fx2 := .nan, error := .nan },
          totalIterations := s.totalIterations + 1 } := by
  have hsub : Fp.sub (.fin x1) (.fin x0) = .fin (x1 - x0) := by
    rw [Fp.sub_fin_fin]
    exact Fp.overflow_of_abs_le _ (by rw [abs_of_pos hlt]; exact hd)
  have hmul : Fp.mul (.posInf : Fp K) (.fin (x1 - x0)) = .posInf := by
    show (if x1 - x0 = 0 then Fp.nan else if 0 < x1 - x0 then .posInf else .negInf) = .posInf
    rw [if_neg (ne_of_gt hlt), if_pos hlt]
  have hx2 : Fp.sub (.fin x1)
      (Fp.div (Fp.mul .posInf (Fp.sub (.fin x1) (.fin x0))) (Fp.sub .posInf (.fin fx0)))
      = .nan := by
    rw [hsub, hmul]
    rfl
  rw [loop]
  simp only [hx2, f_nan]
  have h1 : ¬ Fp.lt (Fp.fabs (.nan : Fp K)) (.fin FalsePosition.TOLERANCE) := fun h => h
  have h2 : ¬ Fp.lt (Fp.mul (.fin fx0) (.nan : Fp K)) (.fin 0) := fun h => h
  rw [if_neg h1, if_neg h2]
  rfl

/-- The whole loop from such a bracket: 50 rows, the first with NaN as interpolated point,
all later ones with NaN in the left end as well; `hasValidRoot` is left alone. -/
theorem loop_overflow (exp : K → K) (x0 x1 fx0 : K) (s : State K)
    (hlt : 0 < x1 - x0) (hd : x1 - x0 ≤ 2 ^ 970) :
    (loop exp FalsePosition.MAX_ITER 0 (.fin x0) (.fin x1) (.fin fx0) .posInf
        s).totalIterations = s.totalIterations + 50
    ∧ (loop exp FalsePosition.MAX_ITER 0 (.fin x0) (.fin x1) (.fin fx0) .posInf
        s).hasValidRoot = s.hasValidRoot
    ∧ (loop exp FalsePosition.MAX_ITER 0 (.fin x0) (.fin x1) (.fin fx0) .posInf
        s).iterations 0
        = { iteration := 1, x0 := .fin x0, x1 := .fin x1, x2 := .nan,
            fx0 := .fin fx0, fx1 := .posInf, fx2 := .nan, error := .nan }
    ∧ ∀ j, j < 49 →
        (loop exp FalsePosition.MAX_ITER 0 (.fin x0) (.fin x1) (.fin fx0) .posInf
          s).iterations (1 + j)
          = { iteration := 1 + j + 1, x0 := .nan, x1 := .fin x1, x2 := .nan,
              fx0 := .nan, fx1 := .posInf, fx2 := .nan, error := .nan } := by
  have hM : FalsePosition.MAX_ITER = 49 + 1 := rfl
  rw [hM, loop_succ_overflow exp 49 0 x0 x1 fx0 s hlt hd]
  obtain ⟨e1, e2, -, e4, e5⟩ := loop_nan exp 49 (0 + 1) (.fin x1) .posInf
    { s with
      iterations := Function.update s.iterations 0
        { iteration := 0 + 1, x0 := .fin x0, x1 := .fin x1, x2 := .nan,
          fx0 := .fin fx0, fx1 := .posInf, fx2 := .nan, error := .nan },
      totalIterations := s.totalIterations + 1 }
  refine ⟨?_, e2, ?_, ?_⟩
  · have h50 : s.totalIterations + 1 + 49 = s.totalIterations + 50 := by omega
    exact e1.trans h50
  · have h := e4 0 (Nat.lt_succ_self 0)
    simp only [Function.update_same] at h
    exact h
  · intro j hj
    have h := e5 j hj
    rw [show 1 + j = 0 + 1 + j by omega]
    exact h

/-- The handler on finite inputs `x0 < x1` at which `f(x0)` is a finite number `v`,
`f(x1)` is `+inf` and the bracket test lets the pair through: 50 rows, the first with NaN
as interpolated point, all later ones with NaN in the left end as well, and the failure
text. -/
theorem compute_overflow (exp : K → K) (s : State K) (a b x0 x1 v : K)
    (hlt : 0 < x1 - x0) (hd : x1 - x0 ≤ 2 ^ 970)
    (h0 : f exp (.fin x0) a b = .fin v) (h1 : f exp (.fin x1) a b = .posInf)
    (hpass : ¬ Fp.le (.fin 0) (Fp.mul (.fin v) (.posInf : Fp K))) :
    (compute exp s a b x0 x1).totalIterations = 50
    ∧ (compute exp s a b x0 x1).resultText = .failedDidNotConverge
    ∧ (compute exp s a b x0 x1).hasValidRoot = 0
    ∧ (compute exp s a b x0 x1).iterations 0
        = { iteration := 1, x0 := .fin x0, x1 := .fin x1, x2 := .nan,
            fx0 := .fin v, fx1 := .posInf, fx2 := .nan, error := .nan }
    ∧ ∀ j, j < 49 →
        (compute exp s a b x0 x1).iterations (1 + j)
          = { iteration := 1 + j + 1, x0 := .nan, x1 := .fin x1, x2 := .nan,
              fx0 := .nan, fx1 := .posInf, fx2 := .nan, error := .nan } := by
  have hcomp : compute exp s a b x0 x1 =
      if (loop exp FalsePosition.MAX_ITER 0 (.fin x0) (.fin x1) (.fin v) .posInf
          { s with coefA := a, coefB := b, totalIterations := 0, hasValidRoot := 0 }).hasValidRoot
            = 0 then
        { loop exp FalsePosition.MAX_ITER 0 (.fin x0) (.fin x1) (.fin v) .posInf
            { s with coefA := a, coefB := b, totalIterations := 0, hasValidRoot := 0 } with
          resultText := .failedDidNotConverge }
      else
        loop exp FalsePosition.MAX_ITER 0 (.fin x0) (.fin x1) (.fin v) .posInf
          { s with coefA := a, coefB := b, totalIterations := 0, hasValidRoot := 0 } := by
    unfold compute
    simp only [h0, h1, hpass, if_false]
  obtain ⟨e1, e2, e3, e4⟩ := loop_overflow exp x0 x1 v
    { s with coefA := a, coefB := b, totalIterations := 0, hasValidRoot := 0 } hlt hd
  generalize loop exp FalsePosition.MAX_ITER 0 (.fin x0) (.fin x1) (.fin v) .posInf
    { s with coefA := a, coefB := b, totalIterations := 0, hasValidRoot := 0 } = r
    at hcomp e1 e2 e3 e4
  have e2' : r.hasValidRoot = 0 := e2
  rw [hcomp, if_pos e2']
  refine ⟨?_, rfl, e2', e3, e4⟩
  show r.totalIterations = 50
  exact e1.trans (Nat.zero_add 50)

end FalsePositionFp

namespace FalsePositionFp

/-- With `a = 0`, `b = 2`: `f(0) = 1 - 0 - 2 = -1`. -/
theorem overflowRun_f0 : f Real.exp (.fin 0) 0 2 = .fin (-1) := by
  show Fp.sub (Fp.sub (Fp.exp Real.exp (.fin 0)) (Fp.range ((0 : ℝ) * 0))) (.fin 2) = .fin (-1)
  rw [Fp.exp_zero, mul_zero, Fp.range_zero, Fp.sub_fin_fin,
    Fp.overflow_of_abs_le _ (by norm_num), Fp.sub_fin_fin,
    Fp.overflow_of_abs_le _ (by norm_num)]
  norm_num

/-- With `a = 0`, `b = 2`: `f(1000) = inf - 0 - 2 = +inf`, because `exp(1000)` overflows. -/
theorem overflowRun_f1 : f Real.exp (.fin 1000) 0 2 = .posInf := by
  show Fp.sub (Fp.sub (Fp.exp Real.exp (.fin 1000)) (Fp.range ((0 : ℝ) * 1000))) (.fin 2)
    = .posInf
  rw [Fp.exp_1000, zero_mul, Fp.range_zero]
  rfl

/-- The product `f(0) * f(1000) = -1 * inf` is `-inf`, so the test `fx0 * fx1 >= 0` fails
and the pair is taken as a bracket. -/
theorem overflowRun_pass : ¬ Fp.le (.fin 0) (Fp.mul (.fin (-1 : ℝ)) .posInf) := by
  have h : Fp.mul (.fin (-1 : ℝ)) .posInf = .negInf := by
    show (if (-1 : ℝ) = 0 then Fp.nan else if (0 : ℝ) < -1 then .posInf else .negInf)
      = .negInf
    rw [if_neg (by norm_num), if_neg (by norm_num)]
  rw [h]
  exact fun h => h

/-- The run of the handler on `a = 0`, `b = 2`, `x0 = 0`, `x1 = 1000`. -/
theorem overflowRun (s : State ℝ) :
    (compute Real.exp s 0 2 0 1000).totalIterations = 50
    ∧ (compute Real.exp s 0 2 0 1000).resultText = .failedDidNotConverge
    ∧ (compute Real.exp s 0 2 0 1000).hasValidRoot = 0
    ∧ (compute Real.exp s 0 2 0 1000).iterations 0
        = { iteration := 1, x0 := .fin 0, x1 := .fin 1000, x2 := .nan,
            fx0 := .fin (-1), fx1 := .posInf, fx2 := .nan, error := .nan }
    ∧ (compute Real.exp s 0 2 0 1000).iterations 1
        = { iteration := 2, x0 := .nan, x1 := .fin 1000, x2 := .nan,
            fx0 := .nan, fx1 := .posInf, fx2 := .nan, error := .nan } := by
  obtain ⟨h1, h2, h3, h4, h5⟩ := compute_overflow Real.exp s 0 2 0 1000 (-1)
    (by norm_num) (by norm_num) overflowRun_f0 overflowRun_f1 overflowRun_pass
  exact ⟨h1, h2, h3, h4, h5 0 (by decide)⟩

/-- C25 (the code departs from the claim). Input `a = 0`, `b = 2`, `x0 = 0`, `x1 = 1000`
in double arithmetic: `f(0) = -1` and `f(1000) = +inf` (`exp(1000)` overflows), their product
is `-inf`, so the bracket test lets the pair through; the table has 50 rows, and the second
row has `fx0 = NaN` and `fx1 = +inf`, whose product is NaN and not below zero. The bracket
invariant is lost after the first update. -/
theorem falsePositionFp_bracket_lost :
    ¬ Fp.le (.fin 0) (Fp.mul (f Real.exp (.fin 0) 0 2) (f Real.exp (.fin 1000) 0 2))
    ∧ (compute Real.exp (initial (fun _ =>
        ⟨0, .fin 0, .fin 0, .fin 0, .fin 0, .fin 0, .fin 0, .fin 0⟩)) 0 2 0 1000).totalIterations
        = 50
    ∧ ((compute Real.exp (initial (fun _ =>
        ⟨0, .fin 0, .fin 0, .fin 0, .fin 0, .fin 0, .fin 0, .fin 0⟩)) 0 2 0 1000).iterations
          1).fx0 = .nan
    ∧ ((compute Real.exp (initial (fun _ =>
        ⟨0, .fin 0, .fin 0, .fin 0, .fin 0, .fin 0, .fin 0, .fin 0⟩)) 0 2 0 1000).iterations
          1).fx1 = .posInf
    ∧ ¬ Fp.lt
        (Fp.mul
          ((compute Real.exp (initial (fun _ =>
            ⟨0, .fin 0, .fin 0, .fin 0, .fin 0, .fin 0, .fin 0, .fin 0⟩)) 0 2 0
              1000).iterations 1).fx0
          ((compute Real.exp (initial (fun _ =>
            ⟨0, .fin 0, .fin 0, .fin 0, .fin 0, .fin 0, .fin 0, .fin 0⟩)) 0 2 0
              1000).iterations 1).fx1)
        (.fin 0) := by
  obtain ⟨h1, -, -, -, h5⟩ := overflowRun (initial (fun _ =>
    ⟨0, .fin 0, .fin 0, .fin 0, .fin 0, .fin 0, .fin 0, .fin 0⟩))
  refine ⟨?_, h1, ?_, ?_, ?_⟩
  · rw [overflowRun_f0, overflowRun_f1]
    exact overflowRun_pass
  · rw [h5]
  · rw [h5]
  · rw [h5]
    exact fun h => h

/-- C26 (the code departs from the claim). Input `a = 0`, `b = 2`, `x0 = 0`, `x1 = 1000` in
double arithmetic passes the bracket test and its first iteration has `x0 = 0`,
`x1 = 1000`, `fx0 = -1`, `fx1 = +inf`: the quotient `fx1 * (x1 - x0) / (fx1 - fx0)` is
`inf / inf`, so the interpolated point `x2` is NaN, which lies neither above `x0` nor below
`x1`. -/
theorem falsePositionFp_interpolation_nan :
    (compute Real.exp (initial (fun _ =>
        ⟨0, .fin 0, .fin 0, .fin 0, .fin 0, .fin 0, .fin 0, .fin 0⟩)) 0 2 0 1000).totalIterations
        = 50
    ∧ (compute Real.exp (initial (fun _ =>
        ⟨0, .fin 0, .fin 0, .fin 0, .fin 0, .fin 0, .fin 0, .fin 0⟩)) 0 2 0 1000).iterations 0
        = { iteration := 1, x0 := .fin 0, x1 := .fin 1000, x2 := .nan,
            fx0 := .fin (-1), fx1 := .posInf, fx2 := .nan, error := .nan }
    ∧ Fp.div (Fp.mul (.posInf : Fp ℝ) (Fp.sub (.fin 1000) (.fin 0)))
        (Fp.sub .posInf (.fin (-1))) = .nan
    ∧ ¬ Fp.lt (.fin (0 : ℝ))
        ((compute Real.exp (initial (fun _ =>
          ⟨0, .fin 0, .fin 0, .fin 0, .fin 0, .fin 0, .fin 0, .fin 0⟩)) 0 2 0
            1000).iterations 0).x2
    ∧ ¬ Fp.lt
        ((compute Real.exp (initial (fun _ =>
          ⟨0, .fin 0, .fin 0, .fin 0, .fin 0, .fin 0, .fin 0, .fin 0⟩)) 0 2 0
            1000).iterations 0).x2
        (.fin (1000 : ℝ)) := by
  obtain ⟨h1, -, -, h4, -⟩ := overflowRun (initial (fun _ =>
    ⟨0, .fin 0, .fin 0, .fin 0, .fin 0, .fin 0, .fin 0, .fin 0⟩))
  refine ⟨h1, h4, ?_, ?_, ?_⟩
  · rw [Fp.sub_fin_fin, Fp.overflow_of_abs_le _ (by norm_num)]
    have hmul : Fp.mul (.posInf : Fp ℝ) (.fin (1000 - 0)) = .posInf := by
      show (if (1000 - 0 : ℝ) = 0 then Fp.nan else if (0 : ℝ) < 1000 - 0 then .posInf
        else .negInf) = .posInf
      rw [if_neg (by norm_num), if_pos (by norm_num)]
    rw [hmul]
    rfl
  · rw [h4]
    exact fun h => h
  · rw [h4]
    exact fun h => h

/-- C28 (the code departs from the claim). Input `a = 0`, `b = 2`, `x0 = 0`, `x1 = 1000` in
double arithmetic: the first row does not meet the tolerance (its error is NaN), so the
bracket is updated; there `fx0 * fx2 = -1 * NaN` is NaN, which is neither below nor above
zero, and the else branch is taken: the second row has the first row's `x2` as `x0` and
the first row's `x1` as `x1`. -/
theorem falsePositionFp_update_on_nan :
    ¬ Fp.lt
        ((compute Real.exp (initial (fun _ =>
          ⟨0, .fin 0, .fin 0, .fin 0, .fin 0, .fin 0, .fin 0, .fin 0⟩)) 0 2 0
            1000).iterations 0).error
        (.fin FalsePosition.TOLERANCE)
    ∧ Fp.mul
        ((compute Real.exp (initial (fun _ =>
          ⟨0, .fin 0, .fin 0, .fin 0, .fin 0, .fin 0, .fin 0, .fin 0⟩)) 0 2 0
            1000).iterations 0).fx0
        ((compute Real.exp (initial (fun _ =>
          ⟨0, .fin 0, .fin 0, .fin 0, .fin 0, .fin 0, .fin 0, .fin 0⟩)) 0 2 0
            1000).iterations 0).fx2 = .nan
    ∧ ¬ Fp.lt (.nan : Fp ℝ) (.fin 0)
    ∧ ¬ Fp.lt (.fin (0 : ℝ)) .nan
    ∧ ((compute Real.exp (initial (fun _ =>
        ⟨0, .fin 0, .fin 0, .fin 0, .fin 0, .fin 0, .fin 0, .fin 0⟩)) 0 2 0 1000).iterations
          1).x0
        = ((compute Real.exp (initial (fun _ =>
            ⟨0, .fin 0, .fin 0, .fin 0, .fin 0, .fin 0, .fin 0, .fin 0⟩)) 0 2 0
              1000).iterations 0).x2
    ∧ ((compute Real.exp (initial (fun _ =>
        ⟨0, .fin 0, .fin 0, .fin 0, .fin 0, .fin 0, .fin 0, .fin 0⟩)) 0 2 0 1000).iterations
          1).x1
        = ((compute Real.exp (initial (fun _ =>
            ⟨0, .fin 0, .fin 0, .fin 0, .fin 0, .fin 0, .fin 0, .fin 0⟩)) 0 2 0
              1000).iterations 0).x1 := by
  obtain ⟨-, -, -, h4, h5⟩ := overflowRun (initial (fun _ =>
    ⟨0, .fin 0, .fin 0, .fin 0, .fin 0, .fin 0, .fin 0, .fin 0⟩))
  rw [h4, h5]
  exact ⟨fun h => h, rfl, fun h => h, fun h => h, rfl, rfl⟩

/-- With `a = 0`, `b = 0`: `f(-1000) = 0`, because `exp(-1000)` underflows to zero. -/
theorem underflowRun_f0 : f Real.exp (.fin (-1000)) 0 0 = .fin 0 := by
  show Fp.sub (Fp.sub (Fp.exp Real.exp (.fin (-1000))) (Fp.range ((0 : ℝ) * -1000))) (.fin 0)
    = .fin 0
  rw [Fp.exp_neg_1000, zero_mul, Fp.range_zero, Fp.sub_fin_fin,
    Fp.overflow_of_abs_le _ (by norm_num), Fp.sub_fin_fin,
    Fp.overflow_of_abs_le _ (by norm_num)]
  norm_num

/-- With `a = 0`, `b = 0`: `f(1000) = +inf`. -/
theorem underflowRun_f1 : f Real.exp (.fin 1000) 0 0 = .posInf := by
  show Fp.sub (Fp.sub (Fp.exp Real.exp (.fin 1000)) (Fp.range ((0 : ℝ) * 1000))) (.fin 0)
    = .posInf
  rw [Fp.exp_1000, zero_mul, Fp.range_zero]
  rfl

/-- The product `0 * inf` is NaN. -/
theorem underflowRun_product : Fp.mul (.fin (0 : ℝ)) .posInf = .nan := by
  show (if (0 : ℝ) = 0 then Fp.nan else if (0 : ℝ) < 0 then .posInf else .negInf) = .nan
  rw [if_pos rfl]

/-- C27 (the code departs from the claim). Input `a = 0`, `b = 0`, `x0 = -1000`,
`x1 = 1000` in double arithmetic: `f(x) = e^x` has no real root, yet `f(-1000) = 0`
(underflow) and `f(1000) = +inf` (overflow), their product `0 * inf` is NaN, the test
`fx0 * fx1 >= 0` is false on NaN, and the handler does not answer NoBracket: it runs its
50 iterations and ends with the did-not-converge text. -/
theorem falsePositionFp_no_root_not_rejected :
    (∀ r : ℝ, FalsePosition.f Real.exp r 0 0 ≠ 0)
    ∧ f Real.exp (.fin (-1000)) 0 0 = .fin 0
    ∧ f Real.exp (.fin 1000) 0 0 = .posInf
    ∧ Fp.mul (f Real.exp (.fin (-1000)) 0 0) (f Real.exp (.fin 1000) 0 0) = .nan
    ∧ ¬ Fp.le (.fin 0) (Fp.mul (f Real.exp (.fin (-1000)) 0 0) (f Real.exp (.fin 1000) 0 0))
    ∧ (compute Real.exp (initial (fun _ =>
        ⟨0, .fin 0, .fin 0, .fin 0, .fin 0, .fin 0, .fin 0, .fin 0⟩)) 0 0 (-1000)
          1000).resultText = .failedDidNotConverge
    ∧ (compute Real.exp (initial (fun _ =>
        ⟨0, .fin 0, .fin 0, .fin 0, .fin 0, .fin 0, .fin 0, .fin 0⟩)) 0 0 (-1000)
          1000).totalIterations = 50 := by
  have hpass : ¬ Fp.le (.fin 0) (Fp.mul (.fin (0 : ℝ)) .posInf) := by
    rw [underflowRun_product]
    exact fun h => h
  obtain ⟨h1, h2, -, -, -⟩ := compute_overflow Real.exp (initial (fun _ =>
    ⟨0, .fin 0, .fin 0, .fin 0, .fin 0, .fin 0, .fin 0, .fin 0⟩)) 0 0 (-1000) 1000 0
    (by norm_num) (by norm_num) underflowRun_f0 underflowRun_f1 hpass
  refine ⟨?_, underflowRun_f0, underflowRun_f1, ?_, ?_, h2, h1⟩
  · intro r
    have := Real.exp_pos r
    unfold FalsePosition.f
    intro h
    linarith
  · rw [underflowRun_f0, underflowRun_f1, underflowRun_product]
  · rw [underflowRun_f0, underflowRun_f1]
    exact hpass

end FalsePositionFp

namespace Fp

variable {K : Type} [LinearOrderedField K]

/-- A result in range is delivered as it is by a product, a quotient or `exp`. -/
theorem range_of_inRange (v : K) (h : inRange v) : range v = .fin v := by
  rcases h with h0 | ⟨h1, h2⟩
  · rw [h0]; exact range_zero
  · exact range_of_abs v h1 h2

/-- A result in range is delivered as it is by a sum or a difference. -/
theorem overflow_of_inRange (v : K) (h : inRange v) : overflow v = .fin v := by
  rcases h with h0 | ⟨-, h2⟩
  · rw [h0]
    exact overflow_of_abs_lt 0 (by rw [abs_zero]; exact threshold_pos)
  · exact overflow_of_abs_lt v h2

/-- A result below the overflow threshold is delivered as a finite number. -/
theorem range_fin_of_abs_lt (v : K) (h : |v| < 2 ^ 1024 - 2 ^ 970) :
    ∃ w, range v = .fin w := by
  unfold range
  split_ifs
  · exact ⟨0, rfl⟩
  · exact ⟨v, overflow_of_abs_lt v h⟩

end Fp

namespace ExponentialFp

variable {K : Type} [LinearOrderedField K]

/-- Method 1 of `g`. -/
theorem exponentialFp_g_method1 (exp log : K → K) (x a b : K) :
    g exp log x a b 1 = if a * x + b ≤ 0 then .nan else Fp.log log (.fin (a * x + b)) := by
  unfold g; rw [if_pos rfl]

/-- Method 2 of `g`. -/
theorem exponentialFp_g_method2 (exp log : K → K) (x a b : K) :
    g exp log x a b 2
      = if a = 0 then .nan else Fp.div (Fp.sub (Fp.exp exp (.fin x)) (.fin b)) (.fin a) := by
  unfold g; rw [if_neg (by decide), if_pos rfl]

/-- Method 3 of `g`. -/
theorem exponentialFp_g_method3 (exp log : K → K) (x a b : K) :
    g exp log x a b 3
      = if a = 0 ∨ Fp.le (Fp.sub (Fp.exp exp (.fin x)) (.fin b)) (.fin 0) then .nan
        else Fp.log log (Fp.div (Fp.sub (Fp.exp exp (.fin x)) (.fin b)) (.fin a)) := by
  unfold g; rw [if_neg (by decide), if_neg (by decide), if_pos rfl]

/-- Method 4 of `g`. -/
theorem exponentialFp_g_method4 (exp log : K → K) (x a b : K) :
    g exp log x a b 4
      = if a = 0 then .nan
        else Fp.sub (Fp.div (Fp.exp exp (.fin x)) (.fin a)) (Fp.div (.fin b) (.fin a)) := by
  unfold g; rw [if_neg (by decide), if_neg (by decide), if_neg (by decide), if_pos rfl]

/-- Method 5 of `g`. -/
theorem exponentialFp_g_method5 (exp log : K → K) (x a b : K) :
    g exp log x a b 5
      = Fp.sub (.fin x)
          (Fp.mul (.fin (1 / 10))
            (Fp.sub (Fp.sub (Fp.exp exp (.fin x)) (.fin (a * x))) (.fin b))) := by
  unfold g
  rw [if_neg (by decide), if_neg (by decide), if_neg (by decide), if_neg (by decide),
    if_pos rfl]

/-- Method 1: NaN exactly under the guard, the logarithm otherwise. -/
theorem exponentialFp_g1 (exp log : K → K) (x a b : K) :
    (g exp log x a b 1 = .nan ↔ a * x + b ≤ 0)
    ∧ (¬ a * x + b ≤ 0 → g exp log x a b 1 = .fin (log (a * x + b))) := by
  have hfin : ¬ a * x + b ≤ 0 → g exp log x a b 1 = .fin (log (a * x + b)) := by
    intro h
    have hpos : 0 < a * x + b := not_le.mp h
    rw [exponentialFp_g_method1, if_neg h]
    show (if a * x + b < 0 then Fp.nan else if a * x + b = 0 then .negInf
      else .fin (log (a * x + b))) = .fin (log (a * x + b))
    rw [if_neg (not_lt.mpr (le_of_lt hpos)), if_neg (ne_of_gt hpos)]
  refine ⟨⟨fun h => ?_, fun h => ?_⟩, hfin⟩
  · by_contra hn
    rw [hfin hn] at h
    exact Fp.noConfusion h
  · rw [exponentialFp_g_method1, if_pos h]

/-- Method 2: NaN exactly when `a = 0`; an infinity when `exp` overflows; the quotient when
every intermediate result is in range. -/
theorem exponentialFp_g2 (exp log : K → K) (x a b : K) :
    (g exp log x a b 2 = .nan ↔ a = 0)
    ∧ (a ≠ 0 → Fp.exp exp (.fin x) = .posInf →
        g exp log x a b 2 = .posInf ∨ g exp log x a b 2 = .negInf)
    ∧ (a ≠ 0 → Fp.inRange (exp x) → Fp.inRange (exp x - b) → Fp.inRange ((exp x - b) / a) →
        g exp log x a b 2 = .fin ((exp x - b) / a)) := by
  refine ⟨⟨fun h => ?_, fun h => ?_⟩, ?_, ?_⟩
  · by_contra ha
    rw [exponentialFp_g_method2, if_neg ha] at h
    exact Fp.div_fin_ne_nan _ a (Fp.sub_fin_ne_nan _ b (Fp.exp_fin_ne_nan exp x)) ha h
  · rw [exponentialFp_g_method2, if_pos h]
  · intro ha hE
    rw [exponentialFp_g_method2, if_neg ha, hE]
    show (if 0 ≤ a then Fp.posInf else .negInf) = .posInf
      ∨ (if 0 ≤ a then Fp.posInf else .negInf) = .negInf
    split_ifs
    · exact Or.inl rfl
    · exact Or.inr rfl
  · intro ha h1 h2 h3
    rw [exponentialFp_g_method2, if_neg ha]
    show Fp.div (Fp.sub (Fp.range (exp x)) (.fin b)) (.fin a) = .fin ((exp x - b) / a)
    rw [Fp.range_of_inRange _ h1, Fp.sub_fin_fin, Fp.overflow_of_inRange _ h2]
    show (if a = 0 then (if exp x - b = 0 then Fp.nan else if 0 < exp x - b then .posInf
      else .negInf) else Fp.range ((exp x - b) / a)) = .fin ((exp x - b) / a)
    rw [if_neg ha, Fp.range_of_inRange _ h3]

/-- Method 3: NaN exactly when the guard returns or the quotient handed to `log` is below
zero; with `a > 0` it is `+inf` when `exp` overflows and the logarithm of the quotient when
every intermediate result is in range; with `a < 0` it is NaN in both cases. -/
theorem exponentialFp_g3 (exp log : K → K) (x a b : K) :
    (g exp log x a b 3 = .nan ↔
        a = 0 ∨ Fp.le (Fp.sub (Fp.exp exp (.fin x)) (.fin b)) (.fin 0)
          ∨ Fp.lt (Fp.div (Fp.sub (Fp.exp exp (.fin x)) (.fin b)) (.fin a)) (.fin 0))
    ∧ (Fp.exp exp (.fin x) = .posInf → 0 < a → g exp log x a b 3 = .posInf)
    ∧ (Fp.exp exp (.fin x) = .posInf → a < 0 → g exp log x a b 3 = .nan)
    ∧ (0 < a → 0 < exp x - b → Fp.inRange (exp x) → Fp.inRange (exp x - b) →
        Fp.inRange ((exp x - b) / a) →
        g exp log x a b 3 = .fin (log ((exp x - b) / a)))
    ∧ (a < 0 → 0 < exp x - b → Fp.inRange (exp x) → Fp.inRange (exp x - b) →
        Fp.inRange ((exp x - b) / a) →
        g exp log x a b 3 = .nan) := by
  have hquot : a ≠ 0 → Fp.inRange (exp x) → Fp.inRange (exp x - b) →
      Fp.inRange ((exp x - b) / a) →
      Fp.sub (Fp.exp exp (.fin x)) (.fin b) = .fin (exp x - b)
      ∧ Fp.div (Fp.sub (Fp.exp exp (.fin x)) (.fin b)) (.fin a) = .fin ((exp x - b) / a) := by
    intro ha h1 h2 h3
    have hs : Fp.sub (Fp.exp exp (.fin x)) (.fin b) = .fin (exp x - b) := by
      show Fp.sub (Fp.range (exp x)) (.fin b) = .fin (exp x - b)
      rw [Fp.range_of_inRange _ h1, Fp.sub_fin_fin, Fp.overflow_of_inRange _ h2]
    refine ⟨hs, ?_⟩
    rw [hs]
    show (if a = 0 then (if exp x - b = 0 then Fp.nan else if 0 < exp x - b then .posInf
      else .negInf) else Fp.range ((exp x - b) / a)) = .fin ((exp x - b) / a)
    rw [if_neg ha, Fp.range_of_inRange _ h3]
  have hinf : Fp.exp exp (.fin x) = .posInf →
      Fp.sub (Fp.exp exp (.fin x)) (.fin b) = .posInf := by
    intro hE
    rw [hE]
    rfl
  refine ⟨⟨fun h => ?_, fun h => ?_⟩, ?_, ?_, ?_, ?_⟩
  · rw [exponentialFp_g_method3] at h
    by_cases hg : a = 0 ∨ Fp.le (Fp.sub (Fp.exp exp (.fin x)) (.fin b)) (.fin 0)
    · rcases hg with h0 | h0
      · exact Or.inl h0
      · exact Or.inr (Or.inl h0)
    · rw [if_neg hg] at h
      have ha : a ≠ 0 := fun h0 => hg (Or.inl h0)
      have hne := Fp.div_fin_ne_nan _ a (Fp.sub_fin_ne_nan _ b (Fp.exp_fin_ne_nan exp x)) ha
      exact Or.inr (Or.inr ((Fp.log_eq_nan_iff log _ hne).mp h))
  · rw [exponentialFp_g_method3]
    by_cases hg : a = 0 ∨ Fp.le (Fp.sub (Fp.exp exp (.fin x)) (.fin b)) (.fin 0)
    · rw [if_pos hg]
    · rw [if_neg hg]
      have ha : a ≠ 0 := fun h0 => hg (Or.inl h0)
      have hne := Fp.div_fin_ne_nan _ a (Fp.sub_fin_ne_nan _ b (Fp.exp_fin_ne_nan exp x)) ha
      rcases h with h0 | h0 | h0
      · exact absurd h0 ha
      · exact absurd (Or.inr h0) hg
      · exact (Fp.log_eq_nan_iff log _ hne).mpr h0
  · intro hE ha
    have hg : ¬ (a = 0 ∨ Fp.le (Fp.sub (Fp.exp exp (.fin x)) (.fin b)) (.fin 0)) := by
      rw [hinf hE]
      rintro (h0 | h0)
      · exact absurd h0 (ne_of_gt ha)
      · exact h0
    rw [exponentialFp_g_method3, if_neg hg, hinf hE]
    show Fp.log log (if 0 ≤ a then Fp.posInf else .negInf) = .posInf
    rw [if_pos (le_of_lt ha)]
    rfl
  · intro hE ha
    have hg : ¬ (a = 0 ∨ Fp.le (Fp.sub (Fp.exp exp (.fin x)) (.fin b)) (.fin 0)) := by
      rw [hinf hE]
      rintro (h0 | h0)
      · exact absurd h0 (ne_of_lt ha)
      · exact h0
    rw [exponentialFp_g_method3, if_neg hg, hinf hE]
    show Fp.log log (if 0 ≤ a then Fp.posInf else .negInf) = .nan
    rw [if_neg (not_le.mpr ha)]
    rfl
  · intro ha he h1 h2 h3
    obtain ⟨hs, hq⟩ := hquot (ne_of_gt ha) h1 h2 h3
    have hg : ¬ (a = 0 ∨ Fp.le (Fp.sub (Fp.exp exp (.fin x)) (.fin b)) (.fin 0)) := by
      rw [hs]
      rintro (h0 | h0)
      · exact absurd h0 (ne_of_gt ha)
      · exact absurd h0 (not_le.mpr he)
    have hpos : 0 < (exp x - b) / a := div_pos he ha
    rw [exponentialFp_g_method3, if_neg hg, hq]
    show (if (exp x - b) / a < 0 then Fp.nan else if (exp x - b) / a = 0 then .negInf
      else .fin (log ((exp x - b) / a))) = .fin (log ((exp x - b) / a))
    rw [if_neg (not_lt.mpr (le_of_lt hpos)), if_neg (ne_of_gt hpos)]
  · intro ha he h1 h2 h3
    obtain ⟨hs, hq⟩ := hquot (ne_of_lt ha) h1 h2 h3
    have hg : ¬ (a = 0 ∨ Fp.le (Fp.sub (Fp.exp exp (.fin x)) (.fin b)) (.fin 0)) := by
      rw [hs]
      rintro (h0 | h0)
      · exact absurd h0 (ne_of_lt ha)
      · exact absurd h0 (not_le.mpr he)
    have hneg : (exp x - b) / a < 0 := div_neg_of_pos_of_neg he ha
    rw [exponentialFp_g_method3, if_neg hg, hq]
    show (if (exp x - b) / a < 0 then Fp.nan else if (exp x - b) / a = 0 then .negInf
      else .fin (log ((exp x - b) / a))) = .nan
    rw [if_pos hneg]

/-- Method 4: NaN exactly when `a = 0` (for a quotient `b / a` that does not overflow); an
infinity when `exp` overflows; `e^x / a - b / a` when every intermediate result is in
range. -/
theorem exponentialFp_g4 (exp log : K → K) (x a b : K) :
    (|b / a| < 2 ^ 1024 - 2 ^ 970 → (g exp log x a b 4 = .nan ↔ a = 0))
    ∧ (a ≠ 0 → |b / a| < 2 ^ 1024 - 2 ^ 970 → Fp.exp exp (.fin x) = .posInf →
        g exp log x a b 4 = .posInf ∨ g exp log x a b 4 = .negInf)
    ∧ (a ≠ 0 → Fp.inRange (exp x) → Fp.inRange (exp x / a) → Fp.inRange (b / a) →
        Fp.inRange (exp x / a - b / a) →
        g exp log x a b 4 = .fin (exp x / a - b / a)) := by
  have hq : a ≠ 0 → Fp.div (.fin b) (.fin a) = Fp.range (b / a) := by
    intro ha
    show (if a = 0 then (if b = 0 then Fp.nan else if 0 < b then .posInf else .negInf)
      else Fp.range (b / a)) = Fp.range (b / a)
    rw [if_neg ha]
  refine ⟨fun hb => ⟨fun h => ?_, fun h => ?_⟩, ?_, ?_⟩
  · by_contra ha
    rw [exponentialFp_g_method4, if_neg ha, hq ha] at h
    obtain ⟨w, hw⟩ := Fp.range_fin_of_abs_lt _ hb
    rw [hw] at h
    exact Fp.sub_fin_ne_nan _ w (Fp.div_fin_ne_nan _ a (Fp.exp_fin_ne_nan exp x) ha) h
  · rw [exponentialFp_g_method4, if_pos h]
  · intro ha hb hE
    obtain ⟨w, hw⟩ := Fp.range_fin_of_abs_lt _ hb
    rw [exponentialFp_g_method4, if_neg ha, hq ha, hw, hE]
    show Fp.sub (if 0 ≤ a then Fp.posInf else .negInf) (.fin w) = .posInf
      ∨ Fp.sub (if 0 ≤ a then Fp.posInf else .negInf) (.fin w) = .negInf
    split_ifs
    · exact Or.inl rfl
    · exact Or.inr rfl
  · intro ha h1 h2 h3 h4
    rw [exponentialFp_g_method4, if_neg ha, hq ha, Fp.range_of_inRange _ h3]
    show Fp.sub (Fp.div (Fp.range (exp x)) (.fin a)) (.fin (b / a)) = .fin (exp x / a - b / a)
    rw [Fp.range_of_inRange _ h1]
    have hd : Fp.div (.fin (exp x)) (.fin a) = .fin (exp x / a) := by
      show (if a = 0 then (if exp x = 0 then Fp.nan else if 0 < exp x then .posInf
        else .negInf) else Fp.range (exp x / a)) = .fin (exp x / a)
      rw [if_neg ha, Fp.range_of_inRange _ h2]
    rw [hd, Fp.sub_fin_fin, Fp.overflow_of_inRange _ h4]

/-- Method 5: never NaN; `-inf` when `exp` overflows; `x - 0.1 (e^x - a x - b)` when every
intermediate result is in range. -/
theorem exponentialFp_g5 (exp log : K → K) (x a b : K) :
    g exp log x a b 5 ≠ .nan
    ∧ (Fp.exp exp (.fin x) = .posInf → g exp log x a b 5 = .negInf)
    ∧ (Fp.inRange (exp x) → Fp.inRange (exp x - a * x) → Fp.inRange (exp x - a * x - b) →
        Fp.inRange (1 / 10 * (exp x - a * x - b)) →
        Fp.inRange (x - 1 / 10 * (exp x - a * x - b)) →
        g exp log x a b 5 = .fin (x - 1 / 10 * (exp x - a * x - b))) := by
  refine ⟨?_, ?_, ?_⟩
  · rw [exponentialFp_g_method5]
    apply Fp.fin_sub_ne_nan
    apply Fp.fin_mul_ne_nan _ _ (by norm_num)
    apply Fp.sub_fin_ne_nan
    apply Fp.sub_fin_ne_nan
    exact Fp.exp_fin_ne_nan exp x
  · intro hE
    rw [exponentialFp_g_method5, hE]
    show Fp.sub (.fin x) (if (1 / 10 : K) = 0 then Fp.nan
      else if (0 : K) < 1 / 10 then .posInf else .negInf) = .negInf
    rw [if_neg (by norm_num), if_pos (by norm_num)]
    rfl
  · intro h1 h2 h3 h4 h5
    rw [exponentialFp_g_method5]
    show Fp.sub (.fin x)
      (Fp.mul (.fin (1 / 10)) (Fp.sub (Fp.sub (Fp.range (exp x)) (.fin (a * x))) (.fin b)))
      = .fin (x - 1 / 10 * (exp x - a * x - b))
    rw [Fp.range_of_inRange _ h1, Fp.sub_fin_fin, Fp.overflow_of_inRange _ h2,
      Fp.sub_fin_fin, Fp.overflow_of_inRange _ h3]
    show Fp.sub (.fin x) (Fp.range (1 / 10 * (exp x - a * x - b)))
      = .fin (x - 1 / 10 * (exp x - a * x - b))
    rw [Fp.range_of_inRange _ h4, Fp.sub_fin_fin, Fp.overflow_of_inRange _ h5]

end ExponentialFp

namespace ExponentialFp

variable {K : Type} [LinearOrderedField K]

end ExponentialFp

end NumericalMethods
